import Mathlib

/-! AllyHubCenter: identity, access and endpoint-pool core

A shallow embedding of the Go packages `internal/auth`, `internal/config`,
`internal/models`, `internal/database` and `internal/handlers`.

Conventions of the embedding:

* a Go `string` is the sequence of its bytes (`GoString`);
* a Go `map[string]V` is `none` when it is the nil map and otherwise `some l`
  with `l` the entries in strictly increasing bytewise key order (`GoMap V`);
* a `time.Time` is the instant it denotes, in nanoseconds since the Unix epoch;
  every call of `time.Now()` is an explicit clock reading passed as an argument;
  where a time is written as text, the zone offset of the location it carries is
  an explicit argument as well;
* the bytes delivered by `crypto/rand` are an explicit argument as well;
* the SQLite file is a record of tables, each a list of rows in insertion order,
  and every statement is a function from one such record to the next.
-/

namespace AllyHub

/-! ## Strings, time, randomness -/

/-- One byte of a Go string. -/
abbrev Byte := Fin 256

/-- A Go `string`: an arbitrary byte sequence (not necessarily valid UTF-8). -/
abbrev GoString := List Byte

/-- The Go string written by an ASCII literal of the source. -/
def gs (s : String) : GoString := s.toList.map (fun c => Fin.ofNat c.toNat)

/-- A `time.Time`, as nanoseconds since the Unix epoch. -/
abbrev Time := Int

/-- The constant `time.Hour`, a `time.Duration` in nanoseconds. -/
def Hour : Int := 3600 * 1000000000

/-- The method `Time.Add`. -/
def Time.Add (t : Time) (d : Int) : Time := t + d

/-- The method `Time.Before`. -/
def Time.Before (t u : Time) : Bool := decide (t < u)

/-- The method `Time.UnixNano`. -/
def Time.UnixNano (t : Time) : Int := t

/-- The bytes handed out by `crypto/rand`: `rnd i` is the `i`-th byte read. -/
abbrev RandSource := Nat → Byte

/-- The call `rand.Read(bytes)` on a fresh slice of `n` bytes. -/
def randRead (rnd : RandSource) (n : Nat) : List Byte := (List.range n).map rnd

/-- One character of `hex.EncodeToString`: index `n` of `"0123456789abcdef"`. -/
def hexDigit (n : Nat) : Byte := if n < 10 then Fin.ofNat (48 + n) else Fin.ofNat (87 + n)

/-- The function `hex.EncodeToString`. -/
def EncodeToString : List Byte → GoString
  | [] => []
  | v :: rest => hexDigit (v.val / 16) :: hexDigit (v.val % 16) :: EncodeToString rest

/-- Decimal digits of a natural number, most significant first (`strconv`). -/
def formatNat (n : Nat) : GoString := (Nat.toDigits 10 n).map (fun c => Fin.ofNat c.toNat)

/-- The call `fmt.Sprintf("%d", n)` for an `int64`. -/
def formatInt (n : Int) : GoString :=
  if n < 0 then (45 : Byte) :: formatNat n.natAbs else formatNat n.natAbs

/-! ## `internal/models` -/

/-- A Go map with string keys: `none` is the nil map. -/
abbrev GoMap (V : Type) := Option (List (GoString × V))

/-- The struct `models.User`. -/
structure User where
  ID : GoString
  Email : GoString
  Password : GoString
  Created : Time
  Updated : Time
  deriving DecidableEq, Repr

/-- The struct `models.EndpointURL`. -/
structure EndpointURL where
  URL : GoString
  Method : GoString
  Headers : GoMap GoString
  Description : GoString
  deriving DecidableEq, Repr

/-- The struct `models.EndpointPool`. -/
structure EndpointPool where
  ID : GoString
  UserID : GoString
  Name : GoString
  Description : GoString
  PoolType : GoString
  Endpoints : GoMap EndpointURL
  Created : Time
  Updated : Time
  IsDefault : Bool
  deriving DecidableEq, Repr

/-- The struct `models.APIToken`. -/
structure APIToken where
  ID : GoString
  UserID : GoString
  PoolID : GoString
  Token : GoString
  Name : GoString
  Created : Time
  LastUsed : Time
  Active : Bool
  deriving DecidableEq, Repr

/-- The struct `models.Session`. -/
structure Session where
  ID : GoString
  UserID : GoString
  Created : Time
  Expires : Time
  deriving DecidableEq, Repr

/-! ## `internal/auth` -/

/-- The function `subtle.ConstantTimeByteEq` on two `uint8`:
`int((uint32(x^y) - 1) >> 31)`. -/
def ConstantTimeByteEq (x y : Nat) : Nat :=
  (((x ^^^ y) % 2 ^ 32 + 2 ^ 32 - 1) % 2 ^ 32) >>> 31

/-- The loop of `subtle.ConstantTimeCompare`: `v |= x[i] ^ y[i]` over every index,
with `v` a `uint8`. It visits every position whatever the bytes are. -/
def xorAccumulate : Nat → List Byte → List Byte → Nat
  | v, x :: xs, y :: ys => xorAccumulate ((v ||| (x.val ^^^ y.val)) % 256) xs ys
  | v, _, _ => v

/-- The function `subtle.ConstantTimeCompare`. -/
def ConstantTimeCompare (x y : List Byte) : Nat :=
  if x.length ≠ y.length then 0 else ConstantTimeByteEq (xorAccumulate 0 x y) 0

/-- The function `auth.GenerateSessionID`. -/
def GenerateSessionID (rnd : RandSource) : GoString := EncodeToString (randRead rnd 32)

/-- The function `auth.GenerateAPIToken`. -/
def GenerateAPIToken (rnd : RandSource) : GoString := EncodeToString (randRead rnd 32)

/-- The function `auth.CreateSession`. It reads the random source once and the
clock twice: `now1` is the reading stored in `Created`, `now2` the later
reading that `Expires` is computed from. -/
def CreateSession (rnd : RandSource) (now1 now2 : Time) (userID : GoString) : Session :=
  { ID := GenerateSessionID rnd
    UserID := userID
    Created := now1
    Expires := Time.Add now2 (24 * Hour) }

/-- The function `auth.IsSessionValid`; `now` is the reading of `time.Now()`. -/
def IsSessionValid (now : Time) (session : Session) : Bool :=
  Time.Before now session.Expires

/-- The function `auth.ValidateAPIToken`. -/
def ValidateAPIToken (providedToken : GoString) (storedToken : APIToken) : Bool :=
  if !storedToken.Active then false
  else ConstantTimeCompare providedToken storedToken.Token == 1

/-- The function `auth.GetPoolID`. -/
def GetPoolID (token : APIToken) : GoString := token.PoolID

/-! ## `unicode/utf8`

The tables of `utf8.DecodeRune` written as comparisons, and the shifts and masks
of `utf8.EncodeRune` written as division and remainder. -/

/-- The byte with value `n` (a conversion to `uint8`). -/
def byte (n : Nat) : Byte := Fin.ofNat n

/-- The lower bound on the second byte that `utf8.DecodeRune` accepts after
leading byte `b0` (the `acceptRanges` table). -/
def acceptLo (b0 : Byte) : Nat := if b0.val = 0xE0 then 0xA0 else if b0.val = 0xF0 then 0x90 else 0x80

/-- The upper bound on the second byte that `utf8.DecodeRune` accepts after
leading byte `b0`. -/
def acceptHi (b0 : Byte) : Nat := if b0.val = 0xED then 0x9F else if b0.val = 0xF4 then 0x8F else 0xBF

/-- A continuation byte, `0x80..0xBF`. -/
def isCont (b : Byte) : Bool := decide (0x80 ≤ b.val ∧ b.val ≤ 0xBF)

/-- The bytes `b0 b1` are a well-formed two-byte sequence. -/
def valid2 (b0 b1 : Byte) : Bool := decide (0xC2 ≤ b0.val ∧ b0.val ≤ 0xDF) && isCont b1

/-- The bytes `b0 b1 b2` are a well-formed three-byte sequence. -/
def valid3 (b0 b1 b2 : Byte) : Bool :=
  decide (0xE0 ≤ b0.val ∧ b0.val ≤ 0xEF) &&
    decide (acceptLo b0 ≤ b1.val ∧ b1.val ≤ acceptHi b0) && isCont b2

/-- The bytes `b0 b1 b2 b3` are a well-formed four-byte sequence. -/
def valid4 (b0 b1 b2 b3 : Byte) : Bool :=
  decide (0xF0 ≤ b0.val ∧ b0.val ≤ 0xF4) &&
    decide (acceptLo b0 ≤ b1.val ∧ b1.val ≤ acceptHi b0) && isCont b2 && isCont b3

/-- The rune of a well-formed two-byte sequence. -/
def rune2 (b0 b1 : Byte) : Nat := (b0.val - 0xC0) * 64 + (b1.val - 0x80)

/-- The rune of a well-formed three-byte sequence. -/
def rune3 (b0 b1 b2 : Byte) : Nat :=
  (b0.val - 0xE0) * 4096 + (b1.val - 0x80) * 64 + (b2.val - 0x80)

/-- The rune of a well-formed four-byte sequence. -/
def rune4 (b0 b1 b2 b3 : Byte) : Nat :=
  (b0.val - 0xF0) * 262144 + (b1.val - 0x80) * 4096 + (b2.val - 0x80) * 64 + (b3.val - 0x80)

/-- The constant `utf8.RuneError` (U+FFFD) in UTF-8. -/
def replacementBytes : List Byte := [0xEF, 0xBF, 0xBD]

/-- The function `utf8.EncodeRune`: surrogates and values above U+10FFFF are
written as U+FFFD. -/
def encodeRune (r : Nat) : List Byte :=
  if r < 0x80 then [byte r]
  else if r < 0x800 then [byte (0xC0 + r / 64), byte (0x80 + r % 64)]
  else if (0xD800 ≤ r ∧ r ≤ 0xDFFF) ∨ 0x10FFFF < r then replacementBytes
  else if r < 0x10000 then
    [byte (0xE0 + r / 4096), byte (0x80 + r / 64 % 64), byte (0x80 + r % 64)]
  else
    [byte (0xF0 + r / 262144), byte (0x80 + r / 4096 % 64), byte (0x80 + r / 64 % 64),
      byte (0x80 + r % 64)]

/-- The function `utf8.ValidString`: the bytes are a concatenation of well-formed
sequences. -/
def ValidString : List Byte → Bool
  | [] => true
  | b0 :: t0 =>
    if b0.val < 0x80 then ValidString t0
    else
      match t0 with
      | [] => false
      | b1 :: t1 =>
        if valid2 b0 b1 then ValidString t1
        else
          match t1 with
          | [] => false
          | b2 :: t2 =>
            if valid3 b0 b1 b2 then ValidString t2
            else
              match t2 with
              | [] => false
              | b3 :: t3 => if valid4 b0 b1 b2 b3 then ValidString t3 else false

/-! ## Go maps with string keys -/

/-- Bytewise lexicographic order on Go strings (the `<` of Go). -/
def ltBytes : List Byte → List Byte → Bool
  | _, [] => false
  | [], _ :: _ => true
  | a :: as, b :: bs => if a.val < b.val then true else if b.val < a.val then false else ltBytes as bs

/-- The assignment `m[k] = v` on the entries of a non-nil map. -/
def mapInsert {V : Type} (k : GoString) (v : V) : List (GoString × V) → List (GoString × V)
  | [] => [(k, v)]
  | (k', v') :: rest =>
    if ltBytes k k' then (k, v) :: (k', v') :: rest
    else if k = k' then (k, v) :: rest
    else (k', v') :: mapInsert k v rest

/-- The expression `m[k]` with its presence flag. -/
def mapLookup {V : Type} (k : GoString) : List (GoString × V) → Option V
  | [] => none
  | (k', v') :: rest => if k = k' then some v' else mapLookup k rest

/-- The entries are in strictly increasing key order: the list stands for a map. -/
def SortedKeys {V : Type} (l : List (GoString × V)) : Prop :=
  l.Pairwise (fun a b => ltBytes a.1 b.1 = true)

instance instDecidableSortedKeys {V : Type} (l : List (GoString × V)) : Decidable (SortedKeys l) :=
  List.instDecidablePairwise l

/-- The number of entries `len(m)`; zero for the nil map. -/
def mapLen {V : Type} (m : GoMap V) : Nat :=
  match m with
  | none => 0
  | some l => l.length

/-! ## `encoding/json`: Marshal

`json.Marshal` (HTML escaping on) at the types `string`, `map[string]string`,
`models.EndpointURL` and `map[string]models.EndpointURL`. -/

/-- Membership in `htmlSafeSet`: printable ASCII apart from the double quote, the
ampersand, the angle brackets and the backslash. -/
def htmlSafe (b : Byte) : Bool :=
  decide (0x20 ≤ b.val ∧ b.val < 0x80 ∧ b.val ≠ 0x22 ∧ b.val ≠ 0x26 ∧ b.val ≠ 0x3C ∧
    b.val ≠ 0x3E ∧ b.val ≠ 0x5C)

/-- What `appendString` writes for one byte below `utf8.RuneSelf`. -/
def escapeASCII (b : Byte) : List Byte :=
  if htmlSafe b then [b]
  else if b.val = 0x5C ∨ b.val = 0x22 then [0x5C, b]
  else if b.val = 0x08 then [0x5C, 0x62]
  else if b.val = 0x0C then [0x5C, 0x66]
  else if b.val = 0x0A then [0x5C, 0x6E]
  else if b.val = 0x0D then [0x5C, 0x72]
  else if b.val = 0x09 then [0x5C, 0x74]
  else [0x5C, 0x75, 0x30, 0x30, hexDigit (b.val / 16), hexDigit (b.val % 16)]

/-- The six bytes of the escape for U+FFFD (a backslash, then `ufffd`), written for
a byte that starts no well-formed sequence. -/
def escapedReplacement : List Byte := [0x5C, 0x75, 0x66, 0x66, 0x66, 0x64]

/-- What `appendString` writes for a well-formed three-byte sequence: U+2028 and
U+2029 are escaped, every other rune is copied. -/
def escape3 (b0 b1 b2 : Byte) : List Byte :=
  if rune3 b0 b1 b2 = 0x2028 ∨ rune3 b0 b1 b2 = 0x2029 then
    [0x5C, 0x75, 0x32, 0x30, 0x32, hexDigit (rune3 b0 b1 b2 % 16)]
  else [b0, b1, b2]

/-- The body of `appendString`: the text between the two quotes. A byte from
`0x80` up that starts no well-formed sequence is written as U+FFFD and the scan
resumes at the next byte. -/
def appendStringBody : List Byte → List Byte
  | [] => []
  | b0 :: t0 =>
    let skip := escapedReplacement ++ appendStringBody t0
    if b0.val < 0x80 then escapeASCII b0 ++ appendStringBody t0
    else
      match t0 with
      | [] => skip
      | b1 :: t1 =>
        if valid2 b0 b1 then b0 :: b1 :: appendStringBody t1
        else
          match t1 with
          | [] => skip
          | b2 :: t2 =>
            if valid3 b0 b1 b2 then escape3 b0 b1 b2 ++ appendStringBody t2
            else
              match t2 with
              | [] => skip
              | b3 :: t3 =>
                if valid4 b0 b1 b2 b3 then b0 :: b1 :: b2 :: b3 :: appendStringBody t3
                else skip

/-- The encoder of a Go string: `appendString` with `escapeHTML` set. -/
def appendString (s : GoString) : List Byte := (0x22 : Byte) :: (appendStringBody s ++ [0x22])

/-- The members of an encoded object: for each the key, a colon and the encoded
value, with commas in between, in the order of the list. -/
def encodeMembers : List (GoString × List Byte) → List Byte
  | [] => []
  | [(k, v)] => appendString k ++ (0x3A : Byte) :: v
  | (k, v) :: m :: rest =>
    appendString k ++ (0x3A : Byte) :: (v ++ (0x2C : Byte) :: encodeMembers (m :: rest))

/-- An encoded object with the given members. -/
def encodeObject (members : List (GoString × List Byte)) : List Byte :=
  (0x7B : Byte) :: (encodeMembers members ++ [0x7D])

/-- The map encoder: `null` for the nil map, otherwise an object with the keys in
increasing order. -/
def encodeMap {V : Type} (enc : V → List Byte) (m : GoMap V) : List Byte :=
  match m with
  | none => gs "null"
  | some l => encodeObject (l.map (fun kv => (kv.1, enc kv.2)))

/-- The fields of `models.EndpointURL` the struct encoder writes, with their JSON
names: `url` and `method` always, `headers` unless the map has no entry
(`omitempty`), `description` unless it is the empty string (`omitempty`). -/
def endpointFields (e : EndpointURL) : List (GoString × List Byte) :=
  [(gs "url", appendString e.URL), (gs "method", appendString e.Method)]
    ++ (if mapLen e.Headers = 0 then [] else [(gs "headers", encodeMap appendString e.Headers)])
    ++ (if e.Description = [] then [] else [(gs "description", appendString e.Description)])

/-- The struct encoder at `models.EndpointURL`. -/
def encodeEndpointURL (e : EndpointURL) : List Byte := encodeObject (endpointFields e)

/-- The function `models.ToJSONBytes` at `map[string]models.EndpointURL`; at this
type `json.Marshal` returns no error. -/
def ToJSONBytes (v : GoMap EndpointURL) : List Byte := encodeMap encodeEndpointURL v

/-! ## `encoding/json`: Unmarshal

`json.Unmarshal` first checks the whole text with its scanner and then decodes
into the target. Here the text is first parsed into a syntax tree (`parseJSON`
accepts exactly the texts the scanner accepts) and the tree is then decoded into
the target type with the rules of `decode.go`. -/

/-- A parsed JSON text. Numbers and array elements are not kept: at the target
types of this program they can only produce a type error. -/
inductive JSON where
  | null : JSON
  | bool : Bool → JSON
  | num : JSON
  | str : GoString → JSON
  | arr : JSON
  | obj : List (GoString × JSON) → JSON

/-- The two ways `json.Unmarshal` fails: `*json.SyntaxError` and
`*json.UnmarshalTypeError`. -/
inductive UnmarshalError where
  | syntaxError : UnmarshalError
  | typeError : UnmarshalError
  deriving DecidableEq, Repr

/-- Results that are a value or an error can be compared. -/
instance instDecidableEqExcept {ε α : Type} [DecidableEq ε] [DecidableEq α] :
    DecidableEq (Except ε α)
  | Except.ok a, Except.ok b =>
    if h : a = b then isTrue (by rw [h]) else isFalse (fun h' => h (Except.ok.inj h'))
  | Except.error a, Except.error b =>
    if h : a = b then isTrue (by rw [h]) else isFalse (fun h' => h (Except.error.inj h'))
  | Except.ok _, Except.error _ => isFalse (fun h => Except.noConfusion h)
  | Except.error _, Except.ok _ => isFalse (fun h => Except.noConfusion h)

/-- The scanner function `isSpace`: space, tab, carriage return, line feed. -/
def isSpace (b : Byte) : Bool :=
  decide (b.val = 0x20 ∨ b.val = 0x09 ∨ b.val = 0x0D ∨ b.val = 0x0A)

/-- Skip insignificant white space. -/
def skipSpace : List Byte → List Byte
  | [] => []
  | b :: t => if isSpace b then skipSpace t else b :: t

/-- The value of one hexadecimal digit, as in `getu4`. -/
def hexVal (b : Byte) : Option Nat :=
  if 0x30 ≤ b.val ∧ b.val ≤ 0x39 then some (b.val - 0x30)
  else if 0x61 ≤ b.val ∧ b.val ≤ 0x66 then some (b.val - 0x61 + 10)
  else if 0x41 ≤ b.val ∧ b.val ≤ 0x46 then some (b.val - 0x41 + 10)
  else none

/-- The function `getu4` on the four digits after a backslash and `u`. -/
def getu4 (h1 h2 h3 h4 : Byte) : Option Nat :=
  match hexVal h1, hexVal h2, hexVal h3, hexVal h4 with
  | some a, some b, some c, some d => some (a * 4096 + b * 256 + c * 16 + d)
  | _, _, _, _ => none

/-- The byte a one-letter escape stands for. -/
def simpleEscape (e : Byte) : Option Byte :=
  if e.val = 0x22 ∨ e.val = 0x5C ∨ e.val = 0x2F then some e
  else if e.val = 0x62 then some 0x08
  else if e.val = 0x66 then some 0x0C
  else if e.val = 0x6E then some 0x0A
  else if e.val = 0x72 then some 0x0D
  else if e.val = 0x74 then some 0x09
  else none

/-- The rune of a surrogate pair (`utf16.DecodeRune`), when `hi` is a high and the
six bytes `c1 c2 g1 g2 g3 g4` are the escape of a low surrogate. -/
def surrogatePair (hi : Nat) (c1 c2 g1 g2 g3 g4 : Byte) : Option Nat :=
  if c1.val = 0x5C ∧ c2.val = 0x75 then
    match getu4 g1 g2 g3 g4 with
    | some lo =>
      if 0xD800 ≤ hi ∧ hi < 0xDC00 ∧ 0xDC00 ≤ lo ∧ lo < 0xE000 then
        some ((hi - 0xD800) * 1024 + (lo - 0xDC00) + 0x10000)
      else none
    | none => none
  else none

/-- Put decoded bytes in front of the rest of a decoded string. -/
def consBytes (pre : List Byte) (r : Option (GoString × List Byte)) :
    Option (GoString × List Byte) :=
  match r with
  | none => none
  | some (s, rest) => some (pre ++ s, rest)

/-- What the front of a string body stands for: the closing quote, some decoded
bytes, or nothing the scanner accepts. Each comes with the text after it. -/
inductive StringStep where
  | close : List Byte → StringStep
  | bytes : List Byte → List Byte → StringStep
  | invalid : StringStep

/-- One round of the loop of `unquote`, with the checks of the scanner states
`stateInString`, `stateInStringEsc` and following. Bytes from `0x80` up are decoded
and encoded again, so a byte that starts no well-formed sequence becomes U+FFFD and
the scan resumes at the next byte. A high surrogate escape takes the low surrogate
escape right after it, and is U+FFFD on its own. -/
def stringStep : List Byte → StringStep
  | [] => StringStep.invalid
  | b0 :: t0 =>
    if b0.val = 0x22 then StringStep.close t0
    else if b0.val = 0x5C then
      match t0 with
      | [] => StringStep.invalid
      | e :: t1 =>
        if e.val = 0x75 then
          match t1 with
          | h1 :: h2 :: h3 :: h4 :: t5 =>
            match getu4 h1 h2 h3 h4 with
            | none => StringStep.invalid
            | some rr =>
              if 0xD800 ≤ rr ∧ rr < 0xE000 then
                match t5 with
                | c1 :: c2 :: g1 :: g2 :: g3 :: g4 :: t11 =>
                  match surrogatePair rr c1 c2 g1 g2 g3 g4 with
                  | some dec => StringStep.bytes (encodeRune dec) t11
                  | none => StringStep.bytes replacementBytes t5
                | _ => StringStep.bytes replacementBytes t5
              else StringStep.bytes (encodeRune rr) t5
          | _ => StringStep.invalid
        else
          match simpleEscape e with
          | none => StringStep.invalid
          | some c => StringStep.bytes [c] t1
    else if b0.val < 0x20 then StringStep.invalid
    else if b0.val < 0x80 then StringStep.bytes [b0] t0
    else
      match t0 with
      | [] => StringStep.bytes replacementBytes t0
      | b1 :: t1 =>
        if valid2 b0 b1 then StringStep.bytes (encodeRune (rune2 b0 b1)) t1
        else
          match t1 with
          | [] => StringStep.bytes replacementBytes t0
          | b2 :: t2 =>
            if valid3 b0 b1 b2 then StringStep.bytes (encodeRune (rune3 b0 b1 b2)) t2
            else
              match t2 with
              | [] => StringStep.bytes replacementBytes t0
              | b3 :: t3 =>
                if valid4 b0 b1 b2 b3 then StringStep.bytes (encodeRune (rune4 b0 b1 b2 b3)) t3
                else StringStep.bytes replacementBytes t0

/-- The loop of `unquote` over a string literal after its opening quote: the decoded
Go string and the text after the closing quote; `none` is a syntax error. The first
argument bounds the number of rounds; every round reads at least one byte. -/
def parseStringLoop : Nat → List Byte → Option (GoString × List Byte)
  | 0, _ => none
  | fuel + 1, s =>
    match stringStep s with
    | StringStep.close rest => some ([], rest)
    | StringStep.invalid => none
    | StringStep.bytes out rest => consBytes out (parseStringLoop fuel rest)

/-- A string literal after its opening quote. -/
def parseStringBody (s : List Byte) : Option (GoString × List Byte) :=
  parseStringLoop s.length s

/-- A decimal digit. -/
def isDigit (b : Byte) : Bool := decide (0x30 ≤ b.val ∧ b.val ≤ 0x39)

/-- Skip a run of decimal digits. -/
def skipDigits : List Byte → List Byte
  | [] => []
  | b :: t => if isDigit b then skipDigits t else b :: t

/-- The optional exponent of a number (scanner states `stateE`, `stateESign`,
`stateE0`): the text after it, or `none` when an exponent starts and has no digit. -/
def parseExponent (t : List Byte) : Option (List Byte) :=
  match t with
  | [] => some []
  | e :: t1 =>
    if e.val = 0x65 ∨ e.val = 0x45 then
      match t1 with
      | [] => none
      | s :: t2 =>
        if s.val = 0x2B ∨ s.val = 0x2D then
          match t2 with
          | [] => none
          | d :: t3 => if isDigit d then some (skipDigits t3) else none
        else if isDigit s then some (skipDigits t2)
        else none
    else some (e :: t1)

/-- The optional fraction of a number (scanner states `stateDot`, `stateDot0`),
followed by the optional exponent. -/
def parseFraction (t : List Byte) : Option (List Byte) :=
  match t with
  | [] => some []
  | p :: t1 =>
    if p.val = 0x2E then
      match t1 with
      | [] => none
      | d :: t2 => if isDigit d then parseExponent (skipDigits t2) else none
    else parseExponent (p :: t1)

/-- A number starting at its first byte (scanner states `stateNeg`, `state0`,
`state1`): the text after the number. -/
def parseNumber (s : List Byte) : Option (List Byte) :=
  let body := match s with
    | [] => []
    | m :: t => if m.val = 0x2D then t else m :: t
  match body with
  | [] => none
  | d :: t =>
    if d.val = 0x30 then parseFraction t
    else if 0x31 ≤ d.val ∧ d.val ≤ 0x39 then parseFraction (skipDigits t)
    else none

/-- Drop the bytes of a literal from the front of the text. -/
def stripLiteral : List Byte → List Byte → Option (List Byte)
  | [], t => some t
  | _ :: _, [] => none
  | l :: ls, b :: t => if l = b then stripLiteral ls t else none

/-- The nesting limit `maxNestingDepth` of the scanner. -/
def maxNestingDepth : Nat := 10000

mutual

/-- One JSON value with leading white space: the value and the text after it.
`depth` is the number of objects and arrays currently open. The first argument
bounds the depth of the recursion; every unit of it is spent after at least one
more byte of the text has been read. -/
def parseValue : Nat → Nat → List Byte → Option (JSON × List Byte)
  | 0, _, _ => none
  | fuel + 1, depth, s =>
    match skipSpace s with
    | [] => none
    | b :: t =>
      if b.val = 0x7B then
        if depth < maxNestingDepth then
          match skipSpace t with
          | [] => none
          | c :: t' =>
            if c.val = 0x7D then some (JSON.obj [], t')
            else
              match parseMembers fuel (depth + 1) (c :: t') with
              | some (kvs, rest) => some (JSON.obj kvs, rest)
              | none => none
        else none
      else if b.val = 0x5B then
        if depth < maxNestingDepth then
          match skipSpace t with
          | [] => none
          | c :: t' =>
            if c.val = 0x5D then some (JSON.arr, t')
            else
              match parseElements fuel (depth + 1) (c :: t') with
              | some rest => some (JSON.arr, rest)
              | none => none
        else none
      else if b.val = 0x22 then
        match parseStringBody t with
        | some (str, rest) => some (JSON.str str, rest)
        | none => none
      else if b.val = 0x74 then
        match stripLiteral (gs "rue") t with
        | some rest => some (JSON.bool true, rest)
        | none => none
      else if b.val = 0x66 then
        match stripLiteral (gs "alse") t with
        | some rest => some (JSON.bool false, rest)
        | none => none
      else if b.val = 0x6E then
        match stripLiteral (gs "ull") t with
        | some rest => some (JSON.null, rest)
        | none => none
      else if b.val = 0x2D ∨ isDigit b then
        match parseNumber (b :: t) with
        | some rest => some (JSON.num, rest)
        | none => none
      else none

/-- The members of an object after the opening brace or a comma, up to and
including the closing brace. -/
def parseMembers : Nat → Nat → List Byte → Option (List (GoString × JSON) × List Byte)
  | 0, _, _ => none
  | fuel + 1, depth, s =>
    match skipSpace s with
    | [] => none
    | q :: t1 =>
      if q.val = 0x22 then
        match parseStringBody t1 with
        | none => none
        | some (k, t2) =>
          match skipSpace t2 with
          | [] => none
          | c :: t3 =>
            if c.val = 0x3A then
              match parseValue fuel depth t3 with
              | none => none
              | some (v, t4) =>
                match skipSpace t4 with
                | [] => none
                | d :: t5 =>
                  if d.val = 0x2C then
                    match parseMembers fuel depth t5 with
                    | some (kvs, rest) => some ((k, v) :: kvs, rest)
                    | none => none
                  else if d.val = 0x7D then some ([(k, v)], t5)
                  else none
            else none
      else none

/-- The elements of an array after the opening bracket or a comma, up to and
including the closing bracket. -/
def parseElements : Nat → Nat → List Byte → Option (List Byte)
  | 0, _, _ => none
  | fuel + 1, depth, s =>
    match parseValue fuel depth s with
    | none => none
    | some (_, t1) =>
      match skipSpace t1 with
      | [] => none
      | d :: t2 =>
        if d.val = 0x2C then parseElements fuel depth t2
        else if d.val = 0x5D then some t2
        else none

end

/-- The scanner pass `checkValid` together with the parse: one value, white space
around it, nothing else. -/
def parseJSON (data : List Byte) : Option JSON :=
  match parseValue (2 * data.length + 2) 0 data with
  | none => none
  | some (v, rest) => if skipSpace rest = [] then some v else none

/-- The key folding of `foldName`, as far as it can produce an ASCII field name:
ASCII letters lose their case, U+017F (long s) folds to `s` and U+212A (Kelvin
sign) to `k`; every other byte is kept. Two keys match case-insensitively when
their foldings are equal. -/
def foldKey : List Byte → List Byte
  | [] => []
  | b0 :: t0 =>
    let keep := b0 :: foldKey t0
    if 0x41 ≤ b0.val ∧ b0.val ≤ 0x5A then byte (b0.val + 32) :: foldKey t0
    else
      match t0 with
      | [] => keep
      | b1 :: t1 =>
        if b0.val = 0xC5 ∧ b1.val = 0xBF then (0x73 : Byte) :: foldKey t1
        else
          match t1 with
          | [] => keep
          | b2 :: t2 =>
            if b0.val = 0xE2 ∧ b1.val = 0x84 ∧ b2.val = 0xAA then (0x6B : Byte) :: foldKey t2
            else keep

/-- Decode a JSON value into a Go `string` holding `cur`: `null` leaves it as it
is, anything but a string is a type error. -/
def decodeString (cur : GoString) : JSON → Except UnmarshalError GoString
  | JSON.str s => Except.ok s
  | JSON.null => Except.ok cur
  | _ => Except.error UnmarshalError.typeError

/-- Store the members of an object into the entries of a `map[string]string`; each
element starts from the zero value. -/
def decodeStringEntries :
    List (GoString × JSON) → List (GoString × GoString) →
      Except UnmarshalError (List (GoString × GoString))
  | [], acc => Except.ok acc
  | (k, v) :: rest, acc =>
    match decodeString [] v with
    | Except.ok s => decodeStringEntries rest (mapInsert k s acc)
    | Except.error e => Except.error e

/-- Decode a JSON value into a `map[string]string` holding `cur`: `null` makes it
nil, an object is stored into the map (a new one when `cur` is nil). -/
def decodeStringMap (cur : GoMap GoString) : JSON → Except UnmarshalError (GoMap GoString)
  | JSON.null => Except.ok none
  | JSON.obj kvs =>
    match decodeStringEntries kvs (cur.getD []) with
    | Except.ok l => Except.ok (some l)
    | Except.error e => Except.error e
  | _ => Except.error UnmarshalError.typeError

/-- Decode one member of an object into the field of `models.EndpointURL` whose
JSON name matches the key; a key that matches no field is skipped. -/
def decodeField (e : EndpointURL) (k : GoString) (v : JSON) : Except UnmarshalError EndpointURL :=
  if foldKey k = gs "url" then
    match decodeString e.URL v with
    | Except.ok s => Except.ok { e with URL := s }
    | Except.error err => Except.error err
  else if foldKey k = gs "method" then
    match decodeString e.Method v with
    | Except.ok s => Except.ok { e with Method := s }
    | Except.error err => Except.error err
  else if foldKey k = gs "headers" then
    match decodeStringMap e.Headers v with
    | Except.ok m => Except.ok { e with Headers := m }
    | Except.error err => Except.error err
  else if foldKey k = gs "description" then
    match decodeString e.Description v with
    | Except.ok s => Except.ok { e with Description := s }
    | Except.error err => Except.error err
  else Except.ok e

/-- Decode the members of an object into a `models.EndpointURL`, in text order. -/
def decodeFields : List (GoString × JSON) → EndpointURL → Except UnmarshalError EndpointURL
  | [], e => Except.ok e
  | (k, v) :: rest, e =>
    match decodeField e k v with
    | Except.ok e' => decodeFields rest e'
    | Except.error err => Except.error err

/-- Decode a JSON value into a `models.EndpointURL` holding `cur`. -/
def decodeEndpointURL (cur : EndpointURL) : JSON → Except UnmarshalError EndpointURL
  | JSON.null => Except.ok cur
  | JSON.obj kvs => decodeFields kvs cur
  | _ => Except.error UnmarshalError.typeError

/-- The zero value of `models.EndpointURL`. -/
def zeroEndpointURL : EndpointURL := { URL := [], Method := [], Headers := none, Description := [] }

/-- Store the members of an object into the entries of a
`map[string]models.EndpointURL`; each element starts from the zero value. -/
def decodeEndpointEntries :
    List (GoString × JSON) → List (GoString × EndpointURL) →
      Except UnmarshalError (List (GoString × EndpointURL))
  | [], acc => Except.ok acc
  | (k, v) :: rest, acc =>
    match decodeEndpointURL zeroEndpointURL v with
    | Except.ok e => decodeEndpointEntries rest (mapInsert k e acc)
    | Except.error err => Except.error err

/-- Decode a JSON value into a `map[string]models.EndpointURL` holding `cur`. -/
def decodeEndpoints (cur : GoMap EndpointURL) : JSON → Except UnmarshalError (GoMap EndpointURL)
  | JSON.null => Except.ok none
  | JSON.obj kvs =>
    match decodeEndpointEntries kvs (cur.getD []) with
    | Except.ok l => Except.ok (some l)
    | Except.error e => Except.error e
  | _ => Except.error UnmarshalError.typeError

/-- The function `models.FromJSONBytes` with a `*map[string]models.EndpointURL`
target: `v` is the map the target holds before the call, the result is the map it
holds after a call that returns no error. -/
def FromJSONBytes (data : List Byte) (v : GoMap EndpointURL) :
    Except UnmarshalError (GoMap EndpointURL) :=
  match parseJSON data with
  | none => Except.error UnmarshalError.syntaxError
  | some j => decodeEndpoints v j

/-! ## `internal/config`

The package variable `poolConfig *PoolConfiguration` is an explicit argument:
`none` is the nil pointer (configuration never loaded, or the load failed). -/

/-- The struct `config.EndpointConfig`. -/
structure EndpointConfig where
  Name : GoString
  Method : GoString
  Description : GoString
  deriving DecidableEq, Repr

/-- The struct `config.PoolTypeConfig`. -/
structure PoolTypeConfig where
  Name : GoString
  Endpoints : List EndpointConfig
  deriving DecidableEq, Repr

/-- The struct `config.PoolConfiguration`. -/
structure PoolConfiguration where
  PoolTypes : List PoolTypeConfig
  deriving DecidableEq, Repr

/-- The literal `"AllyHub Desktop App"` of the fallback branches. -/
def fallbackPoolType : GoString := gs "AllyHub Desktop App"

/-- The function `config.GetPoolTypes`. -/
def GetPoolTypes (poolConfig : Option PoolConfiguration) : List GoString :=
  match poolConfig with
  | none => [fallbackPoolType]
  | some cfg => cfg.PoolTypes.map (fun poolType => poolType.Name)

/-- The loop of `config.GetEndpointsForPoolType`: the endpoints of the first type
with the given name. -/
def findEndpoints (poolType : GoString) : List PoolTypeConfig → List EndpointConfig
  | [] => []
  | pt :: rest => if pt.Name = poolType then pt.Endpoints else findEndpoints poolType rest

/-- The function `config.GetEndpointsForPoolType`. -/
def GetEndpointsForPoolType (poolConfig : Option PoolConfiguration) (poolType : GoString) :
    List EndpointConfig :=
  match poolConfig with
  | none => []
  | some cfg => findEndpoints poolType cfg.PoolTypes

/-- The loop of `config.ValidatePoolType`. -/
def hasPoolType (poolType : GoString) : List PoolTypeConfig → Bool
  | [] => false
  | pt :: rest => if pt.Name = poolType then true else hasPoolType poolType rest

/-- The function `config.ValidatePoolType`. -/
def ValidatePoolType (poolConfig : Option PoolConfiguration) (poolType : GoString) : Bool :=
  match poolConfig with
  | none => decide (poolType = fallbackPoolType)
  | some cfg => hasPoolType poolType cfg.PoolTypes

/-- The function `config.GetDefaultPoolType`. -/
def GetDefaultPoolType (poolConfig : Option PoolConfiguration) : GoString :=
  match poolConfig with
  | none => fallbackPoolType
  | some cfg =>
    match cfg.PoolTypes with
    | [] => fallbackPoolType
    | first :: _ => first.Name

/-! ## `internal/models`: predefined endpoints -/

/-- The loop of `models.GetPredefinedEndpoints` over the configured templates. -/
def addPredefined : List EndpointConfig → List (GoString × EndpointURL) →
    List (GoString × EndpointURL)
  | [], endpoints => endpoints
  | endpointConfig :: rest, endpoints =>
    addPredefined rest
      (mapInsert endpointConfig.Name
        { URL := [], Method := endpointConfig.Method, Headers := none,
          Description := endpointConfig.Description } endpoints)

/-- The function `models.GetPredefinedEndpoints`. The result is made with `make`,
so it is never the nil map. -/
def GetPredefinedEndpoints (poolConfig : Option PoolConfiguration) (poolType : GoString) :
    GoMap EndpointURL :=
  some (addPredefined (GetEndpointsForPoolType poolConfig poolType) [])

/-! ## `internal/database`

The tables follow `createTables`: a column declared `NOT NULL` holds a value, a
column without it holds `none` for SQL `NULL`. Text is compared bytewise.
A primary key rejects an insert whose key is already present. Foreign keys are
declared but SQLite does not enforce them unless asked to, and the program does
not ask. -/

/-- A row of `users`. -/
structure UserRow where
  id : GoString
  email : GoString
  password : GoString
  created : Time
  updated : Time
  deriving DecidableEq, Repr

/-- A row of `endpoint_pools`; the primary key is `(user_id, id)`. -/
structure PoolRow where
  id : GoString
  user_id : GoString
  name : GoString
  description : Option GoString
  type : GoString
  endpoints : GoString
  created : Time
  updated : Time
  is_default : Bool
  deriving DecidableEq, Repr

/-- A row of `api_tokens`; the primary key is `id`. -/
structure TokenRow where
  id : GoString
  user_id : GoString
  pool_id : GoString
  token : GoString
  name : GoString
  created : Time
  last_used : Option Time
  active : Bool
  deriving DecidableEq, Repr

/-- A row of `sessions`; the primary key is `id`. -/
structure SessionRow where
  id : GoString
  user_id : GoString
  created : Time
  expires : Time
  deriving DecidableEq, Repr

/-- The state of the database file. -/
structure DB where
  users : List UserRow
  endpoint_pools : List PoolRow
  api_tokens : List TokenRow
  sessions : List SessionRow
  deriving DecidableEq, Repr

/-- The errors the database layer returns. -/
inductive DBError where
  | notFound : DBError
  | constraintFailed : DBError
  | scanFailed : DBError
  | notImplemented : DBError
  deriving DecidableEq, Repr

/-- The row matches `WHERE user_id = ? AND id = ?`. -/
def PoolRow.hasKey (r : PoolRow) (userID poolID : GoString) : Bool :=
  decide (r.user_id = userID ∧ r.id = poolID)

/-- The constraint `PRIMARY KEY (user_id, id)` on a state of `endpoint_pools`: no
two rows have the same user id and the same pool id. -/
def PoolKeysUnique (db : DB) : Prop :=
  db.endpoint_pools.Pairwise (fun a b => ¬ (a.user_id = b.user_id ∧ a.id = b.id))

instance instDecidablePoolKeysUnique (db : DB) : Decidable (PoolKeysUnique db) :=
  List.instDecidablePairwise db.endpoint_pools

/-- The statement `INSERT INTO endpoint_pools ... VALUES (...)`. -/
def insertPoolRow (db : DB) (row : PoolRow) : Except DBError DB :=
  if db.endpoint_pools.any (fun r => r.hasKey row.user_id row.id) then
    Except.error DBError.constraintFailed
  else Except.ok { db with endpoint_pools := db.endpoint_pools ++ [row] }

/-- The text `CreateEndpointPool` binds to the `endpoints` column. -/
def endpointsColumn (pool : EndpointPool) : GoString :=
  match pool.Endpoints with
  | none => []
  | some _ => ToJSONBytes pool.Endpoints

/-- The method `SQLiteDatabase.CreateEndpointPool`: the error returned and the
database afterwards. -/
def CreateEndpointPool (db : DB) (pool : EndpointPool) : Except DBError DB :=
  insertPoolRow db
    { id := pool.ID
      user_id := pool.UserID
      name := pool.Name
      description := some pool.Description
      type := pool.PoolType
      endpoints := endpointsColumn pool
      created := pool.Created
      updated := pool.Updated
      is_default := pool.IsDefault }

/-- The endpoint map `GetEndpointPool` and `GetUserEndpointPools` build from the
text of the `endpoints` column. -/
def readEndpoints (endpointsJSON : GoString) : GoMap EndpointURL :=
  if endpointsJSON ≠ [] then
    match FromJSONBytes endpointsJSON none with
    | Except.error _ => some []
    | Except.ok endpoints => endpoints
  else some []

/-- The method `SQLiteDatabase.GetEndpointPool`. Scanning a `NULL` description into
a Go `string` is an error of `Scan`. -/
def GetEndpointPool (db : DB) (userID poolID : GoString) : Except DBError EndpointPool :=
  match db.endpoint_pools.find? (fun r => r.hasKey userID poolID) with
  | none => Except.error DBError.notFound
  | some r =>
    match r.description with
    | none => Except.error DBError.scanFailed
    | some description =>
      Except.ok
        { ID := r.id
          UserID := r.user_id
          Name := r.name
          Description := description
          PoolType := r.type
          Endpoints := readEndpoints r.endpoints
          Created := r.created
          Updated := r.updated
          IsDefault := r.is_default }

/-- The method `SQLiteDatabase.UpdateEndpointPool`: the pool with its `Updated`
field set to the clock reading `now`, and the result of `CreateEndpointPool` on it. -/
def UpdateEndpointPool (db : DB) (now : Time) (pool : EndpointPool) :
    EndpointPool × Except DBError DB :=
  ({ pool with Updated := now }, CreateEndpointPool db { pool with Updated := now })

/-- The method `SQLiteDatabase.DeleteEndpointPool`: the statement
`DELETE FROM endpoint_pools WHERE user_id = ? AND id = ?`. A `DELETE` that matches
no row is not an error, and no constraint can reject it. -/
def DeleteEndpointPool (db : DB) (userID poolID : GoString) : Except DBError DB :=
  Except.ok
    { db with endpoint_pools := db.endpoint_pools.filter (fun r => !r.hasKey userID poolID) }

/-- The method `SQLiteDatabase.CreateAPIToken`. -/
def CreateAPIToken (db : DB) (token : APIToken) : Except DBError DB :=
  if db.api_tokens.any (fun r => decide (r.id = token.ID)) then
    Except.error DBError.constraintFailed
  else
    Except.ok
      { db with
        api_tokens := db.api_tokens ++
          [{ id := token.ID
             user_id := token.UserID
             pool_id := token.PoolID
             token := token.Token
             name := token.Name
             created := token.Created
             last_used := some token.LastUsed
             active := token.Active }] }

/-- The method `SQLiteDatabase.DeleteAPIToken`: the statement
`DELETE FROM api_tokens WHERE id = ?`. -/
def DeleteAPIToken (db : DB) (id : GoString) : Except DBError DB :=
  Except.ok { db with api_tokens := db.api_tokens.filter (fun r => !decide (r.id = id)) }

/-- The function `database.GenerateID`; `now` is the reading of `time.Now()`. -/
def GenerateID (now : Time) : GoString := formatInt (Time.UnixNano now)

/-- The function `database.GenerateToken`; `now` is the reading of `time.Now()`. -/
def GenerateToken (now : Time) : GoString := gs "token_" ++ formatInt (Time.UnixNano now)

/-! ## `internal/handlers`

A handler is a function of the database, the authenticated user placed in the
request context by the middleware, the request body as `BodyParser` decoded it
(`none` when it returned an error) and the clock readings, in the order the handler
takes them. It yields the response and the database afterwards. -/

/-- The zero value `time.Time{}`: January 1, year 1, 00:00:00 UTC. -/
def zeroTime : Time := -62135596800 * 1000000000

/-- What a handler produces: status code, the `APIResponse` fields and the
database afterwards. -/
structure HandlerResult (α : Type) where
  Status : Nat
  Success : Bool
  Message : String
  Data : Option α
  db : DB

/-- The struct `handlers.CreateEndpointPoolRequest`. -/
structure CreateEndpointPoolRequest where
  Name : GoString
  Description : GoString
  PoolType : GoString
  Endpoints : GoMap EndpointURL
  deriving DecidableEq, Repr

/-- The struct `handlers.CreateAPITokenRequest`. -/
structure CreateAPITokenRequest where
  Name : GoString
  PoolID : GoString
  deriving DecidableEq, Repr

/-- The method `EndpointsHandler.HandleCreateEndpointPool`. The clock is read for
the id, for `Created` and for `Updated`. -/
def HandleCreateEndpointPool (poolConfig : Option PoolConfiguration) (db : DB) (user : User)
    (body : Option CreateEndpointPoolRequest) (tID tCreated tUpdated : Time) :
    HandlerResult EndpointPool :=
  match body with
  | none =>
    { Status := 400, Success := false, Message := "Invalid request body", Data := none, db := db }
  | some req =>
    if req.Name = [] then
      { Status := 400, Success := false, Message := "Name is required", Data := none, db := db }
    else
      let poolType := if req.PoolType = [] then gs "AllyHub Desktop App" else req.PoolType
      let pool : EndpointPool :=
        { ID := GenerateID tID
          UserID := user.ID
          Name := req.Name
          Description := req.Description
          PoolType := poolType
          Endpoints := GetPredefinedEndpoints poolConfig poolType
          Created := tCreated
          Updated := tUpdated
          IsDefault := false }
      match CreateEndpointPool db pool with
      | Except.error _ =>
        { Status := 500, Success := false, Message := "Failed to create endpoint pool",
          Data := none, db := db }
      | Except.ok db' =>
        { Status := 200, Success := true, Message := "Endpoint pool created successfully",
          Data := some pool, db := db' }

/-- The method `EndpointsHandler.HandleCreateAPIToken`. The clock is read for the
id, for the token value and for `Created`; the random source is not read. -/
def HandleCreateAPIToken (db : DB) (user : User) (body : Option CreateAPITokenRequest)
    (tID tToken tCreated : Time) : HandlerResult APIToken :=
  match body with
  | none =>
    { Status := 400, Success := false, Message := "Invalid request body", Data := none, db := db }
  | some req =>
    if req.Name = [] then
      { Status := 400, Success := false, Message := "Name is required", Data := none, db := db }
    else if req.PoolID = [] then
      { Status := 400, Success := false, Message := "Pool ID is required", Data := none, db := db }
    else
      match GetEndpointPool db user.ID req.PoolID with
      | Except.error _ =>
        { Status := 400, Success := false, Message := "Invalid pool ID", Data := none, db := db }
      | Except.ok _ =>
        let token : APIToken :=
          { ID := GenerateID tID
            UserID := user.ID
            PoolID := req.PoolID
            Token := GenerateToken tToken
            Name := req.Name
            Created := tCreated
            LastUsed := zeroTime
            Active := true }
        match CreateAPIToken db token with
        | Except.error _ =>
          { Status := 500, Success := false, Message := "Failed to create API token",
            Data := none, db := db }
        | Except.ok db' =>
          { Status := 200, Success := true, Message := "API token created successfully",
            Data := some token, db := db' }

/-! ## Concrete inputs -/

/-- A database with no rows. -/
def emptyDB : DB := { users := [], endpoint_pools := [], api_tokens := [], sessions := [] }

/-- A registered user. -/
def sampleUser : User :=
  { ID := gs "u1", Email := gs "a@example.com", Password := gs "$2a$10$hash", Created := 0,
    Updated := 0 }

/-- A pool of `sampleUser` with an empty, non-nil endpoint map. -/
def samplePool : EndpointPool :=
  { ID := gs "p1", UserID := gs "u1", Name := gs "Home", Description := gs "at home",
    PoolType := fallbackPoolType, Endpoints := some [], Created := 1, Updated := 1,
    IsDefault := false }

/-- The row `CreateEndpointPool` writes for `samplePool`. -/
def samplePoolRow : PoolRow :=
  { id := gs "p1", user_id := gs "u1", name := gs "Home", description := some (gs "at home"),
    type := fallbackPoolType, endpoints := gs "\x7b\x7d", created := 1, updated := 1,
    is_default := false }

/-- The database after `samplePool` has been created in `emptyDB`. -/
def sampleDB : DB := { emptyDB with endpoint_pools := [samplePoolRow] }

/-- A registry loaded with one pool type that has two endpoint templates. -/
def sampleConfig : PoolConfiguration :=
  { PoolTypes :=
      [{ Name := gs "AllyHub Desktop App"
         Endpoints :=
           [{ Name := gs "tasks_fetch", Method := gs "GET", Description := gs "Fetch all tasks" },
            { Name := gs "chat_stream", Method := gs "POST", Description := gs "Stream chat" }] }] }

/-- A create-pool request with a name and a type no registry state accepts. -/
def bogusTypeRequest : CreateEndpointPoolRequest :=
  { Name := gs "Home", Description := [], PoolType := gs "Bogus", Endpoints := none }

/-- A create-token request for `samplePool`. -/
def sampleTokenRequest : CreateAPITokenRequest := { Name := gs "ci", PoolID := gs "p1" }

/-- An endpoint map with one entry whose `Headers` map is non-nil and has no entry. -/
def emptyHeadersMap : GoMap EndpointURL :=
  some [(gs "a", { URL := gs "http://x", Method := gs "GET", Headers := some [], Description := [] })]

/-- An endpoint map whose only key is the single byte `0xFF`, which is not UTF-8. -/
def invalidKeyMap : GoMap EndpointURL := some [([0xFF], zeroEndpointURL)]

/-- An endpoint map with escapes, non-ASCII text, headers and a description. -/
def sampleEndpoints : GoMap EndpointURL :=
  some
    [(gs "chat <stream>",
        { URL := gs "http://localhost:8080/api/chat?a=1&b=\"2\"", Method := gs "POST",
          Headers := some [(gs "Accept", gs "text/plain"), (gs "X-Tab", gs "a\tb\\c")],
          Description := [0xC3, 0xA9, 0xE2, 0x80, 0xA8, 0xF0, 0x9F, 0x98, 0x80] }),
      (gs "tasks_fetch", { URL := [], Method := gs "GET", Headers := none, Description := [] })]

/-- A stored row of `sampleUser` whose `endpoints` text is the JSON value `null`. -/
def nullTextRow : PoolRow := { samplePoolRow with endpoints := gs "null" }

/-- A stored row of `sampleUser` whose `description` column is SQL `NULL`. -/
def nullDescriptionRow : PoolRow := { samplePoolRow with description := none }

/-! ## Specification vocabulary for the JSON round trip -/

/-- The text `enc` written by the encoder is read by `parseValue` at nesting depth `d`
as the tree `j`, whatever text follows, as soon as the recursion bound is at least
the length of `enc`. -/
def ParsesTo (d : Nat) (enc : List Byte) (j : JSON) : Prop :=
  ∀ (fuel : Nat) (rest : List Byte), enc.length ≤ fuel →
    parseValue fuel d (enc ++ rest) = some (j, rest)

/-- The value `json.Unmarshal` gives back for an encoded `models.EndpointURL`: a
`Headers` map without entries was left out (`omitempty`) and comes back nil. -/
def normalizeEndpoint (e : EndpointURL) : EndpointURL :=
  { e with Headers := if mapLen e.Headers = 0 then none else e.Headers }

/-- The endpoint map with every value as `json.Unmarshal` gives it back. -/
def normalizeEndpoints (m : GoMap EndpointURL) : GoMap EndpointURL :=
  match m with
  | none => none
  | some l => some (l.map (fun kv => (kv.1, normalizeEndpoint kv.2)))

/-- The headers stand for a map of well-formed UTF-8 strings: keys strictly
increasing, keys and values valid. -/
def validHeaders (h : GoMap GoString) : Bool :=
  match h with
  | none => true
  | some l => decide (SortedKeys l) && l.all (fun kv => ValidString kv.1 && ValidString kv.2)

/-- Every string of the endpoint is valid UTF-8 and its headers are a map. -/
def validEndpoint (e : EndpointURL) : Bool :=
  ValidString e.URL && ValidString e.Method && ValidString e.Description && validHeaders e.Headers

/-- The endpoint map stands for a Go map whose strings are all valid UTF-8: keys
strictly increasing, keys valid, values valid. -/
def validEndpoints (m : GoMap EndpointURL) : Bool :=
  match m with
  | none => true
  | some l => decide (SortedKeys l) && l.all (fun kv => ValidString kv.1 && validEndpoint kv.2)

/-- No value of the endpoint map has a `Headers` map that is non-nil and empty. -/
def noEmptyHeaders (m : GoMap EndpointURL) : Bool :=
  match m with
  | none => true
  | some l => l.all (fun kv => decide (kv.2.Headers ≠ some []))

/-- The members the encoder writes for a `map[string]string`, each with the tree
the parser is to read for its value. -/
def headerItems (l : List (GoString × GoString)) : List (GoString × List Byte × JSON) :=
  l.map (fun kv => (kv.1, appendString kv.2, JSON.str kv.2))

/-- The tree of an encoded `map[string]string` that is not nil. -/
def headersTree (l : List (GoString × GoString)) : JSON :=
  JSON.obj (l.map (fun kv => (kv.1, JSON.str kv.2)))

/-- The members the encoder writes for a `models.EndpointURL`, each with the tree
the parser is to read for its value. -/
def endpointItems (e : EndpointURL) : List (GoString × List Byte × JSON) :=
  [(gs "url", appendString e.URL, JSON.str e.URL),
    (gs "method", appendString e.Method, JSON.str e.Method)]
    ++ (if mapLen e.Headers = 0 then []
        else [(gs "headers", encodeMap appendString e.Headers, headersTree (e.Headers.getD []))])
    ++ (if e.Description = [] then []
        else [(gs "description", appendString e.Description, JSON.str e.Description)])

/-- The tree of an encoded `models.EndpointURL`. -/
def endpointTree (e : EndpointURL) : JSON :=
  JSON.obj ((endpointItems e).map (fun it => (it.1, it.2.2)))

/-- The tree of an encoded endpoint map that is not nil. -/
def endpointsTree (l : List (GoString × EndpointURL)) : JSON :=
  JSON.obj (l.map (fun kv => (kv.1, endpointTree kv.2)))

/-- The keys of `acc` followed by those of `l` are strictly increasing. -/
def KeysAscend {V W : Type} (acc : List (GoString × V)) (l : List (GoString × W)) : Prop :=
  (acc.map Prod.fst ++ l.map Prod.fst).Pairwise (fun a b => ltBytes a b = true)

/-! ## Specification vocabulary for the predefined endpoints -/

/-- The last template named `k` in configuration order, if there is one. -/
def lastNamed (k : GoString) (templates : List EndpointConfig) : Option EndpointConfig :=
  (templates.filter (fun c => decide (c.Name = k))).getLast?

/-- The endpoint `GetPredefinedEndpoints` makes of a template: the URL is empty (the
user sets it), the headers are nil, method and description are the template's. -/
def templateEndpoint (c : EndpointConfig) : EndpointURL :=
  { URL := [], Method := c.Method, Headers := none, Description := c.Description }

/-- A registry with two types of the same name; only the first is ever found. It
has a template name twice, and one name that sorts before the others. -/
def repeatedConfig : PoolConfiguration :=
  { PoolTypes :=
      [{ Name := gs "Desk"
         Endpoints :=
           [{ Name := gs "tasks", Method := gs "GET", Description := gs "first" },
            { Name := gs "chat", Method := gs "POST", Description := gs "stream" },
            { Name := gs "tasks", Method := gs "PUT", Description := gs "second" }] },
       { Name := gs "Desk"
         Endpoints := [{ Name := gs "other", Method := gs "GET", Description := [] }] }] }

/-! ## `time`: a time written as text

A `time.Time` also carries a location, and the text of a time shows the wall clock
of that location. The embedding keeps the instant only; where the program writes a
time as text, the offset of the location the value carries (seconds east of UTC at
that instant) is an explicit argument. -/

/-- Year, month and day of the day that is `z` days after 1 January 1970, in the
proleptic Gregorian calendar (what `Time.Date` computes). -/
def civilFromDays (z : Int) : Int × Nat × Nat :=
  let era := (z + 719468) / 146097
  let doe := ((z + 719468) - era * 146097).toNat
  let yoe := (doe - doe / 1460 + doe / 36524 - doe / 146096) / 365
  let doy := doe - (365 * yoe + yoe / 4 - yoe / 100)
  let mp := (5 * doy + 2) / 153
  let d := doy - (153 * mp + 2) / 5 + 1
  let m := if mp < 10 then mp + 3 else mp - 9
  ((yoe : Int) + era * 400 + (if m ≤ 2 then 1 else 0), m, d)

/-- The reading of the wall clock of a zone `offset` seconds east of UTC at the
instant `t`, in nanoseconds. -/
def wallClock (offset : Int) (t : Time) : Int := t + offset * 1000000000

/-- The method `Time.Year` of a time that carries a zone of the given offset. -/
def Time.Year (offset : Int) (t : Time) : Int :=
  (civilFromDays (wallClock offset t / 1000000000 / 86400)).1

/-- The character of the last decimal digit of `n`. -/
def digitChar (n : Nat) : Byte := byte (0x30 + n % 10)

/-- The two digits of `n < 100`. -/
def pad2 (n : Nat) : List Byte := [digitChar (n / 10), digitChar n]

/-- The four digits of `n < 10000`. -/
def pad4 (n : Nat) : List Byte :=
  [digitChar (n / 1000), digitChar (n / 100), digitChar (n / 10), digitChar n]

/-- The decimal digits of `n`, most significant first; the first argument bounds
the number of digits. -/
def decimalDigits : Nat → Nat → List Byte
  | 0, _ => []
  | fuel + 1, n => if n < 10 then [digitChar n] else decimalDigits fuel (n / 10) ++ [digitChar n]

/-- The function `appendInt(b, x, width)` of package `time`: a minus sign for a
negative number, then the decimal digits with zeros in front up to `width`. -/
def appendInt (x : Int) (width : Nat) : List Byte :=
  (if x < 0 then [(0x2D : Byte)] else []) ++
    (if width = 2 ∧ x.natAbs < 100 then pad2 x.natAbs
     else if width = 4 ∧ x.natAbs < 10000 then pad4 x.natAbs
     else
       List.replicate (width - (decimalDigits (x.natAbs + 1) x.natAbs).length) (0x30 : Byte) ++
         decimalDigits (x.natAbs + 1) x.natAbs)

/-- The fraction `.999999999` of a layout: the nanoseconds in nine digits with the
trailing zeros cut off, after a dot; nothing at all for zero nanoseconds. -/
def formatFraction (nsec : Nat) : List Byte :=
  if nsec = 0 then []
  else
    (0x2E : Byte) ::
      ((([digitChar (nsec / 100000000), digitChar (nsec / 10000000), digitChar (nsec / 1000000),
          digitChar (nsec / 100000), digitChar (nsec / 10000), digitChar (nsec / 1000),
          digitChar (nsec / 100), digitChar (nsec / 10), digitChar nsec].reverse).dropWhile
        (fun b => decide (b.val = 0x30))).reverse)

/-- The zone as the layout `-07:00` writes it: the sign, the hours and the minutes of
the offset; its seconds are cut. -/
def formatZone (offset : Int) : List Byte :=
  (if offset ≤ -60 then (0x2D : Byte) else 0x2B) ::
    (appendInt ((offset.natAbs / 3600 : Nat) : Int) 2 ++
      (0x3A : Byte) :: appendInt ((offset.natAbs / 60 % 60 : Nat) : Int) 2)

/-- Date and clock of the layouts: year, month, day, the separator `sep`, hour,
minute, second and fraction on the wall clock of the zone. -/
def formatDateClock (sep : Byte) (offset : Int) (t : Time) : List Byte :=
  let sec := wallClock offset t / 1000000000
  let nsec := (wallClock offset t % 1000000000).toNat
  let rem := (sec % 86400).toNat
  let date := civilFromDays (sec / 86400)
  appendInt date.1 4 ++ (0x2D : Byte) :: appendInt (date.2.1 : Int) 2 ++
    (0x2D : Byte) :: appendInt (date.2.2 : Int) 2 ++
    sep :: appendInt ((rem / 3600 : Nat) : Int) 2 ++
    (0x3A : Byte) :: appendInt ((rem % 3600 / 60 : Nat) : Int) 2 ++
    (0x3A : Byte) :: appendInt ((rem % 60 : Nat) : Int) 2 ++ formatFraction nsec

/-- The text of `t` in the layout `time.RFC3339Nano`
(`2006-01-02T15:04:05.999999999Z07:00`): the zone is `Z` for the offset zero. -/
def formatRFC3339 (offset : Int) (t : Time) : List Byte :=
  formatDateClock 0x54 offset t ++ (if offset = 0 then [(0x5A : Byte)] else formatZone offset)

/-- The text the SQLite driver binds for a `time.Time`: the layout
`2006-01-02 15:04:05.999999999-07:00`. -/
def formatTimestamp (offset : Int) (t : Time) : List Byte :=
  formatDateClock 0x20 offset t ++ formatZone offset

/-! ## `internal/database`: listing the pools of a user -/

/-- The call `rows.Scan(...)` of `GetUserEndpointPools` on one row, followed by the
decoding of the `endpoints` text. Scanning a `NULL` description into a Go `string`
is an error of `Scan`. -/
def scanPoolRow (r : PoolRow) : Except DBError EndpointPool :=
  match r.description with
  | none => Except.error DBError.scanFailed
  | some description =>
    Except.ok
      { ID := r.id
        UserID := r.user_id
        Name := r.name
        Description := description
        PoolType := r.type
        Endpoints := readEndpoints r.endpoints
        Created := r.created
        Updated := r.updated
        IsDefault := r.is_default }

/-- The loop `for rows.Next()` of `GetUserEndpointPools`: a row whose scan fails is
skipped (`continue`), every other row is appended. -/
def scanPoolRows : List PoolRow → List EndpointPool
  | [] => []
  | r :: rest =>
    match scanPoolRow r with
    | Except.error _ => scanPoolRows rest
    | Except.ok pool => pool :: scanPoolRows rest

/-- The text in the column `created` of a row. The SQLite driver stores a
`time.Time` as the text of its wall clock followed by its zone, in hours and minutes.
The row record holds the instant the text denotes, and `createdZone r` is the zone
the text of row `r` shows, in minutes east of UTC. -/
def createdText (createdZone : PoolRow → Int) (r : PoolRow) : List Byte :=
  formatTimestamp (createdZone r * 60) r.created

/-- The clause `ORDER BY is_default DESC, created ASC`: row `a` may come before
row `b`. The column `created` holds text, and SQLite compares text bytewise. -/
def poolOrder (createdZone : PoolRow → Int) (a b : PoolRow) : Prop :=
  (a.is_default = true ∧ b.is_default = false) ∨
    (a.is_default = b.is_default ∧
      ltBytes (createdText createdZone b) (createdText createdZone a) = false)

instance instDecidablePoolOrder (createdZone : PoolRow → Int) :
    DecidableRel (poolOrder createdZone) := fun a b =>
  inferInstanceAs (Decidable ((a.is_default = true ∧ b.is_default = false) ∨
    (a.is_default = b.is_default ∧
      ltBytes (createdText createdZone b) (createdText createdZone a) = false)))

/-- The order of the index of the primary key `(user_id, id)` among the rows of one
user: by `id`, bytewise. -/
def idOrder (a b : PoolRow) : Prop := ltBytes b.id a.id = false

instance instDecidableIdOrder : DecidableRel idOrder := fun a b =>
  inferInstanceAs (Decidable (ltBytes b.id a.id = false))

/-- The method `SQLiteDatabase.GetUserEndpointPools`. The rows of the user are found
through the index of the primary key, so in the order of their ids; they are then
sorted by the `ORDER BY` clause, rows that compare equal staying in the order of
their ids; and they are scanned one by one. -/
def GetUserEndpointPools (createdZone : PoolRow → Int) (db : DB) (userID : GoString) :
    Except DBError (List EndpointPool) :=
  Except.ok
    (scanPoolRows
      (((db.endpoint_pools.filter (fun r => decide (r.user_id = userID))).insertionSort
        idOrder).insertionSort (poolOrder createdZone)))

/-- A store with three pools of `u1` (one default, one with a `NULL` description)
and one pool of another user. -/
def listingDB : DB :=
  { emptyDB with
    endpoint_pools :=
      [{ samplePoolRow with id := gs "p3", created := 30000000000 },
       { samplePoolRow with id := gs "p2", created := 20000000000, is_default := true },
       { samplePoolRow with id := gs "q1", user_id := gs "u2", created := 5000000000 },
       { samplePoolRow with id := gs "p1", created := 10000000000 }] }

/-- A store whose only row belongs to `u1` and has a `NULL` description. -/
def nullDescriptionDB : DB := { emptyDB with endpoint_pools := [nullDescriptionRow] }

/-- A store with two pools of `u1`: `a` was created at 23:13:20 UTC on 14 November
2023, `b` one hour earlier. -/
def zonedDB : DB :=
  { emptyDB with
    endpoint_pools :=
      [{ samplePoolRow with id := gs "b", created := 1700000000000000000 },
       { samplePoolRow with id := gs "a", created := 1700003600000000000 }] }

/-- The time of row `a` was written in a zone five hours west of UTC, every other
time in UTC. -/
def zonedRows (r : PoolRow) : Int := if r.id = gs "a" then -300 else 0

/-- Every time was written in UTC. -/
def utcRows (_r : PoolRow) : Int := 0

/-! ## `golang.org/x/crypto/bcrypt`

The package as `auth.HashPassword` and `auth.CheckPasswordHash` use it: the text
format of a hash, its parsing and the comparison. The Blowfish key schedule and
encryption work on tables that are not part of this development; they are an
argument (`BlowfishCipher`), and every statement below holds for each such
function. -/

/-- The errors of the package. -/
inductive BcryptError where
  | hashTooShort : BcryptError
  | invalidHashPrefix : BcryptError
  | hashVersionTooNew : BcryptError
  | invalidCost : BcryptError
  | passwordTooLong : BcryptError
  | mismatchedHashAndPassword : BcryptError
  | cipherSetup : BcryptError
  deriving DecidableEq, Repr

/-- The constant `majorVersion`, the character `2`. -/
def majorVersion : Byte := 0x32

/-- The constant `minorVersion`, the character `a`. -/
def minorVersion : Byte := 0x61

/-- The constant `maxSaltSize`. -/
def maxSaltSize : Nat := 16

/-- The constant `maxCryptedHashSize`. -/
def maxCryptedHashSize : Nat := 23

/-- The constant `encodedSaltSize`. -/
def encodedSaltSize : Nat := 22

/-- The constant `encodedHashSize`. -/
def encodedHashSize : Nat := 31

/-- The constant `minHashSize`. -/
def minHashSize : Nat := 59

/-- The constant `MinCost`. -/
def MinCost : Int := 4

/-- The constant `MaxCost`. -/
def MaxCost : Int := 31

/-- The constant `DefaultCost`. -/
def DefaultCost : Int := 10

/-- The alphabet of `bcEncoding`. -/
def bcAlphabet : GoString :=
  gs "./ABCDEFGHIJKLMNOPQRSTUVWXYZabcdefghijklmnopqrstuvwxyz0123456789"

/-- The character of `bcEncoding` for a six-bit value. -/
def bcChar (n : Nat) : Byte := bcAlphabet.getD n 0

/-- The function `base64Encode` of the package: base64 in the alphabet of bcrypt
with the padding characters cut off. It is only called on 16 and on 23 bytes. -/
def base64Encode : List Byte → List Byte
  | [] => []
  | [a] => [bcChar (a.val / 4), bcChar (a.val % 4 * 16)]
  | [a, b] => [bcChar (a.val / 4), bcChar (a.val % 4 * 16 + b.val / 16), bcChar (b.val % 16 * 4)]
  | a :: b :: c :: rest =>
    bcChar (a.val / 4) :: bcChar (a.val % 4 * 16 + b.val / 16) ::
      bcChar (b.val % 16 * 4 + c.val / 64) :: bcChar (c.val % 64) :: base64Encode rest

/-- The Blowfish part of the function `bcrypt`: `expensiveBlowfishSetup` on the
password, the cost and the encoded salt, then the 64 encryptions of the magic text.
The result is the 24 bytes of `cipherData`, or the error of the setup (a salt that
is not base64). -/
abbrev BlowfishCipher := List Byte → Int → List Byte → Except BcryptError (Fin 24 → Byte)

/-- The function `bcrypt`: the first 23 bytes of the cipher text, encoded. -/
def bcrypt (cipher : BlowfishCipher) (password : List Byte) (cost : Int) (salt : List Byte) :
    Except BcryptError (List Byte) :=
  match cipher password cost salt with
  | Except.error e => Except.error e
  | Except.ok cipherData => Except.ok (base64Encode ((List.ofFn cipherData).take maxCryptedHashSize))

/-- The struct `hashed`. -/
structure hashed where
  hash : List Byte
  salt : List Byte
  cost : Int
  major : Byte
  minor : Byte
  deriving DecidableEq, Repr

/-- The function `checkCost`. -/
def checkCost (cost : Int) : Except BcryptError Unit :=
  if cost < MinCost ∨ cost > MaxCost then Except.error BcryptError.invalidCost else Except.ok ()

/-- The call `fmt.Sprintf("%02d", cost)`. -/
def formatCost (cost : Int) : List Byte :=
  if 0 ≤ cost ∧ cost < 10 then (0x30 : Byte) :: formatInt cost else formatInt cost

/-- The call `copy(arr[n:], src)`: `src` is written into `arr` from index `n` on, as
far as `arr` reaches. -/
def copyAt (arr : List Byte) (n : Nat) (src : List Byte) : List Byte :=
  arr.take n ++ src.take (arr.length - n) ++ arr.drop (n + min src.length (arr.length - n))

/-- The method `hashed.Hash`: the text of a hash, written into an array of 60 bytes. -/
def hashed.Hash (p : hashed) : List Byte :=
  let arr0 : List Byte := List.replicate 60 0
  let arr1 := (arr0.set 0 0x24).set 1 p.major
  let arr2 := if p.minor ≠ 0 then arr1.set 2 p.minor else arr1
  let n2 := if p.minor ≠ 0 then 3 else 2
  let arr3 := arr2.set n2 0x24
  let arr4 := copyAt arr3 (n2 + 1) (formatCost p.cost)
  let arr5 := arr4.set (n2 + 3) 0x24
  let arr6 := copyAt arr5 (n2 + 4) p.salt
  let arr7 := copyAt arr6 (n2 + 4 + encodedSaltSize) p.hash
  arr7.take (n2 + 4 + encodedSaltSize + encodedHashSize)

/-- The value of a decimal digit. -/
def digitVal (b : Byte) : Option Int :=
  if 0x30 ≤ b.val ∧ b.val ≤ 0x39 then some ((b.val : Int) - 0x30) else none

/-- The call `strconv.Atoi(string(sbytes[0:2]))`: two digits, or a sign and one
digit. -/
def atoi2 (b0 b1 : Byte) : Option Int :=
  match digitVal b1 with
  | none => none
  | some d1 =>
    if b0.val = 0x2B then some d1
    else if b0.val = 0x2D then some (-d1)
    else
      match digitVal b0 with
      | none => none
      | some d0 => some (d0 * 10 + d1)

/-- The function `newFromHash`, with `decodeVersion` and `decodeCost`. It reads the
bytes at fixed places and does not look at the separators after the minor version
and after the cost. -/
def newFromHash (hashedSecret : List Byte) : Except BcryptError hashed :=
  if hashedSecret.length < minHashSize then Except.error BcryptError.hashTooShort
  else
    match hashedSecret with
    | s0 :: s1 :: s2 :: rest =>
      if s0.val ≠ 0x24 then Except.error BcryptError.invalidHashPrefix
      else if s1.val > majorVersion.val then Except.error BcryptError.hashVersionTooNew
      else
        let minor : Byte := if s2.val ≠ 0x24 then s2 else 0
        let afterVersion := if s2.val ≠ 0x24 then rest.drop 1 else rest
        match afterVersion with
        | c0 :: c1 :: afterCost =>
          match atoi2 c0 c1 with
          | none => Except.error BcryptError.invalidCost
          | some cost =>
            match checkCost cost with
            | Except.error e => Except.error e
            | Except.ok _ =>
              let body := afterCost.drop 1
              Except.ok
                { hash := body.drop encodedSaltSize
                  salt := body.take encodedSaltSize
                  cost := cost
                  major := s1
                  minor := minor }
        | _ => Except.error BcryptError.hashTooShort
    | _ => Except.error BcryptError.hashTooShort

/-- The function `newFromPassword`; `rnd` delivers the 16 bytes of the salt. -/
def newFromPassword (cipher : BlowfishCipher) (rnd : RandSource) (password : List Byte)
    (cost : Int) : Except BcryptError hashed :=
  let cost := if cost < MinCost then DefaultCost else cost
  match checkCost cost with
  | Except.error e => Except.error e
  | Except.ok _ =>
    let salt := base64Encode (randRead rnd maxSaltSize)
    match bcrypt cipher password cost salt with
    | Except.error e => Except.error e
    | Except.ok hash =>
      Except.ok { hash := hash, salt := salt, cost := cost, major := majorVersion,
                  minor := minorVersion }

/-- The function `bcrypt.GenerateFromPassword`. -/
def GenerateFromPassword (cipher : BlowfishCipher) (rnd : RandSource) (password : List Byte)
    (cost : Int) : Except BcryptError (List Byte) :=
  if password.length > 72 then Except.error BcryptError.passwordTooLong
  else
    match newFromPassword cipher rnd password cost with
    | Except.error e => Except.error e
    | Except.ok p => Except.ok p.Hash

/-- The function `bcrypt.CompareHashAndPassword`: `Except.ok ()` is the nil error. -/
def CompareHashAndPassword (cipher : BlowfishCipher) (hashedPassword password : List Byte) :
    Except BcryptError Unit :=
  match newFromHash hashedPassword with
  | Except.error e => Except.error e
  | Except.ok p =>
    match bcrypt cipher password p.cost p.salt with
    | Except.error e => Except.error e
    | Except.ok otherHash =>
      let otherP : hashed :=
        { hash := otherHash, salt := p.salt, cost := p.cost, major := p.major, minor := p.minor }
      if ConstantTimeCompare p.Hash otherP.Hash = 1 then Except.ok ()
      else Except.error BcryptError.mismatchedHashAndPassword

/-! ## `internal/auth`: passwords -/

/-- The function `auth.HashPassword`. -/
def HashPassword (cipher : BlowfishCipher) (rnd : RandSource) (password : GoString) :
    Except BcryptError GoString :=
  GenerateFromPassword cipher rnd password DefaultCost

/-- The function `auth.CheckPasswordHash`: `err == nil`. -/
def CheckPasswordHash (cipher : BlowfishCipher) (password hash : GoString) : Bool :=
  match CompareHashAndPassword cipher hash password with
  | Except.ok _ => true
  | Except.error _ => false

/-- A stand-in for the Blowfish part, for evaluating the functions above on
concrete inputs: the cipher text is made of the bytes of the password, the cost and
the salt. -/
def toyCipher : BlowfishCipher := fun password cost salt =>
  Except.ok (fun i =>
    byte ((password.getD i.val 0).val + (salt.getD i.val 0).val + cost.toNat + i.val))

/-- A random source for concrete inputs. -/
def sampleRand : RandSource := fun i => byte (7 * i + 3)

/-! ## `internal/database`: users and sessions -/

/-- The method `SQLiteDatabase.GetUserByUsername`: the first row of
`SELECT ... FROM users WHERE email = ?`. Every column of `users` is `NOT NULL`, so
the scan of a row that is found succeeds. -/
def GetUserByUsername (db : DB) (email : GoString) : Except DBError User :=
  match db.users.find? (fun r => decide (r.email = email)) with
  | none => Except.error DBError.notFound
  | some r =>
    Except.ok
      { ID := r.id, Email := r.email, Password := r.password, Created := r.created,
        Updated := r.updated }

/-- The method `SQLiteDatabase.CreateUser`: an `INSERT` into `users`, rejected when
the primary key `id` or the `UNIQUE` column `email` is already present. -/
def CreateUser (db : DB) (user : User) : Except DBError DB :=
  if db.users.any (fun r => decide (r.id = user.ID) || decide (r.email = user.Email)) then
    Except.error DBError.constraintFailed
  else
    Except.ok
      { db with
        users := db.users ++
          [{ id := user.ID, email := user.Email, password := user.Password,
             created := user.Created, updated := user.Updated }] }

/-- The method `SQLiteDatabase.CreateSession`: an `INSERT` into `sessions`, rejected
when the primary key `id` is already present. -/
def SQLiteDatabase.CreateSession (db : DB) (session : Session) : Except DBError DB :=
  if db.sessions.any (fun r => decide (r.id = session.ID)) then
    Except.error DBError.constraintFailed
  else
    Except.ok
      { db with
        sessions := db.sessions ++
          [{ id := session.ID, user_id := session.UserID, created := session.Created,
             expires := session.Expires }] }

/-! ## `internal/handlers`: registration and login -/

/-- The struct `handlers.RegisterRequest`. -/
structure RegisterRequest where
  Email : GoString
  Password : GoString
  deriving DecidableEq, Repr

/-- The struct `handlers.LoginRequest`. -/
structure LoginRequest where
  Email : GoString
  Password : GoString
  deriving DecidableEq, Repr

/-- The struct `fiber.Cookie`, with the fields the handlers set. -/
structure Cookie where
  Name : String
  Value : GoString
  Expires : Time
  HTTPOnly : Bool
  Secure : Bool
  SameSite : String
  deriving DecidableEq, Repr

/-- What the handlers of `AuthHandler` produce: the status code, the fields of
`APIResponse` (`Data` is the `user_id` of the `fiber.Map`), the cookie set on the
response, and the database afterwards. What the handlers print on the standard
output of the server is not part of it. -/
structure AuthResult where
  Status : Nat
  Success : Bool
  Message : String
  Data : Option GoString
  SetCookie : Option Cookie
  db : DB
  deriving DecidableEq, Repr

/-- The method `AuthHandler.HandleRegister`. The random source is read for the salt
of the password hash; the clock is read for the id, for `Created` and for
`Updated`. -/
def HandleRegister (cipher : BlowfishCipher) (rnd : RandSource) (db : DB)
    (body : Option RegisterRequest) (tID tCreated tUpdated : Time) : AuthResult :=
  match body with
  | none =>
    { Status := 400, Success := false, Message := "Invalid request body", Data := none,
      SetCookie := none, db := db }
  | some req =>
    if req.Email = [] ∨ req.Password = [] then
      { Status := 400, Success := false, Message := "Email and password are required",
        Data := none, SetCookie := none, db := db }
    else
      match GetUserByUsername db req.Email with
      | Except.ok _ =>
        { Status := 409, Success := false, Message := "Email already exists", Data := none,
          SetCookie := none, db := db }
      | Except.error _ =>
        match HashPassword cipher rnd req.Password with
        | Except.error _ =>
          { Status := 500, Success := false, Message := "Failed to process password",
            Data := none, SetCookie := none, db := db }
        | Except.ok hashedPassword =>
          let user : User :=
            { ID := GenerateID tID
              Email := req.Email
              Password := hashedPassword
              Created := tCreated
              Updated := tUpdated }
          match CreateUser db user with
          | Except.error _ =>
            { Status := 500, Success := false, Message := "Failed to create user",
              Data := none, SetCookie := none, db := db }
          | Except.ok db' =>
            { Status := 200, Success := true, Message := "User registered successfully",
              Data := some user.ID, SetCookie := none, db := db' }

/-- The method `AuthHandler.HandleLogin`. The random source is read for the session
id; `now1` and `now2` are the two clock readings of `auth.CreateSession`. -/
def HandleLogin (cipher : BlowfishCipher) (rnd : RandSource) (db : DB)
    (body : Option LoginRequest) (now1 now2 : Time) : AuthResult :=
  match body with
  | none =>
    { Status := 400, Success := false, Message := "Invalid request body", Data := none,
      SetCookie := none, db := db }
  | some req =>
    match GetUserByUsername db req.Email with
    | Except.error _ =>
      { Status := 401, Success := false, Message := "Invalid email or password", Data := none,
        SetCookie := none, db := db }
    | Except.ok user =>
      if !CheckPasswordHash cipher req.Password user.Password then
        { Status := 401, Success := false, Message := "Invalid email or password",
          Data := none, SetCookie := none, db := db }
      else
        let session := CreateSession rnd now1 now2 user.ID
        match SQLiteDatabase.CreateSession db session with
        | Except.error _ =>
          { Status := 500, Success := false, Message := "Failed to create session",
            Data := none, SetCookie := none, db := db }
        | Except.ok db' =>
          { Status := 200, Success := true, Message := "Login successful",
            Data := some user.ID
            SetCookie :=
              some { Name := "session_id", Value := session.ID, Expires := session.Expires,
                     HTTPOnly := true, Secure := false, SameSite := "Lax" }
            db := db' }

/-- A store with one registered user, `a@example.com`, whose password `secret123`
was hashed with `toyCipher` and `sampleRand`. -/
def registeredDB : DB :=
  { emptyDB with
    users :=
      [{ id := gs "1700000000000000000", email := gs "a@example.com",
         password := gs "$2a$10$.umPE/6kJRO5OijOTz3jZ.o8Vax5gwb44NXULIXWAAYE4TR2b2RQ.",
         created := 1, updated := 1 }] }

/-! ## `internal/models`: the JSON text of a user -/

/-- The errors of `json.Marshal` at the types of this program: the two errors of
`Time.MarshalJSON`. -/
inductive MarshalError where
  | yearOutsideRange : MarshalError
  | zoneHourOutsideRange : MarshalError
  deriving DecidableEq, Repr

/-- The method `Time.MarshalJSON` (Go 1.20 and later) of a time that carries a zone
of the given offset: the quoted RFC 3339 text, or an error for a year outside of 0
to 9999 or a zone of 24 hours or more. -/
def Time.MarshalJSON (offset : Int) (t : Time) : Except MarshalError (List Byte) :=
  if Time.Year offset t < 0 ∨ Time.Year offset t > 9999 then
    Except.error MarshalError.yearOutsideRange
  else if offset ≠ 0 ∧ offset.natAbs / 3600 ≥ 24 then
    Except.error MarshalError.zoneHourOutsideRange
  else Except.ok ((0x22 : Byte) :: (formatRFC3339 offset t ++ [0x22]))

/-- The method `User.ToJSON`, `json.Marshal` at `*models.User`: the fields with a
JSON name, in the order of the struct. The field `Password` has the tag `json:"-"`
and is skipped. `createdOffset` and `updatedOffset` are the zone offsets of the
locations that `Created` and `Updated` carry. -/
def User.ToJSON (u : User) (createdOffset updatedOffset : Int) :
    Except MarshalError (List Byte) :=
  match Time.MarshalJSON createdOffset u.Created with
  | Except.error e => Except.error e
  | Except.ok created =>
    match Time.MarshalJSON updatedOffset u.Updated with
    | Except.error e => Except.error e
    | Except.ok updated =>
      Except.ok
        (encodeObject
          [(gs "id", appendString u.ID), (gs "email", appendString u.Email),
            (gs "created", created), (gs "updated", updated)])

/-- A text is made of printable ASCII that `appendString` copies as it is. -/
def allSafe (s : List Byte) : Bool := s.all htmlSafe

/-- A user created at 2023-11-14 22:13:20.5 UTC. -/
def datedUser : User :=
  { ID := gs "u1", Email := gs "a@example.com", Password := gs "$2a$10$hash",
    Created := 1700000000500000000, Updated := 1700000000500000000 }

/-! ## `internal/handlers`: deleting pools and tokens -/

/-- The method `EndpointsHandler.HandleDeleteEndpointPool`: the pool is looked up
under the id of the authenticated user first ("Check if pool exists and belongs to
user"), and deleted under the same user id. -/
def HandleDeleteEndpointPool (db : DB) (user : User) (poolID : GoString) : HandlerResult Unit :=
  match GetEndpointPool db user.ID poolID with
  | Except.error _ =>
    { Status := 404, Success := false, Message := "Endpoint pool not found", Data := none,
      db := db }
  | Except.ok _ =>
    match DeleteEndpointPool db user.ID poolID with
    | Except.error _ =>
      { Status := 500, Success := false, Message := "Failed to delete endpoint pool",
        Data := none, db := db }
    | Except.ok db' =>
      { Status := 200, Success := true, Message := "Endpoint pool deleted successfully",
        Data := none, db := db' }

/-- The method `EndpointsHandler.HandleDeleteAPIToken`. The route is behind the
authentication middleware, so there is an authenticated `user`, but the handler does
not read it: it takes the id from the path and calls `DeleteAPIToken` with it. -/
def HandleDeleteAPIToken (db : DB) (_user : User) (tokenID : GoString) : HandlerResult Unit :=
  match DeleteAPIToken db tokenID with
  | Except.error _ =>
    { Status := 500, Success := false, Message := "Failed to delete API token", Data := none,
      db := db }
  | Except.ok db' =>
    { Status := 200, Success := true, Message := "API token deleted successfully",
      Data := none, db := db' }

/-- A token of the user `u2`, bound to a pool of `u2`. -/
def foreignTokenRow : TokenRow :=
  { id := gs "1700000000000000001", user_id := gs "u2", pool_id := gs "q1",
    token := gs "token_1700000000000000002", name := gs "deploy", created := 3,
    last_used := some zeroTime, active := true }

/-- A store in which `u2` owns a token and a pool, and `sampleUser` (`u1`) owns a
pool. -/
def foreignTokenDB : DB :=
  { emptyDB with
    endpoint_pools := [samplePoolRow, { samplePoolRow with id := gs "q1", user_id := gs "u2" }]
    api_tokens := [foreignTokenRow] }

/-- A registry that was loaded from a file with no pool type. -/
def emptyConfig : PoolConfiguration := { PoolTypes := [] }

/-! ## Theorems: `internal/auth` -/

theorem or_eq_zero_iff_both (a b : Nat) : a ||| b = 0 ↔ a = 0 ∧ b = 0 := by
  constructor
  · intro h
    have hbit : ∀ i, a.testBit i = false ∧ b.testBit i = false := by
      intro i
      have hi : (a ||| b).testBit i = false := by rw [h]; exact Nat.zero_testBit i
      rw [Nat.testBit_or] at hi
      simpa using hi
    constructor
    · apply Nat.eq_of_testBit_eq
      intro i
      rw [(hbit i).1, Nat.zero_testBit]
    · apply Nat.eq_of_testBit_eq
      intro i
      rw [(hbit i).2, Nat.zero_testBit]
  · rintro ⟨rfl, rfl⟩
    rfl

theorem byte_xor_lt (x y : Byte) : x.val ^^^ y.val < 256 :=
  Nat.xor_lt_two_pow (n := 8) x.isLt y.isLt

theorem xorAccumulate_lt (v : Nat) (hv : v < 256) (xs ys : List Byte) :
    xorAccumulate v xs ys < 256 := by
  induction xs generalizing v ys with
  | nil => simpa [xorAccumulate] using hv
  | cons x xs ih =>
    cases ys with
    | nil => simpa [xorAccumulate] using hv
    | cons y ys =>
      simp only [xorAccumulate]
      exact ih _ (Nat.mod_lt _ (by decide)) ys

theorem xorAccumulate_eq_zero (v : Nat) (hv : v < 256) (xs ys : List Byte)
    (hlen : xs.length = ys.length) :
    xorAccumulate v xs ys = 0 ↔ v = 0 ∧ xs = ys := by
  induction xs generalizing v ys with
  | nil =>
    cases ys with
    | nil => simp [xorAccumulate]
    | cons y ys => simp at hlen
  | cons x xs ih =>
    cases ys with
    | nil => simp at hlen
    | cons y ys =>
      simp only [List.length_cons, Nat.add_right_cancel_iff] at hlen
      have hor : v ||| (x.val ^^^ y.val) < 256 :=
        Nat.or_lt_two_pow (n := 8) hv (byte_xor_lt x y)
      simp only [xorAccumulate, Nat.mod_eq_of_lt hor]
      rw [ih _ hor ys hlen, or_eq_zero_iff_both, Nat.xor_eq_zero, Fin.val_inj]
      constructor
      · rintro ⟨⟨h1, h2⟩, h3⟩
        exact ⟨h1, by rw [h2, h3]⟩
      · rintro ⟨h1, h2⟩
        injection h2 with h2 h3
        exact ⟨⟨h1, h2⟩, h3⟩

theorem ConstantTimeByteEq_zero (v : Nat) (hv : v < 256) :
    ConstantTimeByteEq v 0 = 1 ↔ v = 0 := by
  unfold ConstantTimeByteEq
  simp only [Nat.xor_zero, Nat.shiftRight_eq_div_pow]
  constructor
  · intro h
    by_contra hne
    have h1 : v % 2 ^ 32 = v := Nat.mod_eq_of_lt (by omega)
    rw [h1] at h
    have h2 : (v + 2 ^ 32 - 1) % 2 ^ 32 = v - 1 := by omega
    rw [h2] at h
    have h3 : (v - 1) / 2 ^ 31 = 0 := Nat.div_eq_of_lt (by omega)
    omega
  · rintro rfl
    decide

theorem ConstantTimeCompare_eq_one (x y : List Byte) :
    ConstantTimeCompare x y = 1 ↔ x = y := by
  unfold ConstantTimeCompare
  by_cases hlen : x.length = y.length
  · simp only [hlen, ne_eq, not_true_eq_false, if_false]
    rw [ConstantTimeByteEq_zero _ (xorAccumulate_lt 0 (by decide) x y),
      xorAccumulate_eq_zero 0 (by decide) x y hlen]
    simp
  · simp only [ne_eq, hlen, not_false_eq_true, if_true]
    constructor
    · intro h
      exact absurd h (by decide)
    · intro h
      exact absurd (congrArg List.length h) hlen

/-- C1: `ValidateAPIToken p s` is true exactly when the stored token is active and
the provided string is byte-for-byte equal to the stored token value; with the
active flag cleared the result is false even for the stored value itself. -/
theorem ValidateAPIToken_iff (p : GoString) (s : APIToken) :
    (ValidateAPIToken p s = true ↔ s.Active = true ∧ p = s.Token) ∧
      ValidateAPIToken s.Token { s with Active := false } = false := by
  constructor
  · unfold ValidateAPIToken
    cases hA : s.Active
    · simp
    · simp [ConstantTimeCompare_eq_one]
  · simp [ValidateAPIToken]

/-- C2: `IsSessionValid` at clock reading `now` is true exactly when `now` is strictly
before `s.Expires` (false when they coincide), and its value is the same for any
session with that expiry, whatever the id, user and creation time. -/
theorem IsSessionValid_iff (now : Time) (s : Session) (i u : GoString) (c : Time) :
    (IsSessionValid now s = true ↔ now < s.Expires) ∧
      IsSessionValid s.Expires s = false ∧
      IsSessionValid now { ID := i, UserID := u, Created := c, Expires := s.Expires }
        = IsSessionValid now s := by
  simp [IsSessionValid, Time.Before]

/-- Facts of `CreateSession` that hold for all clock readings: the user id is the
argument, the creation time is the first reading and the expiry is 24 hours after
the second one, hence no earlier than 24 hours after creation when the clock does
not run backwards, and the session is valid at both readings. -/
theorem CreateSession_facts (rnd : RandSource) (now1 now2 : Time) (u : GoString)
    (h : now1 ≤ now2) :
    (CreateSession rnd now1 now2 u).UserID = u ∧
      (CreateSession rnd now1 now2 u).Created = now1 ∧
      (CreateSession rnd now1 now2 u).Expires = now2 + 24 * Hour ∧
      (CreateSession rnd now1 now2 u).Created + 24 * Hour
        ≤ (CreateSession rnd now1 now2 u).Expires ∧
      IsSessionValid now1 (CreateSession rnd now1 now2 u) = true ∧
      IsSessionValid now2 (CreateSession rnd now1 now2 u) = true := by
  simp only [CreateSession, IsSessionValid, Time.Before, Time.Add, decide_eq_true_eq, Hour]
  unfold Time at *
  refine ⟨trivial, trivial, trivial, ?_, ?_, ?_⟩ <;> omega

/-- C3: with the second clock reading 10 ns after the first, the session of
`CreateSession` expires 24 h and 10 ns after `Created`, not 24 h after it, and is
still valid 24 h and 5 ns after `Created`. -/
theorem CreateSession_expiry_drift :
    (CreateSession (fun _ => 0) 0 10 (gs "u1")).Created = 0 ∧
      (CreateSession (fun _ => 0) 0 10 (gs "u1")).Expires = 24 * Hour + 10 ∧
      (CreateSession (fun _ => 0) 0 10 (gs "u1")).Expires
        ≠ (CreateSession (fun _ => 0) 0 10 (gs "u1")).Created + 24 * Hour ∧
      IsSessionValid (0 + 24 * Hour + 5) (CreateSession (fun _ => 0) 0 10 (gs "u1")) = true := by
  simp only [CreateSession, IsSessionValid, Time.Before, Time.Add, Hour]
  decide


/-! ## Theorems: `internal/database` -/

theorem insertPoolRow_of_stored (db : DB) (row : PoolRow)
    (h : ∃ r ∈ db.endpoint_pools, r.user_id = row.user_id ∧ r.id = row.id) :
    insertPoolRow db row = Except.error DBError.constraintFailed := by
  obtain ⟨r, hr, hk⟩ := h
  have hany : db.endpoint_pools.any (fun r => r.hasKey row.user_id row.id) = true := by
    rw [List.any_eq_true]
    exact ⟨r, hr, by simpa [PoolRow.hasKey] using hk⟩
  simp [insertPoolRow, hany]

theorem insertPoolRow_of_fresh (db : DB) (row : PoolRow)
    (h : ¬ ∃ r ∈ db.endpoint_pools, r.user_id = row.user_id ∧ r.id = row.id) :
    insertPoolRow db row = Except.ok { db with endpoint_pools := db.endpoint_pools ++ [row] } := by
  have hany : db.endpoint_pools.any (fun r => r.hasKey row.user_id row.id) = false := by
    rw [← Bool.not_eq_true, List.any_eq_true]
    rintro ⟨r, hr, hk⟩
    exact h ⟨r, hr, by simpa [PoolRow.hasKey] using hk⟩
  simp [insertPoolRow, hany]

/-- For every pool already stored under its composite key, `UpdateEndpointPool`
sets `Updated` on the pool and then fails with the constraint error of the insert. -/
theorem UpdateEndpointPool_of_stored (db : DB) (now : Time) (pool : EndpointPool)
    (h : ∃ r ∈ db.endpoint_pools, r.user_id = pool.UserID ∧ r.id = pool.ID) :
    (UpdateEndpointPool db now pool).1.Updated = now ∧
      (UpdateEndpointPool db now pool).2 = Except.error DBError.constraintFailed := by
  refine ⟨rfl, ?_⟩
  simp only [UpdateEndpointPool, CreateEndpointPool]
  exact insertPoolRow_of_stored db _ h

/-- C5: after `samplePool` has been created, `UpdateEndpointPool` with a new name for
the same key returns the constraint error, and `GetEndpointPool` still returns the
pool with its old name. -/
theorem UpdateEndpointPool_stored_pool_fails :
    CreateEndpointPool emptyDB samplePool = Except.ok sampleDB ∧
      (UpdateEndpointPool sampleDB 9 { samplePool with Name := gs "Office" }).2
        = Except.error DBError.constraintFailed ∧
      GetEndpointPool sampleDB (gs "u1") (gs "p1") = Except.ok samplePool := by
  decide

theorem find_hasKey_some (l : List PoolRow) (u x : GoString) (r : PoolRow)
    (h : l.find? (fun r => r.hasKey u x) = some r) : r ∈ l ∧ r.user_id = u ∧ r.id = x := by
  have h1 := List.find?_some h
  have h2 := List.mem_of_find?_eq_some h
  exact ⟨h2, by simpa [PoolRow.hasKey] using h1⟩

/-- C6: a successful `GetEndpointPool u x` returns a pool whose user id is `u` and
whose id is `x`, so never a pool of another user `a`; and it fails with the
not-found error when no stored row has both that user id and that pool id, whatever
other rows are stored. -/
theorem GetEndpointPool_scoped (db : DB) (u x : GoString) :
    (∀ pool, GetEndpointPool db u x = Except.ok pool → pool.UserID = u ∧ pool.ID = x) ∧
      (∀ a pool, a ≠ u → GetEndpointPool db u x = Except.ok pool → pool.UserID ≠ a) ∧
      ((∀ r ∈ db.endpoint_pools, ¬ (r.user_id = u ∧ r.id = x)) →
        GetEndpointPool db u x = Except.error DBError.notFound) := by
  have key : ∀ pool, GetEndpointPool db u x = Except.ok pool → pool.UserID = u ∧ pool.ID = x := by
    intro pool h
    unfold GetEndpointPool at h
    cases hf : db.endpoint_pools.find? (fun r => r.hasKey u x) with
    | none => simp [hf] at h
    | some r =>
      obtain ⟨_, hu, hx⟩ := find_hasKey_some _ _ _ _ hf
      cases hd : r.description with
      | none => simp [hf, hd] at h
      | some d =>
        simp only [hf, hd, Except.ok.injEq] at h
        subst h
        exact ⟨hu, hx⟩
  refine ⟨key, ?_, ?_⟩
  · intro a pool ha h hEq
    exact ha (hEq.symm.trans (key pool h).1)
  · intro h
    have hf : db.endpoint_pools.find? (fun r => r.hasKey u x) = none := by
      rw [List.find?_eq_none]
      intro r hr
      simpa [PoolRow.hasKey] using h r hr
    simp [GetEndpointPool, hf]

/-- Witness for C6: user `u1` owns pool `p1`; asked as `u2`, the same pool id is not
found, and asked as `u1` the pool returned is the one of `u1`. -/
theorem GetEndpointPool_scoped_witness :
    GetEndpointPool sampleDB (gs "u2") (gs "p1") = Except.error DBError.notFound ∧
      (samplePool.UserID = gs "u1" ∧ samplePool.ID = gs "p1") ∧
      samplePool.UserID ≠ gs "u2" :=
  ⟨(GetEndpointPool_scoped sampleDB (gs "u2") (gs "p1")).2.2 (by decide),
    (GetEndpointPool_scoped sampleDB (gs "u1") (gs "p1")).1 samplePool (by decide),
    (GetEndpointPool_scoped sampleDB (gs "u1") (gs "p1")).2.1 (gs "u2") samplePool (by decide)
      (by decide)⟩

/-! ## Theorems: `internal/handlers` -/

/-- Whatever the registry says about the type, a create-pool request with a name is
stored under a fresh id, with the type of the request. -/
theorem HandleCreateEndpointPool_stores (poolConfig : Option PoolConfiguration) (db : DB)
    (user : User) (req : CreateEndpointPoolRequest) (tID tCreated tUpdated : Time)
    (hname : req.Name ≠ []) (htype : req.PoolType ≠ [])
    (hfresh : ¬ ∃ r ∈ db.endpoint_pools, r.user_id = user.ID ∧ r.id = GenerateID tID) :
    (HandleCreateEndpointPool poolConfig db user (some req) tID tCreated tUpdated).Status = 200 ∧
      ∃ row,
        (HandleCreateEndpointPool poolConfig db user (some req) tID tCreated tUpdated).db.endpoint_pools
          = db.endpoint_pools ++ [row] ∧ row.type = req.PoolType := by
  simp only [HandleCreateEndpointPool, hname, htype, if_false, CreateEndpointPool]
  rw [insertPoolRow_of_fresh _ _ hfresh]
  exact ⟨rfl, _, rfl, rfl⟩

/-- C7: with the registry unset and with `sampleConfig` loaded, the type `Bogus` is
not accepted by `ValidatePoolType`, and yet `HandleCreateEndpointPool` answers the
request with status 200 and stores a pool of type `Bogus`. -/
theorem HandleCreateEndpointPool_unknown_type_stored :
    bogusTypeRequest.Name ≠ [] ∧ bogusTypeRequest.PoolType ≠ [] ∧
      ValidatePoolType none bogusTypeRequest.PoolType = false ∧
      ValidatePoolType (some sampleConfig) bogusTypeRequest.PoolType = false ∧
      (HandleCreateEndpointPool none emptyDB sampleUser (some bogusTypeRequest) 5 6 7).Status = 200 ∧
      (HandleCreateEndpointPool none emptyDB sampleUser (some bogusTypeRequest) 5 6 7).Success
        = true ∧
      (HandleCreateEndpointPool none emptyDB sampleUser (some bogusTypeRequest) 5 6
          7).db.endpoint_pools
        = [{ id := gs "5", user_id := gs "u1", name := gs "Home", description := some [],
             type := gs "Bogus", endpoints := gs "\x7b\x7d", created := 6, updated := 7,
             is_default := false }] ∧
      (HandleCreateEndpointPool (some sampleConfig) emptyDB sampleUser (some bogusTypeRequest) 5 6
          7).db.endpoint_pools
        = [{ id := gs "5", user_id := gs "u1", name := gs "Home", description := some [],
             type := gs "Bogus", endpoints := gs "\x7b\x7d", created := 6, updated := 7,
             is_default := false }] := by
  decide

theorem hexDigit_ne_t (n : Nat) (h : n < 16) : hexDigit n ≠ (0x74 : Byte) := by
  have : ∀ m : Fin 16, hexDigit m.val ≠ (0x74 : Byte) := by decide
  exact this ⟨n, h⟩

/-- The token value `GenerateToken` builds from a clock reading is never a value
`auth.GenerateAPIToken` builds from random bytes: it starts with the letter `t`. -/
theorem GenerateToken_ne_GenerateAPIToken (now : Time) (rnd : RandSource) :
    GenerateToken now ≠ GenerateAPIToken rnd := by
  intro h
  have h1 : (GenerateToken now).head? = some (0x74 : Byte) := by
    simp [GenerateToken, gs]
    decide
  have h2 : (GenerateAPIToken rnd).head? = some (hexDigit ((rnd 0).val / 16)) := by
    simp [GenerateAPIToken, randRead, List.range_succ_eq_map, EncodeToString]
  rw [h, h2] at h1
  have hlt : (rnd 0).val / 16 < 16 := by
    have := (rnd 0).isLt
    omega
  exact hexDigit_ne_t _ hlt (Option.some.inj h1)

/-- The token `HandleCreateAPIToken` issues is a function of the clock reading taken
for it alone. -/
theorem HandleCreateAPIToken_token (db : DB) (user : User) (req : CreateAPITokenRequest)
    (tID tToken tCreated : Time) (token : APIToken)
    (h : (HandleCreateAPIToken db user (some req) tID tToken tCreated).Data = some token) :
    token.Token = GenerateToken tToken := by
  unfold HandleCreateAPIToken at h
  simp only at h
  split at h
  · simp at h
  · split at h
    · simp at h
    · split at h
      · simp at h
      · split at h
        · simp at h
        · simp only [Option.some.injEq] at h
          rw [← h]

/-- C8: `HandleCreateAPIToken` at clock reading 1700000000000000000 issues the token
`token_1700000000000000000`: the word `token_` and the decimal clock reading, 25
bytes and not 64 hexadecimal digits. -/
theorem HandleCreateAPIToken_token_from_clock :
    ((HandleCreateAPIToken sampleDB sampleUser (some sampleTokenRequest) 1699999999999999999
        1700000000000000000 1700000000000000001).Data.map (fun t => t.Token))
      = some (gs "token_1700000000000000000") ∧
      (gs "token_1700000000000000000").length = 25 ∧
      (GenerateAPIToken (fun _ => 0)).length = 64 := by
  decide

/-! ## Theorems: the `endpoints` column -/

theorem find_of_unique (l : List PoolRow) (u x : GoString) (r : PoolRow)
    (hkey : l.Pairwise (fun a b => ¬ (a.user_id = b.user_id ∧ a.id = b.id)))
    (hr : r ∈ l) (hu : r.user_id = u) (hx : r.id = x) :
    l.find? (fun r => r.hasKey u x) = some r := by
  induction l with
  | nil => simp at hr
  | cons a l ih =>
    rw [List.pairwise_cons] at hkey
    by_cases ha : a.hasKey u x = true
    · simp only [List.find?_cons, ha]
      rcases List.mem_cons.mp hr with h | h
      · rw [h]
      · exfalso
        have hak : a.user_id = u ∧ a.id = x := by simpa [PoolRow.hasKey] using ha
        exact hkey.1 r h ⟨hak.1.trans hu.symm, hak.2.trans hx.symm⟩
    · simp only [List.find?_cons, ha]
      rcases List.mem_cons.mp hr with h | h
      · exfalso
        apply ha
        rw [← h]
        simp [PoolRow.hasKey, hu, hx]
      · exact ih hkey.2 h

theorem parseJSON_nil : parseJSON [] = none := rfl

theorem decodeEndpoints_eq_none (cur : GoMap EndpointURL) (j : JSON) :
    decodeEndpoints cur j = Except.ok none ↔ j = JSON.null := by
  cases j with
  | null => simp [decodeEndpoints]
  | obj kvs =>
    simp only [decodeEndpoints]
    cases decodeEndpointEntries kvs (cur.getD []) <;> simp
  | bool b => simp [decodeEndpoints]
  | num => simp [decodeEndpoints]
  | str s => simp [decodeEndpoints]
  | arr => simp [decodeEndpoints]

theorem FromJSONBytes_eq_none (data : List Byte) (cur : GoMap EndpointURL) :
    FromJSONBytes data cur = Except.ok none ↔ parseJSON data = some JSON.null := by
  unfold FromJSONBytes
  cases h : parseJSON data with
  | none => simp
  | some j => simp [decodeEndpoints_eq_none]

theorem readEndpoints_eq_none (text : GoString) :
    readEndpoints text = none ↔ parseJSON text = some JSON.null := by
  unfold readEndpoints
  by_cases ht : text = []
  · subst ht
    simp [parseJSON_nil]
  · simp only [ne_eq, ht, not_false_eq_true, if_true]
    rw [← FromJSONBytes_eq_none text none]
    cases h : FromJSONBytes text none with
    | error e => simp
    | ok m => simp

/-- C9 (counterexample): for a pool whose `Endpoints` map is nil, the text
`CreateEndpointPool` stores in the `endpoints` column is the empty string, not the
encoding of an empty JSON object. -/
theorem CreateEndpointPool_nil_map_stores_empty_text :
    ∃ row : PoolRow,
      CreateEndpointPool emptyDB { samplePool with Endpoints := none }
        = Except.ok { emptyDB with endpoint_pools := [row] } ∧
      row.endpoints = [] ∧ row.endpoints ≠ gs "\x7b\x7d" :=
  ⟨{ samplePoolRow with endpoints := [] }, by decide, by decide, by decide⟩

/-- C9 (amended): the text handed to the storage layer is the encoding of an empty
JSON object when the `Endpoints` map is empty and not nil, and the empty string
when it is nil; it is never `null`, and `GetEndpointPool` reads either text back as
the empty, non-nil map. The row `CreateEndpointPool` inserts carries that text. -/
theorem endpointsColumn_of_no_endpoints (db db' : DB) (pool : EndpointPool) :
    endpointsColumn { pool with Endpoints := some [] } = gs "\x7b\x7d" ∧
      endpointsColumn { pool with Endpoints := none } = [] ∧
      endpointsColumn pool ≠ gs "null" ∧
      readEndpoints (endpointsColumn { pool with Endpoints := some [] }) = some [] ∧
      readEndpoints (endpointsColumn { pool with Endpoints := none }) = some [] ∧
      (CreateEndpointPool db pool = Except.ok db' →
        ∃ row, db'.endpoint_pools = db.endpoint_pools ++ [row] ∧
          row.endpoints = endpointsColumn pool) := by
  refine ⟨rfl, rfl, ?_, rfl, rfl, ?_⟩
  · unfold endpointsColumn
    cases h : pool.Endpoints with
    | none => decide
    | some l =>
      simp only [ToJSONBytes, encodeMap, encodeObject]
      intro hEq
      have h1 : (gs "null").head? = some (0x6E : Byte) := by decide
      have h2 := congrArg List.head? hEq
      rw [h1, List.head?_cons] at h2
      exact absurd (Option.some.inj h2) (by decide)
  · intro h
    unfold CreateEndpointPool insertPoolRow at h
    split at h
    · simp at h
    · simp only [Except.ok.injEq] at h
      rw [← h]
      exact ⟨_, rfl, rfl⟩

/-- Witness for C9: creating a pool with a nil map in the empty database. -/
theorem endpointsColumn_of_no_endpoints_witness :
    ∃ row, ({ emptyDB with endpoint_pools := [{ samplePoolRow with endpoints := [] }] } :
        DB).endpoint_pools = emptyDB.endpoint_pools ++ [row] ∧
      row.endpoints = endpointsColumn { samplePool with Endpoints := none } :=
  (endpointsColumn_of_no_endpoints emptyDB
    { emptyDB with endpoint_pools := [{ samplePoolRow with endpoints := [] }] }
    { samplePool with Endpoints := none }).2.2.2.2.2 (by decide)

/-- C10 (counterexample): a stored row whose `endpoints` text is `null` is read back
with the nil map, not an empty map; and a stored row whose `description` is SQL
`NULL` makes `GetEndpointPool` fail with the error of `Scan`. -/
theorem GetEndpointPool_null_text_nil_map :
    (GetEndpointPool { emptyDB with endpoint_pools := [nullTextRow] } (gs "u1") (gs "p1")).map
        (fun pool => pool.Endpoints) = Except.ok none ∧
      GetEndpointPool { emptyDB with endpoint_pools := [nullDescriptionRow] } (gs "u1") (gs "p1")
        = Except.error DBError.scanFailed := by
  decide

/-- C10 (amended): for every stored row matching `(userID, poolID)` whose
description is not `NULL`, `GetEndpointPool` succeeds, whatever the `endpoints` text
is. The map returned is the empty, non-nil map when the text is empty or does not
decode, and the decoded map when it decodes; it is the nil map exactly when the
text is the JSON value `null`. -/
theorem GetEndpointPool_lenient_read (db : DB) (u x : GoString) (r : PoolRow) (d : GoString)
    (hkey : PoolKeysUnique db) (hr : r ∈ db.endpoint_pools) (hu : r.user_id = u) (hx : r.id = x)
    (hd : r.description = some d) :
    (∃ pool, GetEndpointPool db u x = Except.ok pool ∧
        pool.Endpoints = readEndpoints r.endpoints) ∧
      (r.endpoints = [] → readEndpoints r.endpoints = some []) ∧
      (∀ e, FromJSONBytes r.endpoints none = Except.error e →
        readEndpoints r.endpoints = some []) ∧
      (∀ m, FromJSONBytes r.endpoints none = Except.ok m → readEndpoints r.endpoints = m) ∧
      (readEndpoints r.endpoints = none ↔ parseJSON r.endpoints = some JSON.null) := by
  refine ⟨?_, ?_, ?_, ?_, readEndpoints_eq_none _⟩
  · have hf := find_of_unique db.endpoint_pools u x r hkey hr hu hx
    simp only [GetEndpointPool, hf, hd]
    exact ⟨_, rfl, rfl⟩
  · intro h
    simp [readEndpoints, h]
  · intro e h
    simp [readEndpoints, h]
  · intro m h
    have hne : r.endpoints ≠ [] := by
      intro h0
      rw [h0] at h
      revert h
      simp [FromJSONBytes, parseJSON_nil]
    simp [readEndpoints, hne, h]

/-- Witness for C10: the row with the text `null`, found under its key. -/
theorem GetEndpointPool_lenient_read_witness :
    ∃ pool, GetEndpointPool { emptyDB with endpoint_pools := [nullTextRow] } (gs "u1") (gs "p1")
        = Except.ok pool ∧ pool.Endpoints = readEndpoints nullTextRow.endpoints :=
  (GetEndpointPool_lenient_read { emptyDB with endpoint_pools := [nullTextRow] } (gs "u1")
    (gs "p1") nullTextRow (gs "at home") (by decide) (by decide) (by decide) (by decide)
    (by decide)).1

/-! ## Theorems: `unicode/utf8` -/

theorem byte_of_val (b : Byte) (n : Nat) (h : n = b.val) : byte n = b := by
  subst h
  apply Fin.ext
  show b.val % 256 = b.val
  exact Nat.mod_eq_of_lt b.isLt

theorem valid2_bounds (b0 b1 : Byte) (h : valid2 b0 b1 = true) :
    0xC2 ≤ b0.val ∧ b0.val ≤ 0xDF ∧ 0x80 ≤ b1.val ∧ b1.val ≤ 0xBF := by
  simp only [valid2, isCont, Bool.and_eq_true, decide_eq_true_eq] at h
  omega

theorem valid3_bounds (b0 b1 b2 : Byte) (h : valid3 b0 b1 b2 = true) :
    0xE0 ≤ b0.val ∧ b0.val ≤ 0xEF ∧ acceptLo b0 ≤ b1.val ∧ b1.val ≤ acceptHi b0 ∧
      0x80 ≤ b2.val ∧ b2.val ≤ 0xBF := by
  simp only [valid3, isCont, Bool.and_eq_true, decide_eq_true_eq] at h
  omega

theorem valid4_bounds (b0 b1 b2 b3 : Byte) (h : valid4 b0 b1 b2 b3 = true) :
    0xF0 ≤ b0.val ∧ b0.val ≤ 0xF4 ∧ acceptLo b0 ≤ b1.val ∧ b1.val ≤ acceptHi b0 ∧
      0x80 ≤ b2.val ∧ b2.val ≤ 0xBF ∧ 0x80 ≤ b3.val ∧ b3.val ≤ 0xBF := by
  simp only [valid4, isCont, Bool.and_eq_true, decide_eq_true_eq] at h
  omega

theorem accept_bounds (b0 : Byte) :
    (b0.val = 0xE0 → acceptLo b0 = 0xA0) ∧ (b0.val = 0xF0 → acceptLo b0 = 0x90) ∧
      0x80 ≤ acceptLo b0 ∧ acceptHi b0 ≤ 0xBF ∧
      (b0.val = 0xED → acceptHi b0 = 0x9F) ∧ (b0.val = 0xF4 → acceptHi b0 = 0x8F) := by
  unfold acceptLo acceptHi
  refine ⟨?_, ?_, ?_, ?_, ?_, ?_⟩
  · intro h; simp [h]
  · intro h; simp [h]
  · split <;> [decide; (split <;> decide)]
  · split <;> [decide; (split <;> decide)]
  · intro h; simp [h]
  · intro h; simp [h]

/-- Decoding a well-formed two-byte sequence and encoding the rune gives the bytes
back. -/
theorem encodeRune_rune2 (b0 b1 : Byte) (h : valid2 b0 b1 = true) :
    encodeRune (rune2 b0 b1) = [b0, b1] := by
  obtain ⟨h1, h2, h3, h4⟩ := valid2_bounds b0 b1 h
  unfold encodeRune rune2
  rw [if_neg (by omega), if_pos (by omega)]
  rw [byte_of_val b0 _ (by omega), byte_of_val b1 _ (by omega)]

/-- Decoding a well-formed three-byte sequence and encoding the rune gives the bytes
back. -/
theorem encodeRune_rune3 (b0 b1 b2 : Byte) (h : valid3 b0 b1 b2 = true) :
    encodeRune (rune3 b0 b1 b2) = [b0, b1, b2] := by
  obtain ⟨h1, h2, h3, h4, h5, h6⟩ := valid3_bounds b0 b1 b2 h
  obtain ⟨a1, _, a3, a4, a5, _⟩ := accept_bounds b0
  have hlo : b0.val = 0xE0 → 0xA0 ≤ b1.val := fun e => by rw [a1 e] at h3; exact h3
  have hhi : b0.val = 0xED → b1.val ≤ 0x9F := fun e => by rw [a5 e] at h4; exact h4
  have hb1 : 0x80 ≤ b1.val ∧ b1.val ≤ 0xBF := by omega
  unfold encodeRune rune3
  rw [if_neg (by omega), if_neg (by omega), if_neg (by omega), if_pos (by omega)]
  rw [byte_of_val b0 _ (by omega), byte_of_val b1 _ (by omega), byte_of_val b2 _ (by omega)]

/-- Decoding a well-formed four-byte sequence and encoding the rune gives the bytes
back. -/
theorem encodeRune_rune4 (b0 b1 b2 b3 : Byte) (h : valid4 b0 b1 b2 b3 = true) :
    encodeRune (rune4 b0 b1 b2 b3) = [b0, b1, b2, b3] := by
  obtain ⟨h1, h2, h3, h4, h5, h6, h7, h8⟩ := valid4_bounds b0 b1 b2 b3 h
  obtain ⟨_, a2, a3, a4, _, a6⟩ := accept_bounds b0
  have hlo : b0.val = 0xF0 → 0x90 ≤ b1.val := fun e => by rw [a2 e] at h3; exact h3
  have hhi : b0.val = 0xF4 → b1.val ≤ 0x8F := fun e => by rw [a6 e] at h4; exact h4
  have hb1 : 0x80 ≤ b1.val ∧ b1.val ≤ 0xBF := by omega
  unfold encodeRune rune4
  rw [if_neg (by omega), if_neg (by omega), if_neg (by omega), if_neg (by omega)]
  rw [byte_of_val b0 _ (by omega), byte_of_val b1 _ (by omega), byte_of_val b2 _ (by omega),
    byte_of_val b3 _ (by omega)]

/-- The structure of a well-formed string: it is empty, or starts with an ASCII byte
or a well-formed sequence of two, three or four bytes followed by a well-formed
string. -/
theorem ValidString_induction (P : List Byte → Prop) (hnil : P [])
    (h1 : ∀ b0 t, b0.val < 0x80 → P t → P (b0 :: t))
    (h2 : ∀ b0 b1 t, valid2 b0 b1 = true → P t → P (b0 :: b1 :: t))
    (h3 : ∀ b0 b1 b2 t, valid3 b0 b1 b2 = true → P t → P (b0 :: b1 :: b2 :: t))
    (h4 : ∀ b0 b1 b2 b3 t, valid4 b0 b1 b2 b3 = true → P t → P (b0 :: b1 :: b2 :: b3 :: t)) :
    ∀ s, ValidString s = true → P s := by
  suffices hmain : ∀ n (s : List Byte), s.length = n → ValidString s = true → P s from
    fun s => hmain _ s rfl
  intro n
  induction n using Nat.strong_induction_on with
  | _ n ih =>
    intro s hn hv
    match s, hn, hv with
    | [], _, _ => exact hnil
    | b0 :: t0, hn, hv =>
      unfold ValidString at hv
      by_cases ha : b0.val < 0x80
      · rw [if_pos ha] at hv
        exact h1 b0 t0 ha (ih t0.length (by simp at hn; omega) t0 rfl hv)
      · rw [if_neg ha] at hv
        match t0, hn, hv with
        | [], _, hv => simp at hv
        | b1 :: t1, hn, hv =>
          simp only at hv
          by_cases hv2 : valid2 b0 b1 = true
          · rw [if_pos hv2] at hv
            exact h2 b0 b1 t1 hv2 (ih t1.length (by simp at hn; omega) t1 rfl hv)
          · rw [if_neg hv2] at hv
            match t1, hn, hv with
            | [], _, hv => simp at hv
            | b2 :: t2, hn, hv =>
              simp only at hv
              by_cases hv3 : valid3 b0 b1 b2 = true
              · rw [if_pos hv3] at hv
                exact h3 b0 b1 b2 t2 hv3 (ih t2.length (by simp at hn; omega) t2 rfl hv)
              · rw [if_neg hv3] at hv
                match t2, hn, hv with
                | [], _, hv => simp at hv
                | b3 :: t3, hn, hv =>
                  simp only at hv
                  by_cases hv4 : valid4 b0 b1 b2 b3 = true
                  · rw [if_pos hv4] at hv
                    exact h4 b0 b1 b2 b3 t3 hv4
                      (ih t3.length (by simp at hn; omega) t3 rfl hv)
                  · rw [if_neg hv4] at hv
                    simp at hv

theorem not_valid2_of_valid3 (b0 b1 b2 : Byte) (h : valid3 b0 b1 b2 = true) (c : Byte) :
    valid2 b0 c = false := by
  obtain ⟨h1, _⟩ := valid3_bounds b0 b1 b2 h
  simp only [valid2, Bool.and_eq_false_iff, decide_eq_false_iff_not]
  left
  omega

theorem not_valid2_of_valid4 (b0 b1 b2 b3 : Byte) (h : valid4 b0 b1 b2 b3 = true) (c : Byte) :
    valid2 b0 c = false := by
  obtain ⟨h1, _⟩ := valid4_bounds b0 b1 b2 b3 h
  simp only [valid2, Bool.and_eq_false_iff, decide_eq_false_iff_not]
  left
  omega

theorem not_valid3_of_valid4 (b0 b1 b2 b3 : Byte) (h : valid4 b0 b1 b2 b3 = true) (c d : Byte) :
    valid3 b0 c d = false := by
  obtain ⟨h1, _⟩ := valid4_bounds b0 b1 b2 b3 h
  simp only [valid3, Bool.and_eq_false_iff, decide_eq_false_iff_not]
  left
  left
  omega


set_option maxRecDepth 100000 in
theorem appendStringBody_ascii (b0 : Byte) (t : List Byte) (h : b0.val < 0x80) :
    appendStringBody (b0 :: t) = escapeASCII b0 ++ appendStringBody t := by
  rw [appendStringBody.eq_def]
  simp only [h, if_true]

set_option maxRecDepth 100000 in
theorem appendStringBody_two (b0 b1 : Byte) (t : List Byte) (h : valid2 b0 b1 = true) :
    appendStringBody (b0 :: b1 :: t) = b0 :: b1 :: appendStringBody t := by
  have hb := valid2_bounds b0 b1 h
  have hna : ¬ b0.val < 0x80 := by omega
  rw [appendStringBody.eq_def]
  simp only [h, hna, if_true, if_false]

set_option maxRecDepth 100000 in
theorem appendStringBody_three (b0 b1 b2 : Byte) (t : List Byte) (h : valid3 b0 b1 b2 = true) :
    appendStringBody (b0 :: b1 :: b2 :: t) = escape3 b0 b1 b2 ++ appendStringBody t := by
  have hb := valid3_bounds b0 b1 b2 h
  have hna : ¬ b0.val < 0x80 := by omega
  rw [appendStringBody.eq_def]
  simp only [h, not_valid2_of_valid3 b0 b1 b2 h, hna, if_true, if_false, Bool.false_eq_true]

set_option maxRecDepth 100000 in
theorem appendStringBody_four (b0 b1 b2 b3 : Byte) (t : List Byte)
    (h : valid4 b0 b1 b2 b3 = true) :
    appendStringBody (b0 :: b1 :: b2 :: b3 :: t) = b0 :: b1 :: b2 :: b3 :: appendStringBody t := by
  have hb := valid4_bounds b0 b1 b2 b3 h
  have hna : ¬ b0.val < 0x80 := by omega
  rw [appendStringBody.eq_def]
  simp only [h, not_valid2_of_valid4 b0 b1 b2 b3 h, not_valid3_of_valid4 b0 b1 b2 b3 h, hna,
    if_true, if_false, Bool.false_eq_true]

/-! ## Theorems: string literals -/

theorem stringStep_quote (t : List Byte) :
    stringStep ((0x22 : Byte) :: t) = StringStep.close t := rfl

theorem stringStep_plain (b0 : Byte) (t : List Byte) (h1 : 0x20 ≤ b0.val) (h2 : b0.val < 0x80)
    (h3 : b0.val ≠ 0x22) (h4 : b0.val ≠ 0x5C) :
    stringStep (b0 :: t) = StringStep.bytes [b0] t := by
  have h5 : ¬ b0.val < 0x20 := by omega
  simp only [stringStep, h2, h3, h4, h5, if_true, if_false]

theorem stringStep_two (b0 b1 : Byte) (t : List Byte) (h : valid2 b0 b1 = true) :
    stringStep (b0 :: b1 :: t) = StringStep.bytes [b0, b1] t := by
  have hb := valid2_bounds b0 b1 h
  have hna : ¬ b0.val < 0x80 := by omega
  have h1 : ¬ b0.val < 0x20 := by omega
  have h3 : b0.val ≠ 0x22 := by omega
  have h4 : b0.val ≠ 0x5C := by omega
  simp only [stringStep, h, hna, h1, h3, h4, if_true, if_false, encodeRune_rune2 b0 b1 h]

theorem stringStep_three (b0 b1 b2 : Byte) (t : List Byte) (h : valid3 b0 b1 b2 = true) :
    stringStep (b0 :: b1 :: b2 :: t) = StringStep.bytes [b0, b1, b2] t := by
  have hb := valid3_bounds b0 b1 b2 h
  have hna : ¬ b0.val < 0x80 := by omega
  have h1 : ¬ b0.val < 0x20 := by omega
  have h3 : b0.val ≠ 0x22 := by omega
  have h4 : b0.val ≠ 0x5C := by omega
  simp only [stringStep, h, not_valid2_of_valid3 b0 b1 b2 h, hna, h1, h3, h4, if_true, if_false,
    Bool.false_eq_true, encodeRune_rune3 b0 b1 b2 h]

theorem stringStep_four (b0 b1 b2 b3 : Byte) (t : List Byte) (h : valid4 b0 b1 b2 b3 = true) :
    stringStep (b0 :: b1 :: b2 :: b3 :: t) = StringStep.bytes [b0, b1, b2, b3] t := by
  have hb := valid4_bounds b0 b1 b2 b3 h
  have hna : ¬ b0.val < 0x80 := by omega
  have h1 : ¬ b0.val < 0x20 := by omega
  have h3 : b0.val ≠ 0x22 := by omega
  have h4 : b0.val ≠ 0x5C := by omega
  simp only [stringStep, h, not_valid2_of_valid4 b0 b1 b2 b3 h,
    not_valid3_of_valid4 b0 b1 b2 b3 h, hna, h1, h3, h4, if_true, if_false, Bool.false_eq_true,
    encodeRune_rune4 b0 b1 b2 b3 h]

theorem escapeASCII_length_pos (b : Byte) : 1 ≤ (escapeASCII b).length := by
  unfold escapeASCII
  repeat' split
  all_goals simp

theorem escape3_length_pos (b0 b1 b2 : Byte) : 1 ≤ (escape3 b0 b1 b2).length := by
  unfold escape3
  split <;> simp

theorem stringStep_escapeASCII_low (n : Nat) (hn : n < 0x20) (t : List Byte) :
    stringStep (escapeASCII (byte n) ++ t) = StringStep.bytes [byte n] t := by
  interval_cases n <;> rfl

/-- The decoder reads back what the encoder writes for one ASCII byte. -/
theorem stringStep_escapeASCII (b : Byte) (t : List Byte) (h : b.val < 0x80) :
    stringStep (escapeASCII b ++ t) = StringStep.bytes [b] t := by
  by_cases hs : htmlSafe b = true
  · have hs' := hs
    simp only [htmlSafe, decide_eq_true_eq] at hs'
    simp only [escapeASCII, hs, if_true, List.singleton_append]
    exact stringStep_plain b t hs'.1 hs'.2.1 hs'.2.2.1 hs'.2.2.2.2.2.2
  · simp only [htmlSafe, decide_eq_true_eq] at hs
    by_cases hlow : b.val < 0x20
    · have hb := stringStep_escapeASCII_low b.val hlow t
      rwa [byte_of_val b b.val rfl] at hb
    · have hcases : b.val = 0x22 ∨ b.val = 0x26 ∨ b.val = 0x3C ∨ b.val = 0x3E ∨ b.val = 0x5C := by
        omega
      rcases hcases with h | h | h | h | h
      · rw [← byte_of_val b 0x22 h.symm]; rfl
      · rw [← byte_of_val b 0x26 h.symm]; rfl
      · rw [← byte_of_val b 0x3C h.symm]; rfl
      · rw [← byte_of_val b 0x3E h.symm]; rfl
      · rw [← byte_of_val b 0x5C h.symm]; rfl

theorem rune3_separator (b0 b1 b2 : Byte) (h : valid3 b0 b1 b2 = true)
    (hr : rune3 b0 b1 b2 = 0x2028 ∨ rune3 b0 b1 b2 = 0x2029) :
    b0 = byte 0xE2 ∧ b1 = byte 0x80 ∧ (b2 = byte 0xA8 ∨ b2 = byte 0xA9) := by
  obtain ⟨h1, h2, h3, h4, h5, h6⟩ := valid3_bounds b0 b1 b2 h
  obtain ⟨_, _, a3, a4, _, _⟩ := accept_bounds b0
  unfold rune3 at hr
  have e0 : b0.val = 0xE2 := by omega
  have e1 : b1.val = 0x80 := by omega
  have e2 : b2.val = 0xA8 ∨ b2.val = 0xA9 := by omega
  refine ⟨(byte_of_val b0 _ e0.symm).symm, (byte_of_val b1 _ e1.symm).symm, ?_⟩
  rcases e2 with e | e
  · exact Or.inl (byte_of_val b2 _ e.symm).symm
  · exact Or.inr (byte_of_val b2 _ e.symm).symm

/-- The decoder reads back what the encoder writes for a three-byte sequence. -/
theorem stringStep_escape3 (b0 b1 b2 : Byte) (t : List Byte) (h : valid3 b0 b1 b2 = true) :
    stringStep (escape3 b0 b1 b2 ++ t) = StringStep.bytes [b0, b1, b2] t := by
  by_cases hr : rune3 b0 b1 b2 = 0x2028 ∨ rune3 b0 b1 b2 = 0x2029
  · obtain ⟨e0, e1, e2⟩ := rune3_separator b0 b1 b2 h hr
    rcases e2 with e2 | e2
    · subst e0 e1 e2; rfl
    · subst e0 e1 e2; rfl
  · simp only [escape3, hr, if_false, List.cons_append, List.nil_append]
    exact stringStep_three b0 b1 b2 t h

theorem consBytes_some (pre s rest : List Byte) :
    consBytes pre (some (s, rest)) = some (pre ++ s, rest) := rfl

/-- The string decoder reads back the body the encoder writes for a well-formed
string, up to the closing quote, when given at least as many rounds as the body has
bytes and one more. -/
theorem parseStringLoop_appendStringBody (s : List Byte) (hs : ValidString s = true) :
    ∀ (fuel : Nat) (rest : List Byte), (appendStringBody s).length + 1 ≤ fuel →
      parseStringLoop fuel (appendStringBody s ++ (0x22 : Byte) :: rest) = some (s, rest) := by
  refine ValidString_induction
    (fun s => ∀ (fuel : Nat) (rest : List Byte), (appendStringBody s).length + 1 ≤ fuel →
      parseStringLoop fuel (appendStringBody s ++ (0x22 : Byte) :: rest) = some (s, rest))
    ?_ ?_ ?_ ?_ ?_ s hs
  · intro fuel rest hf
    obtain ⟨f, rfl⟩ : ∃ f, fuel = f + 1 := ⟨fuel - 1, by omega⟩
    simp only [appendStringBody, List.nil_append, parseStringLoop, stringStep_quote]
  · intro b0 t hb ih fuel rest hf
    rw [appendStringBody_ascii b0 t hb] at hf ⊢
    have hl := escapeASCII_length_pos b0
    rw [List.length_append] at hf
    obtain ⟨f, rfl⟩ : ∃ f, fuel = f + 1 := ⟨fuel - 1, by omega⟩
    rw [List.append_assoc, parseStringLoop, stringStep_escapeASCII b0 _ hb]
    simp only
    rw [ih f rest (by omega), consBytes_some]
    rfl
  · intro b0 b1 t hv ih fuel rest hf
    rw [appendStringBody_two b0 b1 t hv] at hf ⊢
    simp only [List.length_cons] at hf
    obtain ⟨f, rfl⟩ : ∃ f, fuel = f + 1 := ⟨fuel - 1, by omega⟩
    rw [List.cons_append, List.cons_append, parseStringLoop, stringStep_two b0 b1 _ hv]
    simp only
    rw [ih f rest (by omega), consBytes_some]
    rfl
  · intro b0 b1 b2 t hv ih fuel rest hf
    rw [appendStringBody_three b0 b1 b2 t hv] at hf ⊢
    have hl := escape3_length_pos b0 b1 b2
    rw [List.length_append] at hf
    obtain ⟨f, rfl⟩ : ∃ f, fuel = f + 1 := ⟨fuel - 1, by omega⟩
    rw [List.append_assoc, parseStringLoop, stringStep_escape3 b0 b1 b2 _ hv]
    simp only
    rw [ih f rest (by omega), consBytes_some]
    rfl
  · intro b0 b1 b2 b3 t hv ih fuel rest hf
    rw [appendStringBody_four b0 b1 b2 b3 t hv] at hf ⊢
    simp only [List.length_cons] at hf
    obtain ⟨f, rfl⟩ : ∃ f, fuel = f + 1 := ⟨fuel - 1, by omega⟩
    rw [List.cons_append, List.cons_append, List.cons_append, List.cons_append, parseStringLoop,
      stringStep_four b0 b1 b2 b3 _ hv]
    simp only
    rw [ih f rest (by omega), consBytes_some]
    rfl

/-- A string literal written by `appendString`, without its opening quote, is read
back by `parseStringBody`. -/
theorem parseStringBody_appendString (s rest : List Byte) (hs : ValidString s = true) :
    parseStringBody (appendStringBody s ++ (0x22 : Byte) :: rest) = some (s, rest) := by
  unfold parseStringBody
  apply parseStringLoop_appendStringBody s hs
  simp

/-! ## Theorems: the parser on encoded values -/

theorem skipSpace_cons (b : Byte) (t : List Byte) (h : isSpace b = false) :
    skipSpace (b :: t) = b :: t := by
  simp [skipSpace, h]

/-- An encoded string is read back as that string. -/
theorem parseValue_string (d : Nat) (s : GoString) (hs : ValidString s = true) :
    ParsesTo d (appendString s) (JSON.str s) := by
  intro fuel rest hf
  have hlen : 2 ≤ (appendString s).length := by simp [appendString]
  obtain ⟨f, rfl⟩ : ∃ f, fuel = f + 1 := ⟨fuel - 1, by omega⟩
  simp only [appendString, List.cons_append, List.append_assoc, List.singleton_append,
        List.nil_append]
  rw [parseValue, skipSpace_cons _ _ (by decide)]
  simp +decide only [if_false, if_true, parseStringBody_appendString s rest hs]

theorem encodeMembers_cons_cons (k : GoString) (v : List Byte) (m : GoString × List Byte)
    (rest : List (GoString × List Byte)) :
    encodeMembers ((k, v) :: m :: rest)
      = appendString k ++ (0x3A : Byte) :: (v ++ (0x2C : Byte) :: encodeMembers (m :: rest)) := by
  rw [encodeMembers]

theorem encodeMembers_single (k : GoString) (v : List Byte) :
    encodeMembers [(k, v)] = appendString k ++ (0x3A : Byte) :: v := by
  rw [encodeMembers]

theorem appendString_length (s : GoString) : 2 ≤ (appendString s).length := by
  simp [appendString]

/-- The members the encoder writes are read back in order, each with its key and
the tree of its value, up to the closing brace. -/
theorem parseMembers_encodeMembers (d : Nat) :
    ∀ (items : List (GoString × List Byte × JSON)), items ≠ [] →
      (∀ it ∈ items, ValidString it.1 = true ∧ ParsesTo d it.2.1 it.2.2) →
      ∀ (fuel : Nat) (rest : List Byte),
        (encodeMembers (items.map (fun it => (it.1, it.2.1)))).length ≤ fuel →
        parseMembers fuel d
            (encodeMembers (items.map (fun it => (it.1, it.2.1))) ++ (0x7D : Byte) :: rest)
          = some (items.map (fun it => (it.1, it.2.2)), rest) := by
  intro items
  induction items with
  | nil => intro h; exact absurd rfl h
  | cons it more ih =>
    intro _ hall fuel rest hf
    obtain ⟨k, v, j⟩ := it
    have hk : ValidString k = true := (hall (k, v, j) (List.mem_cons_self _ _)).1
    have hv : ParsesTo d v j := (hall (k, v, j) (List.mem_cons_self _ _)).2
    have hklen := appendString_length k
    cases more with
    | nil =>
      simp only [List.map_cons, List.map_nil, encodeMembers_single, List.length_append,
        List.length_cons] at hf ⊢
      obtain ⟨f, rfl⟩ : ∃ f, fuel = f + 1 := ⟨fuel - 1, by omega⟩
      simp only [appendString, List.cons_append, List.append_assoc, List.singleton_append,
        List.nil_append]
      rw [parseMembers, skipSpace_cons _ _ (by decide)]
      simp +decide only [if_true, parseStringBody_appendString k _ hk]
      rw [skipSpace_cons _ _ (by decide)]
      simp +decide only [if_true, hv f ((0x7D : Byte) :: rest) (by omega)]
      rw [skipSpace_cons _ _ (by decide)]
      simp +decide only [if_true, if_false]
    | cons it2 more2 =>
      have ih' := ih (by simp) (fun x hx => hall x (List.mem_cons_of_mem _ hx))
      simp only [List.map_cons, encodeMembers_cons_cons, List.length_append,
        List.length_cons] at hf ⊢
      simp only [List.map_cons] at ih'
      obtain ⟨f, rfl⟩ : ∃ f, fuel = f + 1 := ⟨fuel - 1, by omega⟩
      simp only [appendString, List.cons_append, List.append_assoc, List.singleton_append,
        List.nil_append]
      rw [parseMembers, skipSpace_cons _ _ (by decide)]
      simp +decide only [if_true, parseStringBody_appendString k _ hk]
      rw [skipSpace_cons _ _ (by decide)]
      simp +decide only [if_true, hv f _ (by omega)]
      rw [skipSpace_cons _ _ (by decide)]
      simp +decide only [if_true, if_false]
      rw [ih' f rest (by omega)]

theorem encodeMembers_cons_head (k : GoString) (v : List Byte) (xs : List (GoString × List Byte)) :
    ∃ tl, encodeMembers ((k, v) :: xs) = (0x22 : Byte) :: tl := by
  cases xs with
  | nil => exact ⟨_, by rw [encodeMembers_single, appendString, List.cons_append]⟩
  | cons m rest => exact ⟨_, by rw [encodeMembers_cons_cons, appendString, List.cons_append]⟩

/-- An encoded object is read back as the object of its members' trees. -/
theorem parseValue_object (d : Nat) (hd : d < maxNestingDepth)
    (items : List (GoString × List Byte × JSON))
    (hall : ∀ it ∈ items, ValidString it.1 = true ∧ ParsesTo (d + 1) it.2.1 it.2.2) :
    ParsesTo d (encodeObject (items.map (fun it => (it.1, it.2.1))))
      (JSON.obj (items.map (fun it => (it.1, it.2.2)))) := by
  intro fuel rest hf
  simp only [encodeObject, List.length_cons, List.length_append, List.length_nil] at hf
  obtain ⟨f, rfl⟩ : ∃ f, fuel = f + 1 := ⟨fuel - 1, by omega⟩
  simp only [encodeObject, List.cons_append, List.append_assoc, List.singleton_append,
    List.nil_append]
  rw [parseValue, skipSpace_cons _ _ (by decide)]
  simp +decide only [if_true, hd]
  cases items with
  | nil =>
    simp only [List.map_nil, encodeMembers, List.nil_append]
    rw [skipSpace_cons _ _ (by decide)]
    simp +decide only [if_true]
  | cons it more =>
    have hp := parseMembers_encodeMembers (d + 1) (it :: more) (by simp) hall f rest (by omega)
    obtain ⟨tl, htl⟩ := encodeMembers_cons_head it.1 it.2.1 (more.map (fun it => (it.1, it.2.1)))
    simp only [List.map_cons] at hp ⊢
    rw [htl] at hp ⊢
    rw [List.cons_append, skipSpace_cons _ _ (by decide)]
    simp +decide only [if_false]
    rw [List.cons_append] at hp
    rw [hp]

theorem validHeaders_some (l : List (GoString × GoString)) (h : validHeaders (some l) = true) :
    SortedKeys l ∧ ∀ kv ∈ l, ValidString kv.1 = true ∧ ValidString kv.2 = true := by
  simp only [validHeaders, Bool.and_eq_true, decide_eq_true_eq, List.all_eq_true] at h
  exact h

theorem validEndpoint_parts (e : EndpointURL) (h : validEndpoint e = true) :
    ValidString e.URL = true ∧ ValidString e.Method = true ∧ ValidString e.Description = true ∧
      validHeaders e.Headers = true := by
  simp only [validEndpoint, Bool.and_eq_true] at h
  exact ⟨h.1.1.1, h.1.1.2, h.1.2, h.2⟩

/-- An encoded `map[string]string` that is not nil is read back as its tree. -/
theorem parseValue_headers (d : Nat) (hd : d < maxNestingDepth) (l : List (GoString × GoString))
    (h : validHeaders (some l) = true) :
    ParsesTo d (encodeMap appendString (some l)) (headersTree l) := by
  have hv := (validHeaders_some l h).2
  have hp := parseValue_object d hd (headerItems l) (by
    intro it hit
    simp only [headerItems, List.mem_map] at hit
    obtain ⟨kv, hkv, rfl⟩ := hit
    exact ⟨(hv kv hkv).1, parseValue_string (d + 1) kv.2 (hv kv hkv).2⟩)
  simpa only [headerItems, List.map_map, Function.comp_def, encodeMap, headersTree] using hp

theorem endpointFields_eq (e : EndpointURL) :
    endpointFields e = (endpointItems e).map (fun it => (it.1, it.2.1)) := by
  unfold endpointFields endpointItems
  split <;> split <;> simp

/-- An encoded `models.EndpointURL` is read back as its tree. -/
theorem parseValue_endpoint (d : Nat) (hd : d + 1 < maxNestingDepth) (e : EndpointURL)
    (h : validEndpoint e = true) :
    ParsesTo d (encodeEndpointURL e) (endpointTree e) := by
  obtain ⟨h1, h2, h3, h4⟩ := validEndpoint_parts e h
  have hp := parseValue_object d (by omega) (endpointItems e) (by
    intro it hit
    simp only [endpointItems, List.mem_append, List.mem_cons, List.mem_singleton,
      List.not_mem_nil, or_false] at hit
    rcases hit with ((rfl | rfl) | hit) | hit
    · exact ⟨(show ValidString (gs "url") = true from by decide), parseValue_string _ _ h1⟩
    · exact ⟨(show ValidString (gs "method") = true from by decide), parseValue_string _ _ h2⟩
    · split at hit
      · simp at hit
      · rename_i hne
        simp only [List.mem_singleton] at hit
        subst hit
        refine ⟨(show ValidString (gs "headers") = true from by decide), ?_⟩
        cases hH : e.Headers with
        | none => simp [hH, mapLen] at hne
        | some l =>
          rw [hH] at h4
          simpa using parseValue_headers (d + 1) hd l h4
    · split at hit
      · simp at hit
      · simp only [List.mem_singleton] at hit
        subst hit
        exact ⟨(show ValidString (gs "description") = true from by decide), parseValue_string _ _ h3⟩)
  rw [← endpointFields_eq] at hp
  exact hp

theorem validEndpoints_some (l : List (GoString × EndpointURL))
    (h : validEndpoints (some l) = true) :
    SortedKeys l ∧ ∀ kv ∈ l, ValidString kv.1 = true ∧ validEndpoint kv.2 = true := by
  simp only [validEndpoints, Bool.and_eq_true, decide_eq_true_eq, List.all_eq_true] at h
  exact h

/-- An encoded endpoint map that is not nil is read back as its tree. -/
theorem parseValue_endpoints (l : List (GoString × EndpointURL))
    (h : validEndpoints (some l) = true) :
    ParsesTo 0 (ToJSONBytes (some l)) (endpointsTree l) := by
  have hv := (validEndpoints_some l h).2
  have hp := parseValue_object 0 (by decide)
    (l.map (fun kv => (kv.1, encodeEndpointURL kv.2, endpointTree kv.2))) (by
    intro it hit
    simp only [List.mem_map] at hit
    obtain ⟨kv, hkv, rfl⟩ := hit
    exact ⟨(hv kv hkv).1, parseValue_endpoint 1 (by decide) kv.2 (hv kv hkv).2⟩)
  simpa only [List.map_map, Function.comp_def, ToJSONBytes, encodeMap, endpointsTree] using hp

/-- The text `ToJSONBytes` writes for a valid endpoint map parses to its tree. -/
theorem parseJSON_ToJSONBytes (l : List (GoString × EndpointURL))
    (h : validEndpoints (some l) = true) :
    parseJSON (ToJSONBytes (some l)) = some (endpointsTree l) := by
  have hp := parseValue_endpoints l h (2 * (ToJSONBytes (some l)).length + 2) [] (by omega)
  rw [List.append_nil] at hp
  simp only [parseJSON, hp, skipSpace, if_true]

/-! ## Theorems: decoding the tree of an encoded endpoint map -/

theorem ltBytes_irrefl (a : List Byte) : ltBytes a a = false := by
  induction a with
  | nil => rfl
  | cons x xs ih => simp [ltBytes, ih]

theorem ltBytes_asymm (a : List Byte) : ∀ b, ltBytes a b = true → ltBytes b a = false := by
  induction a with
  | nil =>
    intro b _
    cases b <;> rfl
  | cons x xs ih =>
    intro b h
    cases b with
    | nil => simp [ltBytes] at h
    | cons y ys =>
      simp only [ltBytes] at h ⊢
      by_cases hxy : x.val < y.val
      · have hyx : ¬ y.val < x.val := by omega
        simp [hxy, hyx]
      · by_cases hyx : y.val < x.val
        · simp [hxy, hyx] at h
        · simp only [hxy, hyx, if_false] at h ⊢
          exact ih ys h

/-- Assigning a key above every key of the map puts the entry last. -/
theorem mapInsert_append {V : Type} (k : GoString) (v : V) (acc : List (GoString × V))
    (h : ∀ a ∈ acc, ltBytes a.1 k = true) : mapInsert k v acc = acc ++ [(k, v)] := by
  induction acc with
  | nil => rfl
  | cons a rest ih =>
    obtain ⟨k', v'⟩ := a
    have hlt : ltBytes k' k = true := h (k', v') (List.mem_cons_self _ _)
    have hn : ltBytes k k' = false := ltBytes_asymm k' k hlt
    have hne : k ≠ k' := by
      intro e
      rw [e, ltBytes_irrefl] at hlt
      exact Bool.noConfusion hlt
    simp only [mapInsert, hn, hne, if_false, Bool.false_eq_true, List.cons_append]
    rw [ih (fun a ha => h a (List.mem_cons_of_mem _ ha))]

theorem KeysAscend_head {V W : Type} (acc : List (GoString × V)) (kv : GoString × W)
    (rest : List (GoString × W)) (h : KeysAscend acc (kv :: rest)) :
    ∀ a ∈ acc, ltBytes a.1 kv.1 = true := by
  intro a ha
  unfold KeysAscend at h
  rw [List.pairwise_append] at h
  exact h.2.2 a.1 (List.mem_map_of_mem _ ha) kv.1 (by simp)

theorem KeysAscend_tail {V W : Type} (acc : List (GoString × V)) (kv : GoString × W) (v : V)
    (rest : List (GoString × W)) (h : KeysAscend acc (kv :: rest)) :
    KeysAscend (acc ++ [(kv.1, v)]) rest := by
  unfold KeysAscend at h ⊢
  simpa using h

theorem KeysAscend_of_sorted {W : Type} (l : List (GoString × W)) (h : SortedKeys l) :
    KeysAscend ([] : List (GoString × W)) l := by
  unfold KeysAscend
  unfold SortedKeys at h
  simpa [List.pairwise_map] using h

theorem decodeStringEntries_tree (l : List (GoString × GoString)) :
    ∀ acc : List (GoString × GoString), KeysAscend acc l →
      decodeStringEntries (l.map (fun kv => (kv.1, JSON.str kv.2))) acc = Except.ok (acc ++ l) := by
  induction l with
  | nil =>
    intro acc _
    simp [decodeStringEntries]
  | cons kv rest ih =>
    intro acc h
    simp only [List.map_cons, decodeStringEntries, decodeString]
    rw [mapInsert_append kv.1 kv.2 acc (KeysAscend_head acc kv rest h),
      ih _ (KeysAscend_tail acc kv kv.2 rest h)]
    simp

/-- The tree of an encoded `map[string]string` decodes to the map. -/
theorem decodeStringMap_headersTree (l : List (GoString × GoString)) (h : SortedKeys l) :
    decodeStringMap none (headersTree l) = Except.ok (some l) := by
  simp only [decodeStringMap, headersTree, Option.getD_none,
    decodeStringEntries_tree l [] (KeysAscend_of_sorted l h), List.nil_append]

theorem decodeField_url (e : EndpointURL) (s : GoString) :
    decodeField e (gs "url") (JSON.str s) = Except.ok { e with URL := s } := rfl

theorem decodeField_method (e : EndpointURL) (s : GoString) :
    decodeField e (gs "method") (JSON.str s) = Except.ok { e with Method := s } := rfl

theorem decodeField_description (e : EndpointURL) (s : GoString) :
    decodeField e (gs "description") (JSON.str s) = Except.ok { e with Description := s } := rfl

theorem decodeField_headers (e : EndpointURL) (l : List (GoString × GoString))
    (hn : e.Headers = none) (h : SortedKeys l) :
    decodeField e (gs "headers") (headersTree l) = Except.ok { e with Headers := some l } := by
  have h1 : foldKey (gs "headers") ≠ gs "url" := by decide
  have h2 : foldKey (gs "headers") ≠ gs "method" := by decide
  have h3 : foldKey (gs "headers") = gs "headers" := by decide
  unfold decodeField
  rw [if_neg h1, if_neg h2, if_pos h3, hn, decodeStringMap_headersTree l h]

/-- The tree of an encoded `models.EndpointURL` decodes, from the zero value, to the
endpoint with an empty `Headers` map made nil. -/
theorem decodeEndpointURL_endpointTree (e : EndpointURL) (h : validHeaders e.Headers = true) :
    decodeEndpointURL zeroEndpointURL (endpointTree e) = Except.ok (normalizeEndpoint e) := by
  obtain ⟨u, m, hd, ds⟩ := e
  cases hd with
  | none =>
    by_cases hds : ds = []
    · subst hds
      simp [decodeEndpointURL, endpointTree, endpointItems, mapLen, decodeFields, decodeField_url,
        decodeField_method, normalizeEndpoint, zeroEndpointURL]
    · simp [decodeEndpointURL, endpointTree, endpointItems, mapLen, decodeFields, decodeField_url,
        decodeField_method, decodeField_description, normalizeEndpoint, zeroEndpointURL, hds]
  | some l =>
    have hs : SortedKeys l := (validHeaders_some l h).1
    cases l with
    | nil =>
      by_cases hds : ds = []
      · subst hds
        simp [decodeEndpointURL, endpointTree, endpointItems, mapLen, decodeFields,
          decodeField_url, decodeField_method, normalizeEndpoint, zeroEndpointURL]
      · simp [decodeEndpointURL, endpointTree, endpointItems, mapLen, decodeFields,
          decodeField_url, decodeField_method, decodeField_description, normalizeEndpoint,
          zeroEndpointURL, hds]
    | cons kv rest =>
      by_cases hds : ds = []
      · subst hds
        simp [decodeEndpointURL, endpointTree, endpointItems, mapLen, decodeFields,
          decodeField_url, decodeField_method, normalizeEndpoint, zeroEndpointURL,
          decodeField_headers ⟨u, m, none, []⟩ (kv :: rest) rfl hs]
      · simp [decodeEndpointURL, endpointTree, endpointItems, mapLen, decodeFields,
          decodeField_url, decodeField_method, decodeField_description, normalizeEndpoint,
          zeroEndpointURL, hds, decodeField_headers ⟨u, m, none, []⟩ (kv :: rest) rfl hs]

theorem decodeEndpointEntries_tree (l : List (GoString × EndpointURL)) :
    ∀ acc : List (GoString × EndpointURL), KeysAscend acc l →
      (∀ kv ∈ l, validEndpoint kv.2 = true) →
      decodeEndpointEntries (l.map (fun kv => (kv.1, endpointTree kv.2))) acc =
        Except.ok (acc ++ l.map (fun kv => (kv.1, normalizeEndpoint kv.2))) := by
  induction l with
  | nil =>
    intro acc _ _
    simp [decodeEndpointEntries]
  | cons kv rest ih =>
    intro acc h hv
    have hkv := (validEndpoint_parts kv.2 (hv kv (List.mem_cons_self _ _))).2.2.2
    simp only [List.map_cons, decodeEndpointEntries, decodeEndpointURL_endpointTree kv.2 hkv]
    rw [mapInsert_append kv.1 _ acc (KeysAscend_head acc kv rest h),
      ih _ (KeysAscend_tail acc kv _ rest h) (fun a ha => hv a (List.mem_cons_of_mem _ ha))]
    simp

/-- The tree of an encoded endpoint map decodes to the map with every empty `Headers`
map made nil. -/
theorem decodeEndpoints_endpointsTree (l : List (GoString × EndpointURL))
    (h : validEndpoints (some l) = true) :
    decodeEndpoints none (endpointsTree l) = Except.ok (normalizeEndpoints (some l)) := by
  obtain ⟨hs, hv⟩ := validEndpoints_some l h
  simp only [decodeEndpoints, endpointsTree, Option.getD_none, normalizeEndpoints,
    decodeEndpointEntries_tree l [] (KeysAscend_of_sorted l hs) (fun kv hkv => (hv kv hkv).2),
    List.nil_append]

theorem normalizeEndpoint_eq (e : EndpointURL) (h : e.Headers ≠ some []) :
    normalizeEndpoint e = e := by
  obtain ⟨u, m, hd, ds⟩ := e
  cases hd with
  | none => simp [normalizeEndpoint, mapLen]
  | some l =>
    cases l with
    | nil => exact absurd rfl h
    | cons kv rest => simp [normalizeEndpoint, mapLen]

theorem normalizeEndpoints_eq (m : GoMap EndpointURL) (h : noEmptyHeaders m = true) :
    normalizeEndpoints m = m := by
  cases m with
  | none => rfl
  | some l =>
    simp only [noEmptyHeaders, List.all_eq_true, decide_eq_true_eq] at h
    simp only [normalizeEndpoints, Option.some.injEq]
    induction l with
    | nil => rfl
    | cons kv rest ih =>
      rw [List.map_cons, normalizeEndpoint_eq kv.2 (h kv (List.mem_cons_self _ _)),
        ih (fun a ha => h a (List.mem_cons_of_mem _ ha))]

/-- Encoding an endpoint map and decoding the text into a nil target succeeds and
gives the map with every empty `Headers` map made nil. -/
theorem FromJSONBytes_ToJSONBytes_normalize (m : GoMap EndpointURL)
    (h : validEndpoints m = true) :
    FromJSONBytes (ToJSONBytes m) none = Except.ok (normalizeEndpoints m) := by
  cases m with
  | none => rfl
  | some l =>
    simp only [FromJSONBytes, parseJSON_ToJSONBytes l h, decodeEndpoints_endpointsTree l h]

/-! ## Theorems: the JSON round trip of the endpoint map -/

/-- C4 (counterexample): the endpoint map whose only key is the byte `0xFF` is
encoded and decoded without error, but the map that comes back has the key U+FFFD
(bytes `EF BF BD`) instead, so it is not the map that went in; and the map whose
entry has a non-nil `Headers` map without entries comes back with `Headers` nil. -/
theorem FromJSONBytes_ToJSONBytes_changes_map :
    FromJSONBytes (ToJSONBytes invalidKeyMap) none
        = Except.ok (some [([0xEF, 0xBF, 0xBD], zeroEndpointURL)]) ∧
      FromJSONBytes (ToJSONBytes invalidKeyMap) none ≠ Except.ok invalidKeyMap ∧
      FromJSONBytes (ToJSONBytes emptyHeadersMap) none
        = Except.ok (some [(gs "a", ⟨gs "http://x", gs "GET", none, []⟩)]) ∧
      FromJSONBytes (ToJSONBytes emptyHeadersMap) none ≠ Except.ok emptyHeadersMap :=
  ⟨by decide, by decide, by decide, by decide⟩

/-- C4 (amended): for every endpoint map whose keys and strings are valid UTF-8 and
in which no `Headers` map is non-nil and empty, including the nil and the empty map,
decoding with `FromJSONBytes` the text produced by `ToJSONBytes` succeeds and yields
the same map. -/
theorem FromJSONBytes_ToJSONBytes (m : GoMap EndpointURL) (h : validEndpoints m = true)
    (hne : noEmptyHeaders m = true) :
    FromJSONBytes (ToJSONBytes m) none = Except.ok m := by
  rw [FromJSONBytes_ToJSONBytes_normalize m h, normalizeEndpoints_eq m hne]

set_option maxRecDepth 100000 in
/-- C4 (witness): the round trip of a map with escapes, non-ASCII text, headers and
a description. -/
theorem FromJSONBytes_ToJSONBytes_witness :
    validEndpoints sampleEndpoints = true ∧ noEmptyHeaders sampleEndpoints = true ∧
      FromJSONBytes (ToJSONBytes sampleEndpoints) none = Except.ok sampleEndpoints :=
  ⟨by decide, by decide, FromJSONBytes_ToJSONBytes sampleEndpoints (by decide) (by decide)⟩

/-! ## Theorems: the pool type registry -/

/-- C11: with the registry unset, `ValidatePoolType t` is true exactly when `t` is
`"AllyHub Desktop App"`, `GetDefaultPoolType` returns that name, `GetPoolTypes`
lists only that name, and `GetEndpointsForPoolType t` is empty. -/
theorem registry_unset_fallback (t : GoString) :
    (ValidatePoolType none t = true ↔ t = gs "AllyHub Desktop App") ∧
      GetDefaultPoolType none = gs "AllyHub Desktop App" ∧
      GetPoolTypes none = [gs "AllyHub Desktop App"] ∧
      GetEndpointsForPoolType none t = [] := by
  refine ⟨?_, rfl, rfl, rfl⟩
  simp [ValidatePoolType, fallbackPoolType]

/-- C12: `GetDefaultPoolType` returns the name of the first configured type when
the registry is loaded with at least one type, and `"AllyHub Desktop App"` when the
registry is unset or loaded with an empty type list. -/
theorem GetDefaultPoolType_spec (first : PoolTypeConfig) (rest : List PoolTypeConfig) :
    GetDefaultPoolType (some { PoolTypes := first :: rest }) = first.Name ∧
      GetDefaultPoolType none = gs "AllyHub Desktop App" ∧
      GetDefaultPoolType (some { PoolTypes := [] }) = gs "AllyHub Desktop App" :=
  ⟨rfl, rfl, rfl⟩

/-! ## Theorems: map assignment -/

theorem ltBytes_trans (a : List Byte) :
    ∀ b c, ltBytes a b = true → ltBytes b c = true → ltBytes a c = true := by
  induction a with
  | nil =>
    intro b c hab hbc
    cases c with
    | nil => cases b <;> simp [ltBytes] at hbc
    | cons z zs => rfl
  | cons x xs ih =>
    intro b c hab hbc
    cases b with
    | nil => simp [ltBytes] at hab
    | cons y ys =>
      cases c with
      | nil => simp [ltBytes] at hbc
      | cons z zs =>
        simp only [ltBytes] at hab hbc ⊢
        by_cases hxy : x.val < y.val
        · by_cases hyz : y.val < z.val
          · have hxz : x.val < z.val := by omega
            simp [hxz]
          · by_cases hzy : z.val < y.val
            · simp [hyz, hzy] at hbc
            · have hxz : x.val < z.val := by omega
              simp [hxz]
        · by_cases hyx : y.val < x.val
          · simp [hxy, hyx] at hab
          · simp only [hxy, hyx, if_false] at hab
            by_cases hyz : y.val < z.val
            · have hxz : x.val < z.val := by omega
              simp [hxz]
            · by_cases hzy : z.val < y.val
              · simp [hyz, hzy] at hbc
              · simp only [hyz, hzy, if_false] at hbc
                have hxz : ¬ x.val < z.val := by omega
                have hzx : ¬ z.val < x.val := by omega
                simp only [hxz, hzx, if_false]
                exact ih ys zs hab hbc

theorem ltBytes_total (a : List Byte) :
    ∀ b, ltBytes a b = false → a ≠ b → ltBytes b a = true := by
  induction a with
  | nil =>
    intro b hab hne
    cases b with
    | nil => exact absurd rfl hne
    | cons y ys => simp [ltBytes] at hab
  | cons x xs ih =>
    intro b hab hne
    cases b with
    | nil => rfl
    | cons y ys =>
      simp only [ltBytes] at hab ⊢
      by_cases hxy : x.val < y.val
      · simp [hxy] at hab
      · by_cases hyx : y.val < x.val
        · simp [hyx]
        · simp only [hxy, hyx, if_false] at hab ⊢
          have hxe : x = y := Fin.ext (by omega)
          subst hxe
          exact ih ys hab (fun e => hne (by rw [e]))

theorem mapLookup_mapInsert_self {V : Type} (k : GoString) (v : V) (l : List (GoString × V)) :
    mapLookup k (mapInsert k v l) = some v := by
  induction l with
  | nil => simp [mapInsert, mapLookup]
  | cons a rest ih =>
    obtain ⟨k', v'⟩ := a
    unfold mapInsert
    by_cases h1 : ltBytes k k' = true
    · simp [h1, mapLookup]
    · by_cases h2 : k = k'
      · subst h2
        simp [h1, mapLookup]
      · simp [h1, h2, mapLookup, ih]

theorem mapLookup_mapInsert_other {V : Type} (k q : GoString) (v : V) (l : List (GoString × V))
    (hq : q ≠ k) : mapLookup q (mapInsert k v l) = mapLookup q l := by
  induction l with
  | nil => simp [mapInsert, mapLookup, hq]
  | cons a rest ih =>
    obtain ⟨k', v'⟩ := a
    unfold mapInsert
    by_cases h1 : ltBytes k k' = true
    · simp [h1, mapLookup, hq]
    · by_cases h2 : k = k'
      · subst h2
        simp [h1, mapLookup, hq]
      · simp [h1, h2, mapLookup, ih]

theorem mem_mapInsert {V : Type} (k : GoString) (v : V) (l : List (GoString × V))
    (a : GoString × V) (ha : a ∈ mapInsert k v l) : a = (k, v) ∨ a ∈ l := by
  induction l with
  | nil =>
    simp only [mapInsert, List.mem_singleton] at ha
    exact Or.inl ha
  | cons b rest ih =>
    obtain ⟨k', v'⟩ := b
    unfold mapInsert at ha
    by_cases h1 : ltBytes k k' = true
    · rw [if_pos h1] at ha
      rcases List.mem_cons.mp ha with ha | ha
      · exact Or.inl ha
      · exact Or.inr ha
    · rw [if_neg h1] at ha
      by_cases h2 : k = k'
      · rw [if_pos h2] at ha
        rcases List.mem_cons.mp ha with ha | ha
        · exact Or.inl ha
        · exact Or.inr (List.mem_cons_of_mem _ ha)
      · rw [if_neg h2] at ha
        rcases List.mem_cons.mp ha with ha | ha
        · exact Or.inr (by rw [ha]; exact List.mem_cons_self _ _)
        · rcases ih ha with h | h
          · exact Or.inl h
          · exact Or.inr (List.mem_cons_of_mem _ h)

/-- Assignment keeps the entries in strictly increasing key order. -/
theorem SortedKeys_mapInsert {V : Type} (k : GoString) (v : V) (l : List (GoString × V))
    (h : SortedKeys l) : SortedKeys (mapInsert k v l) := by
  induction l with
  | nil => simp [mapInsert, SortedKeys]
  | cons b rest ih =>
    obtain ⟨k', v'⟩ := b
    unfold SortedKeys at h ih ⊢
    rw [List.pairwise_cons] at h
    unfold mapInsert
    by_cases h1 : ltBytes k k' = true
    · simp only [h1, if_true]
      refine List.Pairwise.cons ?_ (List.Pairwise.cons h.1 h.2)
      intro a ha
      rcases List.mem_cons.mp ha with ha | ha
      · rw [ha]
        exact h1
      · exact ltBytes_trans k k' a.1 h1 (h.1 a ha)
    · by_cases h2 : k = k'
      · subst h2
        simp only [h1, if_true, if_false]
        exact List.Pairwise.cons (fun a ha => h.1 a ha) h.2
      · simp only [h1, h2, if_false]
        refine List.Pairwise.cons ?_ (ih h.2)
        intro a ha
        rcases mem_mapInsert k v rest a ha with ha | ha
        · rw [ha]
          exact ltBytes_total k k' (by simpa using h1) h2
        · exact h.1 a ha

/-! ## Theorems: predefined endpoints -/

theorem lastNamed_cons (k : GoString) (c : EndpointConfig) (rest : List EndpointConfig) :
    lastNamed k (c :: rest) =
      match lastNamed k rest with
      | some c' => some c'
      | none => if c.Name = k then some c else none := by
  unfold lastNamed
  rw [List.filter_cons]
  by_cases hc : c.Name = k
  · simp only [hc, decide_True, if_true]
    cases hf : List.filter (fun c => decide (c.Name = k)) rest with
    | nil => simp
    | cons a l =>
      rw [List.getLast?_cons_cons]
      cases hg : (a :: l).getLast? with
      | none => simp at hg
      | some x => rfl
  · simp only [hc, decide_False, if_false, Bool.false_eq_true]
    cases hf : (List.filter (fun c => decide (c.Name = k)) rest).getLast? <;> rfl

theorem lastNamed_isSome (k : GoString) (templates : List EndpointConfig) :
    (lastNamed k templates).isSome = true ↔ ∃ c ∈ templates, c.Name = k := by
  induction templates with
  | nil => simp [lastNamed]
  | cons c rest ih =>
    rw [lastNamed_cons]
    cases hl : lastNamed k rest with
    | some c' =>
      rw [hl] at ih
      obtain ⟨d, hd, hk⟩ := ih.mp rfl
      simp only [Option.isSome_some, true_iff]
      exact ⟨d, List.mem_cons_of_mem _ hd, hk⟩
    | none =>
      rw [hl] at ih
      have hno : ¬ ∃ d ∈ rest, d.Name = k := fun h => Bool.noConfusion (ih.mpr h)
      by_cases hc : c.Name = k
      · simp only [hc, if_true, Option.isSome_some, true_iff]
        exact ⟨c, List.mem_cons_self _ _, hc⟩
      · simp only [hc, if_false, Option.isSome_none, Bool.false_eq_true, false_iff]
        rintro ⟨d, hd, hk⟩
        rcases List.mem_cons.mp hd with hd | hd
        · exact hc (hd ▸ hk)
        · exact hno ⟨d, hd, hk⟩

/-- The loop of `GetPredefinedEndpoints` leaves under every key the endpoint of the
last template with that name, and the earlier entry when there is no such template. -/
theorem mapLookup_addPredefined (k : GoString) (templates : List EndpointConfig) :
    ∀ acc : List (GoString × EndpointURL),
      mapLookup k (addPredefined templates acc) =
        match lastNamed k templates with
        | some c => some (templateEndpoint c)
        | none => mapLookup k acc := by
  induction templates with
  | nil =>
    intro acc
    rfl
  | cons c rest ih =>
    intro acc
    rw [addPredefined, ih, lastNamed_cons]
    cases hl : lastNamed k rest with
    | some c' => rfl
    | none =>
      by_cases hc : c.Name = k
      · simp only [hc, if_true]
        rw [← hc, mapLookup_mapInsert_self]
        rfl
      · simp only [hc, if_false]
        rw [mapLookup_mapInsert_other c.Name k _ acc (fun e => hc e.symm)]

theorem SortedKeys_addPredefined (templates : List EndpointConfig) :
    ∀ acc : List (GoString × EndpointURL), SortedKeys acc →
      SortedKeys (addPredefined templates acc) := by
  induction templates with
  | nil =>
    intro acc h
    exact h
  | cons c rest ih =>
    intro acc h
    rw [addPredefined]
    exact ih _ (SortedKeys_mapInsert _ _ acc h)

theorem mapLookup_isSome {V : Type} (k : GoString) (l : List (GoString × V)) :
    (mapLookup k l).isSome = true ↔ k ∈ l.map Prod.fst := by
  induction l with
  | nil => simp [mapLookup]
  | cons a rest ih =>
    obtain ⟨k', v'⟩ := a
    unfold mapLookup
    by_cases h : k = k'
    · simp [h]
    · simp only [h, if_false, ih, List.map_cons, List.mem_cons, false_or]

theorem mapLookup_nil_of_forall {V : Type} (l : List (GoString × V))
    (h : ∀ k, mapLookup k l = none) : l = [] := by
  cases l with
  | nil => rfl
  | cons a rest =>
    have := h a.1
    simp [mapLookup] at this

theorem findEndpoints_unknown (t : GoString) (types : List PoolTypeConfig)
    (h : ∀ pt ∈ types, pt.Name ≠ t) : findEndpoints t types = [] := by
  induction types with
  | nil => rfl
  | cons pt rest ih =>
    rw [findEndpoints, if_neg (h pt (List.mem_cons_self _ _))]
    exact ih (fun q hq => h q (List.mem_cons_of_mem _ hq))

theorem findEndpoints_first (t : GoString) (before : List PoolTypeConfig) (pt : PoolTypeConfig)
    (after : List PoolTypeConfig) (hn : pt.Name = t) (hb : ∀ q ∈ before, q.Name ≠ t) :
    findEndpoints t (before ++ pt :: after) = pt.Endpoints := by
  induction before with
  | nil => simp [findEndpoints, hn]
  | cons q rest ih =>
    rw [List.cons_append, findEndpoints, if_neg (hb q (List.mem_cons_self _ _))]
    exact ih (fun r hr => hb r (List.mem_cons_of_mem _ hr))

/-- The map the loop of `GetPredefinedEndpoints` builds from a list of templates,
starting from the empty map. -/
theorem addPredefined_from_empty (templates : List EndpointConfig) :
    SortedKeys (addPredefined templates []) ∧
      (∀ k, k ∈ (addPredefined templates []).map Prod.fst ↔
        k ∈ templates.map (fun c => c.Name)) ∧
      (∀ k, mapLookup k (addPredefined templates []) =
        (lastNamed k templates).map
          (fun c => { URL := [], Method := c.Method, Headers := none,
                      Description := c.Description })) := by
  have hlook : ∀ k, mapLookup k (addPredefined templates []) =
      (lastNamed k templates).map
        (fun c => { URL := [], Method := c.Method, Headers := none,
                    Description := c.Description }) := by
    intro k
    rw [mapLookup_addPredefined]
    cases lastNamed k templates <;> rfl
  refine ⟨SortedKeys_addPredefined _ [] List.Pairwise.nil, ?_, hlook⟩
  intro k
  have hmap : ∀ (f : EndpointConfig → EndpointURL) (o : Option EndpointConfig),
      (o.map f).isSome = o.isSome := fun f o => by cases o <;> rfl
  rw [← mapLookup_isSome, hlook, hmap, lastNamed_isSome]
  simp

/-- C13: `GetPredefinedEndpoints t` is a non-nil map. When the registry is loaded
and `pt` is the first configured type named `t`, its keys are exactly the names of
the endpoint templates of `pt`, and under each key is the endpoint with an empty
URL, nil headers and the method and description of the last template of `pt` with
that name. The map has no keys when the registry is unset or no configured type is
named `t`. -/
theorem GetPredefinedEndpoints_spec (poolConfig : Option PoolConfiguration) (t : GoString) :
    ∃ l, GetPredefinedEndpoints poolConfig t = some l ∧ SortedKeys l ∧
      (poolConfig = none → l = []) ∧
      (∀ cfg, poolConfig = some cfg → (∀ pt ∈ cfg.PoolTypes, pt.Name ≠ t) → l = []) ∧
      (∀ (cfg : PoolConfiguration) (before : List PoolTypeConfig) (pt : PoolTypeConfig)
          (after : List PoolTypeConfig),
        poolConfig = some cfg → cfg.PoolTypes = before ++ pt :: after → pt.Name = t →
        (∀ q ∈ before, q.Name ≠ t) →
          (∀ k, k ∈ l.map Prod.fst ↔ k ∈ pt.Endpoints.map (fun c => c.Name)) ∧
          (∀ k, mapLookup k l =
            (lastNamed k pt.Endpoints).map
              (fun c => { URL := [], Method := c.Method, Headers := none,
                          Description := c.Description }))) := by
  refine ⟨_, rfl, SortedKeys_addPredefined _ [] List.Pairwise.nil, ?_, ?_, ?_⟩
  · intro h
    subst h
    rfl
  · intro cfg h hno
    subst h
    simp only [GetEndpointsForPoolType, findEndpoints_unknown t cfg.PoolTypes hno, addPredefined]
  · intro cfg before pt after h hsplit hn hb
    subst h
    simp only [GetEndpointsForPoolType, hsplit, findEndpoints_first t before pt after hn hb]
    exact (addPredefined_from_empty pt.Endpoints).2

/-- C13 at a concrete registry with two types named `Desk`: the first one decides,
its later template `tasks` overwrites the earlier one, and the type `Other`, which
is not configured, gives the empty map. -/
theorem GetPredefinedEndpoints_spec_witness :
    GetPredefinedEndpoints (some repeatedConfig) (gs "Desk") =
        some [(gs "chat", { URL := [], Method := gs "POST", Headers := none,
                            Description := gs "stream" }),
              (gs "tasks", { URL := [], Method := gs "PUT", Headers := none,
                             Description := gs "second" })] ∧
      (∀ k, k ∈ [gs "chat", gs "tasks"] ↔ k ∈ [gs "tasks", gs "chat", gs "tasks"]) ∧
      GetPredefinedEndpoints (some repeatedConfig) (gs "Other") = some [] := by
  have he : GetPredefinedEndpoints (some repeatedConfig) (gs "Desk") =
      some [(gs "chat", { URL := [], Method := gs "POST", Headers := none,
                          Description := gs "stream" }),
            (gs "tasks", { URL := [], Method := gs "PUT", Headers := none,
                           Description := gs "second" })] := by decide
  obtain ⟨l, hl, _, _, _, hsplit⟩ := GetPredefinedEndpoints_spec (some repeatedConfig) (gs "Desk")
  have hle := Option.some.inj (hl.symm.trans he)
  have hk := (hsplit repeatedConfig []
    { Name := gs "Desk"
      Endpoints :=
        [{ Name := gs "tasks", Method := gs "GET", Description := gs "first" },
         { Name := gs "chat", Method := gs "POST", Description := gs "stream" },
         { Name := gs "tasks", Method := gs "PUT", Description := gs "second" }] }
    [{ Name := gs "Desk"
       Endpoints := [{ Name := gs "other", Method := gs "GET", Description := [] }] }]
    rfl rfl rfl (fun q hq => absurd hq (List.not_mem_nil q))).1
  rw [hle] at hk
  exact ⟨he, hk, by decide⟩

/-! ## Theorems: listing and deleting pools -/

theorem ltBytes_le_trans (a b c : List Byte) (hab : ltBytes b a = false)
    (hbc : ltBytes c b = false) : ltBytes c a = false := by
  cases hca : ltBytes c a with
  | false => rfl
  | true =>
    by_cases he : b = a
    · rw [he] at hbc
      rw [hbc] at hca
      exact Bool.noConfusion hca
    · have hab' := ltBytes_total b a hab he
      rw [ltBytes_trans c a b hca hab'] at hbc
      exact Bool.noConfusion hbc

theorem ltBytes_le_total (a b : List Byte) : ltBytes b a = false ∨ ltBytes a b = false := by
  cases h : ltBytes b a with
  | false => exact Or.inl rfl
  | true => exact Or.inr (ltBytes_asymm b a h)

theorem poolOrder_total (createdZone : PoolRow → Int) (a b : PoolRow) :
    poolOrder createdZone a b ∨ poolOrder createdZone b a := by
  unfold poolOrder
  have ht := ltBytes_le_total (createdText createdZone a) (createdText createdZone b)
  cases ha : a.is_default <;> cases hb : b.is_default <;> simp <;> exact ht

theorem poolOrder_trans (createdZone : PoolRow → Int) (a b c : PoolRow)
    (hab : poolOrder createdZone a b) (hbc : poolOrder createdZone b c) :
    poolOrder createdZone a c := by
  unfold poolOrder at *
  have ht := ltBytes_le_trans (createdText createdZone a) (createdText createdZone b)
    (createdText createdZone c)
  cases ha : a.is_default <;> cases hb : b.is_default <;> cases hc : c.is_default <;>
    simp [ha, hb, hc] at hab hbc ⊢ <;> exact ht hab hbc

/-- What the `ORDER BY` clause says of two rows, the first before the second. -/
theorem poolOrder_iff (createdZone : PoolRow → Int) (a b : PoolRow) :
    poolOrder createdZone a b ↔
      ((a.is_default = false → b.is_default = false) ∧
        (a.is_default = b.is_default →
          ltBytes (formatTimestamp (createdZone b * 60) b.created)
            (formatTimestamp (createdZone a * 60) a.created) = false)) := by
  unfold poolOrder createdText
  cases ha : a.is_default <;> cases hb : b.is_default <;> simp

theorem scanPoolRows_eq_filterMap (rows : List PoolRow) :
    scanPoolRows rows = rows.filterMap (fun r => (scanPoolRow r).toOption) := by
  induction rows with
  | nil => rfl
  | cons r rest ih =>
    unfold scanPoolRows
    cases h : scanPoolRow r with
    | error e => simp [List.filterMap_cons, h, Except.toOption, ih]
    | ok p => simp [List.filterMap_cons, h, Except.toOption, ih]

theorem scanPoolRow_user (r : PoolRow) (p : EndpointPool) (h : scanPoolRow r = Except.ok p) :
    p.UserID = r.user_id ∧ p.ID = r.id := by
  unfold scanPoolRow at h
  cases hd : r.description with
  | none => simp [hd] at h
  | some d =>
    simp only [hd, Except.ok.injEq] at h
    subst h
    exact ⟨rfl, rfl⟩

theorem scanPoolRow_default (r : PoolRow) (p : EndpointPool)
    (h : scanPoolRow r = Except.ok p) : p.IsDefault = r.is_default := by
  unfold scanPoolRow at h
  cases hd : r.description with
  | none => simp [hd] at h
  | some d =>
    simp only [hd, Except.ok.injEq] at h
    subst h
    rfl

theorem mem_scanPoolRows (rows : List PoolRow) (p : EndpointPool) :
    p ∈ scanPoolRows rows ↔ ∃ r ∈ rows, scanPoolRow r = Except.ok p := by
  rw [scanPoolRows_eq_filterMap, List.mem_filterMap]
  constructor
  · rintro ⟨r, hr, h⟩
    refine ⟨r, hr, ?_⟩
    cases hs : scanPoolRow r with
    | error e => simp [hs, Except.toOption] at h
    | ok q =>
      simp only [hs, Except.toOption, Option.some.injEq] at h
      rw [h]
  · rintro ⟨r, hr, h⟩
    exact ⟨r, hr, by simp [h, Except.toOption]⟩

theorem scanPoolRows_length (rows : List PoolRow) (h : ∀ r ∈ rows, r.description ≠ none) :
    (scanPoolRows rows).length = rows.length := by
  induction rows with
  | nil => rfl
  | cons r rest ih =>
    have hr := h r (List.mem_cons_self _ _)
    unfold scanPoolRows scanPoolRow
    cases hd : r.description with
    | none => exact absurd hd hr
    | some d =>
      simp only [List.length_cons]
      rw [ih (fun q hq => h q (List.mem_cons_of_mem _ hq))]

/-- C14 (counterexample): a store holds a pool row of user `u1` whose description
is `NULL`, and the listing for `u1` succeeds and is empty; another store holds two
pools of `u1`, pool `a` created one hour after pool `b` but written in a zone five
hours west of UTC, and the listing has `a` before `b`, the later creation time
first. -/
theorem GetUserEndpointPools_skips_and_orders_by_text :
    (nullDescriptionRow ∈ nullDescriptionDB.endpoint_pools ∧
        nullDescriptionRow.user_id = gs "u1" ∧
        GetUserEndpointPools utcRows nullDescriptionDB (gs "u1") = Except.ok []) ∧
      (GetUserEndpointPools zonedRows zonedDB (gs "u1")).map
          (fun pools => pools.map (fun p => (p.ID, p.IsDefault, p.Created))) =
        Except.ok [(gs "a", false, 1700003600000000000), (gs "b", false, 1700000000000000000)] ∧
      createdText zonedRows
          { samplePoolRow with id := gs "a", created := 1700003600000000000 } =
        gs "2023-11-14 18:13:20-05:00" ∧
      createdText zonedRows
          { samplePoolRow with id := gs "b", created := 1700000000000000000 } =
        gs "2023-11-14 22:13:20+00:00" :=
  ⟨⟨by decide, by decide, by decide⟩, by decide, by decide, by decide⟩

/-- C14 (amended): `GetUserEndpointPools u` succeeds in every store state and returns
the pools scanned from the stored rows of `u`, taken in an order in which no
non-default row is before a default one and, among rows with the same default flag,
the stored texts of `created` do not decrease bytewise; exactly the rows of `u` that
scan give a pool (a row with a `NULL` description is skipped), each once; no
non-default pool is before a default pool; and when every row of `u` has a
description, no row is skipped. -/
theorem GetUserEndpointPools_spec (createdZone : PoolRow → Int) (db : DB) (u : GoString) :
    ∃ rows : List PoolRow,
      rows.Perm (db.endpoint_pools.filter (fun r => decide (r.user_id = u))) ∧
      rows.Pairwise (fun a b =>
        (a.is_default = false → b.is_default = false) ∧
          (a.is_default = b.is_default →
            ltBytes (formatTimestamp (createdZone b * 60) b.created)
              (formatTimestamp (createdZone a * 60) a.created) = false)) ∧
      GetUserEndpointPools createdZone db u = Except.ok (scanPoolRows rows) ∧
      (∀ p, p ∈ scanPoolRows rows ↔
        ∃ r ∈ db.endpoint_pools, r.user_id = u ∧ scanPoolRow r = Except.ok p) ∧
      (scanPoolRows rows).Pairwise (fun p q => p.IsDefault = false → q.IsDefault = false) ∧
      ((∀ r ∈ db.endpoint_pools, r.user_id = u → r.description ≠ none) →
        (scanPoolRows rows).length =
          (db.endpoint_pools.filter (fun r => decide (r.user_id = u))).length) := by
  have hperm : ((((db.endpoint_pools.filter (fun r => decide (r.user_id = u))).insertionSort
      idOrder).insertionSort (poolOrder createdZone))).Perm
      (db.endpoint_pools.filter (fun r => decide (r.user_id = u))) :=
    (List.perm_insertionSort (poolOrder createdZone) _).trans
      (List.perm_insertionSort idOrder _)
  haveI : IsTotal PoolRow (poolOrder createdZone) := ⟨poolOrder_total createdZone⟩
  haveI : IsTrans PoolRow (poolOrder createdZone) := ⟨poolOrder_trans createdZone⟩
  have hsorted := List.sorted_insertionSort (poolOrder createdZone)
    ((db.endpoint_pools.filter (fun r => decide (r.user_id = u))).insertionSort idOrder)
  refine ⟨_, hperm, ?_, rfl, ?_, ?_, ?_⟩
  · exact List.Pairwise.imp (fun {a b} h => (poolOrder_iff createdZone a b).mp h) hsorted
  · intro p
    rw [mem_scanPoolRows]
    constructor
    · rintro ⟨r, hr, hs⟩
      have hr' := (hperm.mem_iff).mp hr
      rw [List.mem_filter] at hr'
      exact ⟨r, hr'.1, by simpa using hr'.2, hs⟩
    · rintro ⟨r, hr, hu, hs⟩
      exact ⟨r, (hperm.mem_iff).mpr (List.mem_filter.mpr ⟨hr, by simpa using hu⟩), hs⟩
  · rw [scanPoolRows_eq_filterMap]
    refine List.Pairwise.filterMap _ ?_ hsorted
    intro a b hab p hp q hq
    have hd := ((poolOrder_iff createdZone a b).mp hab).1
    have hpa : p.IsDefault = a.is_default := by
      cases hs : scanPoolRow a with
      | error e => simp [hs, Except.toOption] at hp
      | ok x =>
        simp only [hs, Except.toOption, Option.mem_def, Option.some.injEq] at hp
        rw [← hp]
        exact scanPoolRow_default a x hs
    have hqb : q.IsDefault = b.is_default := by
      cases hs : scanPoolRow b with
      | error e => simp [hs, Except.toOption] at hq
      | ok x =>
        simp only [hs, Except.toOption, Option.mem_def, Option.some.injEq] at hq
        rw [← hq]
        exact scanPoolRow_default b x hs
    rw [hpa, hqb]
    exact hd
  · intro hall
    rw [scanPoolRows_length, hperm.length_eq]
    intro r hr
    have hr' := (hperm.mem_iff).mp hr
    rw [List.mem_filter] at hr'
    exact hall r hr'.1 (by simpa using hr'.2)

set_option maxRecDepth 100000 in
/-- C14 at a concrete store, every time written in UTC: the default pool is first,
the others follow by creation time, the row of the other user and the unscannable
row are absent. -/
theorem GetUserEndpointPools_listing :
    (GetUserEndpointPools utcRows
        { listingDB with endpoint_pools := nullDescriptionRow :: listingDB.endpoint_pools }
        (gs "u1")).map (fun pools => pools.map (fun p => (p.ID, p.IsDefault, p.Created))) =
      Except.ok
        [(gs "p2", true, 20000000000), (gs "p1", false, 10000000000),
          (gs "p3", false, 30000000000)] := by
  decide

/-- C15: `DeleteEndpointPool u x` returns no error in every store state; it removes
exactly the rows of `endpoint_pools` with user id `u` and pool id `x`, keeps the others
in place and leaves the other tables alone; when no row matches the store is
unchanged; deleting again leaves the store as after the first delete. -/
theorem DeleteEndpointPool_idempotent (db : DB) (u x : GoString) :
    ∃ db', DeleteEndpointPool db u x = Except.ok db' ∧
      db'.endpoint_pools =
        db.endpoint_pools.filter (fun r => decide (¬ (r.user_id = u ∧ r.id = x))) ∧
      db'.users = db.users ∧ db'.api_tokens = db.api_tokens ∧ db'.sessions = db.sessions ∧
      ((∀ r ∈ db.endpoint_pools, ¬ (r.user_id = u ∧ r.id = x)) → db' = db) ∧
      DeleteEndpointPool db' u x = Except.ok db' := by
  have hf : (fun r : PoolRow => !r.hasKey u x) =
      (fun r => decide (¬ (r.user_id = u ∧ r.id = x))) := by
    funext r
    simp [PoolRow.hasKey]
  refine ⟨_, rfl, ?_, rfl, rfl, rfl, ?_, ?_⟩
  · simp only [hf]
  · intro hno
    have : db.endpoint_pools.filter (fun r => !r.hasKey u x) = db.endpoint_pools := by
      rw [List.filter_eq_self]
      intro r hr
      have hk := hno r hr
      simp only [PoolRow.hasKey, Bool.not_eq_true', decide_eq_false_iff_not]
      exact hk
    cases db
    simp only at this
    simp only [this]
  · simp only [DeleteEndpointPool, List.filter_filter, Bool.and_self]

/-! ## Theorems: password hashes -/

theorem base64Encode_length : ∀ src : List Byte,
    (base64Encode src).length = (src.length * 4 + 2) / 3
  | [] => by rw [base64Encode]; rfl
  | [_] => by rw [base64Encode]; simp
  | [_, _] => by rw [base64Encode]; simp
  | _ :: _ :: _ :: rest => by
    rw [base64Encode]
    simp only [List.length_cons]
    rw [base64Encode_length rest]
    omega

theorem copyAt_tail (pre src : List Byte) (k : Nat) (h : src.length ≤ k) :
    copyAt (pre ++ List.replicate k 0) pre.length src =
      pre ++ src ++ List.replicate (k - src.length) 0 := by
  unfold copyAt
  have h1 : (pre ++ List.replicate k (0 : Byte)).length - pre.length = k := by simp
  rw [h1, List.take_left' rfl, List.take_of_length_le h, Nat.min_eq_left h,
    List.drop_append_eq_append_drop]
  simp [List.drop_replicate]

/-- The text of a hash of version `2a` and cost 10 whose salt and hash have their
encoded sizes. -/
theorem hashed_Hash_eq (hash salt : List Byte) (hs : salt.length = 22) (hh : hash.length = 31) :
    hashed.Hash { hash := hash, salt := salt, cost := 10, major := 0x32, minor := 0x61 } =
      gs "$2a$10$" ++ salt ++ hash := by
  have h5 : ((((List.replicate 60 (0 : Byte)).set 0 0x24).set 1 0x32).set 2 0x61).set 3 0x24 =
      gs "$2a$" ++ List.replicate 56 0 := by decide
  have h6 : copyAt (gs "$2a$" ++ List.replicate 56 0) 4 (formatCost 10) =
      gs "$2a$10" ++ List.replicate 54 0 := by decide
  have h7 : (gs "$2a$10" ++ List.replicate 54 (0 : Byte)).set 6 0x24 =
      gs "$2a$10$" ++ List.replicate 53 0 := by decide
  have h8 := copyAt_tail (gs "$2a$10$") salt 53 (by omega)
  have h9 := copyAt_tail (gs "$2a$10$" ++ salt) hash 31 (by omega)
  have hl : (gs "$2a$10$").length = 7 := by decide
  have hl2 : (gs "$2a$10$" ++ salt).length = 29 := by rw [List.length_append, hl, hs]
  rw [hl, hs] at h8
  rw [hl2, hh] at h9
  have hm : ((0x61 : Byte) ≠ 0) := by decide
  simp only [hashed.Hash, hm, if_true, ne_eq, not_false_eq_true, encodedSaltSize,
    encodedHashSize, h5, h6, h7, h8, h9, Nat.reduceAdd, Nat.reduceSub, List.replicate_zero,
    List.append_nil]
  rw [List.take_of_length_le]
  simp [hl, hs, hh]

/-- The text of such a hash is parsed back into its parts. -/
theorem newFromHash_Hash (hash salt : List Byte) (hs : salt.length = 22)
    (hh : hash.length = 31) :
    newFromHash (gs "$2a$10$" ++ salt ++ hash) =
      Except.ok { hash := hash, salt := salt, cost := 10, major := 0x32, minor := 0x61 } := by
  have he : gs "$2a$10$" ++ salt ++ hash =
      (0x24 : Byte) :: 0x32 :: 0x61 :: 0x24 :: 0x31 :: 0x30 :: 0x24 :: (salt ++ hash) := rfl
  have hlen : ¬ (gs "$2a$10$" ++ salt ++ hash).length < minHashSize := by
    rw [he]
    simp only [List.length_cons, List.length_append, hs, hh, minHashSize]
    omega
  unfold newFromHash
  rw [if_neg hlen, he]
  have hc : atoi2 0x31 0x30 = some 10 := by decide
  have hk : checkCost 10 = Except.ok () := by decide
  simp +decide only [ne_eq, if_true, if_false, List.drop_succ_cons, List.drop_zero, hc, hk,
    encodedSaltSize, not_true_eq_false, not_false_eq_true]
  rw [List.take_left' hs, List.drop_left' hs]

theorem bcrypt_length (cipher : BlowfishCipher) (password : List Byte) (cost : Int)
    (salt hash : List Byte) (h : bcrypt cipher password cost salt = Except.ok hash) :
    hash.length = 31 := by
  unfold bcrypt at h
  cases hc : cipher password cost salt with
  | error e => simp [hc] at h
  | ok data =>
    simp only [hc, Except.ok.injEq] at h
    rw [← h, base64Encode_length]
    simp [maxCryptedHashSize]

theorem salt_length (rnd : RandSource) :
    (base64Encode (randRead rnd maxSaltSize)).length = 22 := by
  rw [base64Encode_length]
  simp [randRead, maxSaltSize]

/-- What a successful `HashPassword` returns: the version, the cost, the encoded
salt and the encoded cipher text. -/
theorem HashPassword_ok (cipher : BlowfishCipher) (rnd : RandSource) (p h : GoString)
    (hh : HashPassword cipher rnd p = Except.ok h) :
    ∃ hash, bcrypt cipher p 10 (base64Encode (randRead rnd maxSaltSize)) = Except.ok hash ∧
      h = gs "$2a$10$" ++ base64Encode (randRead rnd maxSaltSize) ++ hash := by
  unfold HashPassword GenerateFromPassword at hh
  by_cases hl : p.length > 72
  · simp [hl] at hh
  · rw [if_neg hl] at hh
    unfold newFromPassword at hh
    have hd : ¬ DefaultCost < MinCost := by decide
    have hk : checkCost DefaultCost = Except.ok () := by decide
    simp only [hd, if_false, hk] at hh
    cases hb : bcrypt cipher p DefaultCost (base64Encode (randRead rnd maxSaltSize)) with
    | error e => simp [hb] at hh
    | ok hash =>
      simp only [hb, Except.ok.injEq] at hh
      refine ⟨hash, hb, ?_⟩
      rw [← hh]
      exact hashed_Hash_eq hash _ (salt_length rnd) (bcrypt_length cipher p _ _ hash hb)

theorem CheckPasswordHash_of_error (cipher : BlowfishCipher) (p h : GoString) (e : BcryptError)
    (he : newFromHash h = Except.error e) : CheckPasswordHash cipher p h = false := by
  simp [CheckPasswordHash, CompareHashAndPassword, he]

theorem newFromHash_short (h : GoString) (hl : h.length < 59) :
    newFromHash h = Except.error BcryptError.hashTooShort := by
  unfold newFromHash
  rw [if_pos (by simpa [minHashSize] using hl)]

theorem newFromHash_wrong_start (b : Byte) (t : GoString) (hb : b ≠ 0x24) :
    ∃ e, newFromHash (b :: t) = Except.error e := by
  have hv : b.val ≠ 0x24 := fun e => hb (Fin.ext e)
  unfold newFromHash
  by_cases hl : (b :: t).length < minHashSize
  · exact ⟨_, if_pos hl⟩
  · rw [if_neg hl]
    match t with
    | [] => exact ⟨_, rfl⟩
    | [_] => exact ⟨_, rfl⟩
    | s1 :: s2 :: rest =>
      simp only [ne_eq, hv, not_false_eq_true, if_true]
      exact ⟨_, rfl⟩

/-- C20: for every password `p` for which `HashPassword p` succeeds with hash `h`,
`CheckPasswordHash p h` is true; and `CheckPasswordHash` is false, as a value it
returns, for every hash text that does not parse: one shorter than 59 bytes, one
that does not start with `$`, and any other that `newFromHash` rejects. This holds
for every Blowfish function and every random salt. -/
theorem CheckPasswordHash_HashPassword (cipher : BlowfishCipher) (rnd : RandSource)
    (p : GoString) :
    (∀ h, HashPassword cipher rnd p = Except.ok h → CheckPasswordHash cipher p h = true) ∧
      (∀ h e, newFromHash h = Except.error e → CheckPasswordHash cipher p h = false) ∧
      (∀ h : GoString, h.length < 59 → CheckPasswordHash cipher p h = false) ∧
      (∀ (b : Byte) (t : GoString), b ≠ 0x24 → CheckPasswordHash cipher p (b :: t) = false) := by
  refine ⟨?_, ?_, ?_, ?_⟩
  · intro h hh
    obtain ⟨hash, hb, rfl⟩ := HashPassword_ok cipher rnd p h hh
    have hlen := bcrypt_length cipher p _ _ hash hb
    simp only [CheckPasswordHash, CompareHashAndPassword,
      newFromHash_Hash hash _ (salt_length rnd) hlen, hb]
    rw [if_pos ((ConstantTimeCompare_eq_one _ _).mpr rfl)]
  · intro h e he
    exact CheckPasswordHash_of_error cipher p h e he
  · intro h hl
    exact CheckPasswordHash_of_error cipher p h _ (newFromHash_short h hl)
  · intro b t hb
    obtain ⟨e, he⟩ := newFromHash_wrong_start b t hb
    exact CheckPasswordHash_of_error cipher p _ e he

set_option maxRecDepth 100000 in
/-- C20 at a concrete input: a password is hashed, the hash has the 60 bytes of the
format, and it verifies; another password and a text that is no hash do not. -/
theorem CheckPasswordHash_HashPassword_sample :
    HashPassword toyCipher sampleRand (gs "secret") =
        Except.ok (gs "$2a$10$.umPE/6kJRO5OijOTz3jZ.o8Vax5gwPlvaXULIXWAAYE4TR2b2RQ.") ∧
      CheckPasswordHash toyCipher (gs "secret")
        (gs "$2a$10$.umPE/6kJRO5OijOTz3jZ.o8Vax5gwPlvaXULIXWAAYE4TR2b2RQ.") = true ∧
      CheckPasswordHash toyCipher (gs "secreu")
        (gs "$2a$10$.umPE/6kJRO5OijOTz3jZ.o8Vax5gwPlvaXULIXWAAYE4TR2b2RQ.") = false ∧
      CheckPasswordHash toyCipher (gs "secret") (gs "not a hash") = false :=
  ⟨by decide,
    (CheckPasswordHash_HashPassword toyCipher sampleRand (gs "secret")).1 _ (by decide),
    by decide, by decide⟩

/-! ## Theorems: login and registration -/

theorem GetUserByUsername_error (db : DB) (email : GoString)
    (h : ∀ r ∈ db.users, r.email ≠ email) :
    GetUserByUsername db email = Except.error DBError.notFound := by
  unfold GetUserByUsername
  have hf : db.users.find? (fun r => decide (r.email = email)) = none := by
    rw [List.find?_eq_none]
    intro r hr
    simpa using h r hr
  rw [hf]

theorem GetUserByUsername_ok (db : DB) (email : GoString)
    (h : ∃ r ∈ db.users, r.email = email) :
    ∃ user, GetUserByUsername db email = Except.ok user := by
  unfold GetUserByUsername
  cases hf : db.users.find? (fun r => decide (r.email = email)) with
  | none =>
    rw [List.find?_eq_none] at hf
    obtain ⟨r, hr, he⟩ := h
    exact absurd he (by simpa using hf r hr)
  | some r => exact ⟨_, rfl⟩

theorem GetUserByUsername_found (db : DB) (email : GoString) (user : User)
    (h : GetUserByUsername db email = Except.ok user) :
    ∃ r ∈ db.users, r.email = email ∧ user.Email = email ∧ user.Password = r.password := by
  unfold GetUserByUsername at h
  cases hf : db.users.find? (fun r => decide (r.email = email)) with
  | none => simp [hf] at h
  | some r =>
    simp only [hf, Except.ok.injEq] at h
    have hm := List.mem_of_find?_eq_some hf
    have hp := List.find?_some hf
    simp only [decide_eq_true_eq] at hp
    subst h
    exact ⟨r, hm, hp, hp, rfl⟩

/-- The response of `HandleLogin` when no user has the email of the request. -/
theorem HandleLogin_unknown_email (cipher : BlowfishCipher) (rnd : RandSource) (db : DB)
    (req : LoginRequest) (now1 now2 : Time) (h : ∀ r ∈ db.users, r.email ≠ req.Email) :
    HandleLogin cipher rnd db (some req) now1 now2 =
      { Status := 401, Success := false, Message := "Invalid email or password", Data := none,
        SetCookie := none, db := db } := by
  simp only [HandleLogin, GetUserByUsername_error db req.Email h]

/-- The response of `HandleLogin` when the user exists and the password does not
match the stored hash. -/
theorem HandleLogin_wrong_password (cipher : BlowfishCipher) (rnd : RandSource) (db : DB)
    (req : LoginRequest) (user : User) (now1 now2 : Time)
    (hu : GetUserByUsername db req.Email = Except.ok user)
    (hp : CheckPasswordHash cipher req.Password user.Password = false) :
    HandleLogin cipher rnd db (some req) now1 now2 =
      { Status := 401, Success := false, Message := "Invalid email or password", Data := none,
        SetCookie := none, db := db } := by
  simp only [HandleLogin, hu, hp, Bool.not_false, if_true]

/-- C16: for every login request, the response in a store where no user has the
email and the response in a store where the user exists but the password does not
match are the same: status 401, the message "Invalid email or password", no data;
in both cases no cookie is set and the store, its sessions included, is unchanged. -/
theorem HandleLogin_failures_identical (cipher : BlowfishCipher) (rnd : RandSource)
    (db1 db2 : DB) (req : LoginRequest) (user : User) (a1 a2 b1 b2 : Time)
    (hno : ∀ r ∈ db1.users, r.email ≠ req.Email)
    (hu : GetUserByUsername db2 req.Email = Except.ok user)
    (hp : CheckPasswordHash cipher req.Password user.Password = false) :
    (HandleLogin cipher rnd db1 (some req) a1 a2).Status = 401 ∧
      (HandleLogin cipher rnd db1 (some req) a1 a2).Message = "Invalid email or password" ∧
      (HandleLogin cipher rnd db1 (some req) a1 a2).Status =
        (HandleLogin cipher rnd db2 (some req) b1 b2).Status ∧
      (HandleLogin cipher rnd db1 (some req) a1 a2).Success =
        (HandleLogin cipher rnd db2 (some req) b1 b2).Success ∧
      (HandleLogin cipher rnd db1 (some req) a1 a2).Message =
        (HandleLogin cipher rnd db2 (some req) b1 b2).Message ∧
      (HandleLogin cipher rnd db1 (some req) a1 a2).Data =
        (HandleLogin cipher rnd db2 (some req) b1 b2).Data ∧
      (HandleLogin cipher rnd db1 (some req) a1 a2).SetCookie = none ∧
      (HandleLogin cipher rnd db2 (some req) b1 b2).SetCookie = none ∧
      (HandleLogin cipher rnd db1 (some req) a1 a2).db = db1 ∧
      (HandleLogin cipher rnd db2 (some req) b1 b2).db = db2 := by
  rw [HandleLogin_unknown_email cipher rnd db1 req a1 a2 hno,
    HandleLogin_wrong_password cipher rnd db2 req user b1 b2 hu hp]
  exact ⟨rfl, rfl, rfl, rfl, rfl, rfl, rfl, rfl, rfl, rfl⟩

set_option maxRecDepth 100000 in
/-- C16 at concrete stores: the empty store and the store with `a@example.com`,
asked with a wrong password. -/
theorem HandleLogin_failures_identical_witness :
    (∀ r ∈ emptyDB.users, r.email ≠ gs "a@example.com") ∧
      (HandleLogin toyCipher sampleRand emptyDB
          (some { Email := gs "a@example.com", Password := gs "wrong" }) 10 20).Status =
        (HandleLogin toyCipher sampleRand registeredDB
          (some { Email := gs "a@example.com", Password := gs "wrong" }) 30 40).Status ∧
      (HandleLogin toyCipher sampleRand registeredDB
          (some { Email := gs "a@example.com", Password := gs "wrong" }) 30 40).db.sessions = [] ∧
      (HandleLogin toyCipher sampleRand registeredDB
          (some { Email := gs "a@example.com", Password := gs "secret123" }) 30 40).Status = 200 :=
  have h := HandleLogin_failures_identical toyCipher sampleRand emptyDB registeredDB
    { Email := gs "a@example.com", Password := gs "wrong" }
    { ID := gs "1700000000000000000", Email := gs "a@example.com",
      Password := gs "$2a$10$.umPE/6kJRO5OijOTz3jZ.o8Vax5gwb44NXULIXWAAYE4TR2b2RQ.",
      Created := 1, Updated := 1 } 10 20 30 40 (by decide) (by decide) (by decide)
  ⟨by decide, h.2.2.1, by rw [h.2.2.2.2.2.2.2.2.2]; rfl, by decide⟩

/-- The conflict response of `HandleRegister`. -/
theorem HandleRegister_of_stored_email (cipher : BlowfishCipher) (rnd : RandSource) (db : DB)
    (req : RegisterRequest) (tID tCreated tUpdated : Time)
    (he : req.Email ≠ []) (hp : req.Password ≠ [])
    (hex : ∃ r ∈ db.users, r.email = req.Email) :
    HandleRegister cipher rnd db (some req) tID tCreated tUpdated =
      { Status := 409, Success := false, Message := "Email already exists", Data := none,
        SetCookie := none, db := db } := by
  obtain ⟨user, hu⟩ := GetUserByUsername_ok db req.Email hex
  simp only [HandleRegister, he, hp, or_self, if_false, hu]

/-- The conflict response is given for a stored email only. -/
theorem HandleRegister_conflict_only (cipher : BlowfishCipher) (rnd : RandSource) (db : DB)
    (body : Option RegisterRequest) (tID tCreated tUpdated : Time)
    (h : (HandleRegister cipher rnd db body tID tCreated tUpdated).Status = 409 ∨
      (HandleRegister cipher rnd db body tID tCreated tUpdated).Message =
        "Email already exists") :
    ∃ req, body = some req ∧ ∃ r ∈ db.users, r.email = req.Email := by
  cases body with
  | none => simp [HandleRegister] at h
  | some req =>
    refine ⟨req, rfl, ?_⟩
    unfold HandleRegister at h
    simp only at h
    by_cases hreq : req.Email = [] ∨ req.Password = []
    · simp [hreq] at h
    · rw [if_neg hreq] at h
      cases hu : GetUserByUsername db req.Email with
      | ok user =>
        obtain ⟨r, hr, he, _⟩ := GetUserByUsername_found db req.Email user hu
        exact ⟨r, hr, he⟩
      | error e =>
        simp only [hu] at h
        cases hh : HashPassword cipher rnd req.Password with
        | error e' => simp [hh] at h
        | ok hashed =>
          simp only [hh] at h
          cases hc : CreateUser db
              { ID := GenerateID tID, Email := req.Email, Password := hashed,
                Created := tCreated, Updated := tUpdated } with
          | error e'' => simp [hc] at h
          | ok db' => simp [hc] at h

/-- C17: for every register request with non-empty email and password whose email
belongs to a stored user, `HandleRegister` answers with status 409 and the message
"Email already exists" and leaves the store unchanged; no other outcome of
`HandleRegister` has that status or that message. -/
theorem HandleRegister_conflict (cipher : BlowfishCipher) (rnd : RandSource) (db : DB)
    (req : RegisterRequest) (tID tCreated tUpdated : Time)
    (he : req.Email ≠ []) (hp : req.Password ≠ [])
    (hex : ∃ r ∈ db.users, r.email = req.Email) :
    HandleRegister cipher rnd db (some req) tID tCreated tUpdated =
        { Status := 409, Success := false, Message := "Email already exists", Data := none,
          SetCookie := none, db := db } ∧
      ∀ (db' : DB) (body : Option RegisterRequest) (t1 t2 t3 : Time),
        ((HandleRegister cipher rnd db' body t1 t2 t3).Status = 409 ∨
          (HandleRegister cipher rnd db' body t1 t2 t3).Message = "Email already exists") →
        ∃ req', body = some req' ∧ ∃ r ∈ db'.users, r.email = req'.Email :=
  ⟨HandleRegister_of_stored_email cipher rnd db req tID tCreated tUpdated he hp hex,
    fun db' body t1 t2 t3 h => HandleRegister_conflict_only cipher rnd db' body t1 t2 t3 h⟩

set_option maxRecDepth 100000 in
/-- C17 at a concrete store: `a@example.com` registers in the empty store, which
gives the store `registeredDB`; registering the same email again is the conflict. -/
theorem HandleRegister_conflict_witness :
    (HandleRegister toyCipher sampleRand emptyDB
        (some { Email := gs "a@example.com", Password := gs "secret123" })
        1700000000000000000 1 1).db = registeredDB ∧
      HandleRegister toyCipher sampleRand registeredDB
          (some { Email := gs "a@example.com", Password := gs "other" }) 1700000000000000005 2 2 =
        { Status := 409, Success := false, Message := "Email already exists", Data := none,
          SetCookie := none, db := registeredDB } :=
  ⟨by decide,
    (HandleRegister_conflict toyCipher sampleRand registeredDB
      { Email := gs "a@example.com", Password := gs "other" } 1700000000000000005 2 2
      (by decide) (by decide) (by decide)).1⟩

/-! ## Theorems: the JSON text of a user -/

theorem htmlSafe_digitChar (n : Nat) : htmlSafe (digitChar n) = true := by
  unfold digitChar
  have h := Nat.mod_lt n (by decide : 10 > 0)
  generalize n % 10 = k at h
  interval_cases k <;> rfl

theorem allSafe_append (a b : List Byte) (ha : allSafe a = true) (hb : allSafe b = true) :
    allSafe (a ++ b) = true := by
  unfold allSafe at *
  rw [List.all_append, ha, hb]
  rfl

theorem allSafe_cons (a : Byte) (b : List Byte) (ha : htmlSafe a = true) (hb : allSafe b = true) :
    allSafe (a :: b) = true := by
  unfold allSafe at *
  rw [List.all_cons, ha, hb]
  rfl

theorem allSafe_pad2 (n : Nat) : allSafe (pad2 n) = true := by
  simp [allSafe, pad2, htmlSafe_digitChar]

theorem allSafe_pad4 (n : Nat) : allSafe (pad4 n) = true := by
  simp [allSafe, pad4, htmlSafe_digitChar]

theorem allSafe_decimalDigits (fuel : Nat) : ∀ n, allSafe (decimalDigits fuel n) = true := by
  induction fuel with
  | zero =>
    intro n
    rfl
  | succ f ih =>
    intro n
    unfold decimalDigits
    by_cases h : n < 10
    · rw [if_pos h]
      exact allSafe_cons _ _ (htmlSafe_digitChar n) rfl
    · rw [if_neg h]
      exact allSafe_append _ _ (ih _) (allSafe_cons _ _ (htmlSafe_digitChar n) rfl)

theorem allSafe_replicate_zero (k : Nat) : allSafe (List.replicate k (0x30 : Byte)) = true := by
  induction k with
  | zero => rfl
  | succ k ih =>
    rw [List.replicate_succ]
    exact allSafe_cons _ _ (by decide) ih

/-- A number that is not negative is written in digits only. -/
theorem allSafe_appendInt (x : Int) (width : Nat) (hx : 0 ≤ x) :
    allSafe (appendInt x width) = true := by
  unfold appendInt
  rw [if_neg (by omega), List.nil_append]
  split
  · exact allSafe_pad2 _
  · split
    · exact allSafe_pad4 _
    · exact allSafe_append _ _ (allSafe_replicate_zero _) (allSafe_decimalDigits _ _)

theorem allSafe_formatFraction (nsec : Nat) : allSafe (formatFraction nsec) = true := by
  unfold formatFraction
  by_cases h : nsec = 0
  · rw [if_pos h]
    rfl
  · rw [if_neg h]
    refine allSafe_cons _ _ (by decide) ?_
    unfold allSafe
    rw [List.all_eq_true]
    intro x hx
    rw [List.mem_reverse] at hx
    have hx' := (List.dropWhile_suffix _).subset hx
    simp only [List.reverse_cons, List.reverse_nil, List.nil_append, List.cons_append,
      List.mem_cons, List.mem_singleton, List.not_mem_nil, or_false] at hx'
    rcases hx' with h | h | h | h | h | h | h | h | h <;> rw [h] <;> exact htmlSafe_digitChar _

theorem allSafe_formatZone (offset : Int) : allSafe (formatZone offset) = true := by
  unfold formatZone
  refine allSafe_cons _ _ ?_ ?_
  · split <;> decide
  · exact allSafe_append _ _ (allSafe_appendInt _ 2 (Int.natCast_nonneg _))
      (allSafe_cons _ _ (by decide) (allSafe_appendInt _ 2 (Int.natCast_nonneg _)))

theorem allSafe_formatDateClock (sep : Byte) (offset : Int) (t : Time)
    (hsep : htmlSafe sep = true) (hy : 0 ≤ Time.Year offset t) :
    allSafe (formatDateClock sep offset t) = true := by
  have e : ∀ a b : List Byte, allSafe (a ++ b) = (allSafe a && allSafe b) :=
    fun a b => List.all_append
  have c : ∀ (a : Byte) (b : List Byte), allSafe (a :: b) = (htmlSafe a && allSafe b) :=
    fun a b => List.all_cons
  have hyear : allSafe
      (appendInt (civilFromDays (wallClock offset t / 1000000000 / 86400)).1 4) = true :=
    allSafe_appendInt _ 4 hy
  have hnat : ∀ n : Nat, allSafe (appendInt (n : Int) 2) = true :=
    fun n => allSafe_appendInt _ 2 (Int.natCast_nonneg n)
  simp only [formatDateClock, e, c, hyear, hnat, allSafe_formatFraction, hsep, Bool.true_and,
    Bool.and_true]
  decide

theorem allSafe_formatRFC3339 (offset : Int) (t : Time) (hy : 0 ≤ Time.Year offset t) :
    allSafe (formatRFC3339 offset t) = true := by
  unfold formatRFC3339
  refine allSafe_append _ _ (allSafe_formatDateClock _ offset t (by decide) hy) ?_
  split
  · decide
  · exact allSafe_formatZone offset

/-- A text of printable ASCII without the characters that `appendString` escapes is
valid UTF-8 and is written as it is. -/
theorem appendStringBody_of_allSafe (s : List Byte) (h : allSafe s = true) :
    appendStringBody s = s ∧ ValidString s = true := by
  induction s with
  | nil => exact ⟨by rw [appendStringBody], by rw [ValidString]⟩
  | cons b t ih =>
    unfold allSafe at h ih
    rw [List.all_cons, Bool.and_eq_true] at h
    have hb := h.1
    have hlt : b.val < 0x80 := by
      simp only [htmlSafe, decide_eq_true_eq] at hb
      exact hb.2.1
    obtain ⟨i1, i2⟩ := ih h.2
    constructor
    · rw [appendStringBody_ascii b t hlt, i1]
      simp [escapeASCII, hb]
    · unfold ValidString
      rw [if_pos hlt]
      exact i2

/-- The text `Time.MarshalJSON` writes is read back as the string of the time. -/
theorem parseValue_time (d : Nat) (offset : Int) (t : Time) (txt : List Byte)
    (h : Time.MarshalJSON offset t = Except.ok txt) :
    ParsesTo d txt (JSON.str (formatRFC3339 offset t)) := by
  unfold Time.MarshalJSON at h
  by_cases hy : Time.Year offset t < 0 ∨ Time.Year offset t > 9999
  · rw [if_pos hy] at h
    exact Except.noConfusion h
  · rw [if_neg hy] at h
    split at h
    · exact Except.noConfusion h
    · simp only [Except.ok.injEq] at h
      obtain ⟨h1, h2⟩ := appendStringBody_of_allSafe _
        (allSafe_formatRFC3339 offset t (by omega))
      have hp := parseValue_string d (formatRFC3339 offset t) h2
      rw [appendString, h1] at hp
      rw [← h]
      exact hp

/-- What `User.ToJSON` writes when it succeeds. -/
theorem User_ToJSON_ok (u : User) (co uo : Int) (out : List Byte)
    (h : User.ToJSON u co uo = Except.ok out) :
    ∃ created updated, Time.MarshalJSON co u.Created = Except.ok created ∧
      Time.MarshalJSON uo u.Updated = Except.ok updated ∧
      out = encodeObject
        [(gs "id", appendString u.ID), (gs "email", appendString u.Email),
          (gs "created", created), (gs "updated", updated)] := by
  unfold User.ToJSON at h
  cases hc : Time.MarshalJSON co u.Created with
  | error e => simp [hc] at h
  | ok created =>
    cases hu : Time.MarshalJSON uo u.Updated with
    | error e => simp [hc, hu] at h
    | ok updated =>
      simp only [hc, hu, Except.ok.injEq] at h
      exact ⟨created, updated, rfl, rfl, h.symm⟩

/-- The text of a user with valid UTF-8 id and email parses to an object with the
four members `id`, `email`, `created` and `updated`. -/
theorem parseJSON_User_ToJSON (u : User) (co uo : Int) (out : List Byte)
    (hid : ValidString u.ID = true) (hem : ValidString u.Email = true)
    (h : User.ToJSON u co uo = Except.ok out) :
    parseJSON out =
      some (JSON.obj
        [(gs "id", JSON.str u.ID), (gs "email", JSON.str u.Email),
          (gs "created", JSON.str (formatRFC3339 co u.Created)),
          (gs "updated", JSON.str (formatRFC3339 uo u.Updated))]) := by
  obtain ⟨created, updated, hc, hu, rfl⟩ := User_ToJSON_ok u co uo out h
  have hp := parseValue_object 0 (by decide)
    [(gs "id", appendString u.ID, JSON.str u.ID),
      (gs "email", appendString u.Email, JSON.str u.Email),
      (gs "created", created, JSON.str (formatRFC3339 co u.Created)),
      (gs "updated", updated, JSON.str (formatRFC3339 uo u.Updated))] (by
    intro it hit
    simp only [List.mem_cons, List.mem_singleton, List.not_mem_nil, or_false] at hit
    rcases hit with rfl | rfl | rfl | rfl
    · exact ⟨(show ValidString (gs "id") = true from by decide), parseValue_string _ _ hid⟩
    · exact ⟨(show ValidString (gs "email") = true from by decide), parseValue_string _ _ hem⟩
    · exact ⟨(show ValidString (gs "created") = true from by decide),
        parseValue_time _ _ _ _ hc⟩
    · exact ⟨(show ValidString (gs "updated") = true from by decide),
        parseValue_time _ _ _ _ hu⟩)
  simp only [List.map_cons, List.map_nil] at hp
  have hq := hp (2 * (encodeObject
    [(gs "id", appendString u.ID), (gs "email", appendString u.Email),
      (gs "created", created), (gs "updated", updated)]).length + 2) [] (by omega)
  rw [List.append_nil] at hq
  simp only [parseJSON, hq, skipSpace, if_true]

/-- C18: the text `User.ToJSON` writes does not depend on the password hash: two
users that differ only in `Password` give the same result, whatever zones their
times carry; a text that is written is the object with the members `id`, `email`,
`created` and `updated` and no other, and for valid UTF-8 id and email it parses to
exactly these four members, the times in the zones they carry. -/
theorem User_ToJSON_hides_password (u : User) (createdOffset updatedOffset : Int) :
    (∀ p : GoString,
        User.ToJSON { u with Password := p } createdOffset updatedOffset =
          User.ToJSON u createdOffset updatedOffset) ∧
      (∀ out, User.ToJSON u createdOffset updatedOffset = Except.ok out →
        ∃ created updated, out = encodeObject
          [(gs "id", appendString u.ID), (gs "email", appendString u.Email),
            (gs "created", created), (gs "updated", updated)]) ∧
      (ValidString u.ID = true → ValidString u.Email = true →
        ∀ out, User.ToJSON u createdOffset updatedOffset = Except.ok out →
          parseJSON out =
            some (JSON.obj
              [(gs "id", JSON.str u.ID), (gs "email", JSON.str u.Email),
                (gs "created", JSON.str (formatRFC3339 createdOffset u.Created)),
                (gs "updated", JSON.str (formatRFC3339 updatedOffset u.Updated))])) := by
  refine ⟨fun p => rfl, ?_, ?_⟩
  · intro out h
    obtain ⟨created, updated, _, _, ho⟩ := User_ToJSON_ok u createdOffset updatedOffset out h
    exact ⟨created, updated, ho⟩
  · intro hid hem out h
    exact parseJSON_User_ToJSON u createdOffset updatedOffset out hid hem h

set_option maxRecDepth 100000 in
/-- C18 at a concrete user whose `Created` carries a zone five hours west of UTC and
whose `Updated` carries UTC: the text that is written, and the same text for another
password hash. -/
theorem User_ToJSON_sample :
    User.ToJSON datedUser (-18000) 0 =
        Except.ok (gs ("\x7b\"id\":\"u1\",\"email\":\"a@example.com\"," ++
          "\"created\":\"2023-11-14T17:13:20.5-05:00\"," ++
          "\"updated\":\"2023-11-14T22:13:20.5Z\"\x7d")) ∧
      User.ToJSON { datedUser with Password := gs "another hash" } (-18000) 0 =
        User.ToJSON datedUser (-18000) 0 :=
  ⟨by decide, (User_ToJSON_hides_password datedUser (-18000) 0).1 _⟩

/-! ## Theorems: the default pool type and the validator -/

theorem hasPoolType_head (first : PoolTypeConfig) (rest : List PoolTypeConfig) :
    hasPoolType first.Name (first :: rest) = true := by
  simp [hasPoolType]

theorem ValidatePoolType_empty (t : GoString) :
    ValidatePoolType (some { PoolTypes := [] }) t = false := rfl

/-- C21 (counterexample): in the registry loaded with an empty type list,
`GetDefaultPoolType` returns `"AllyHub Desktop App"` and `ValidatePoolType` rejects
it. -/
theorem GetDefaultPoolType_rejected_when_empty :
    GetDefaultPoolType (some emptyConfig) = gs "AllyHub Desktop App" ∧
      ValidatePoolType (some emptyConfig) (GetDefaultPoolType (some emptyConfig)) = false :=
  ⟨rfl, rfl⟩

/-- C21 (amended): in every registry state that is unset or loaded with one or more
types, the type `GetDefaultPoolType` returns is accepted by `ValidatePoolType`. -/
theorem GetDefaultPoolType_valid (poolConfig : Option PoolConfiguration)
    (h : poolConfig ≠ some { PoolTypes := [] }) :
    ValidatePoolType poolConfig (GetDefaultPoolType poolConfig) = true := by
  cases poolConfig with
  | none => simp [ValidatePoolType, GetDefaultPoolType]
  | some cfg =>
    obtain ⟨types⟩ := cfg
    cases types with
    | nil => exact absurd rfl h
    | cons first rest => exact hasPoolType_head first rest

/-- C21 (witness): the unset registry and a registry with one type. -/
theorem GetDefaultPoolType_valid_witness :
    ValidatePoolType none (GetDefaultPoolType none) = true ∧
      some sampleConfig ≠ some { PoolTypes := [] } ∧
      ValidatePoolType (some sampleConfig) (GetDefaultPoolType (some sampleConfig)) = true :=
  ⟨by decide, by decide, GetDefaultPoolType_valid (some sampleConfig) (by decide)⟩

/-! ## Theorems: deleting tokens and pools -/

/-- `HandleDeleteAPIToken` removes every token with the id of the path, whoever
owns it, and answers 200. -/
theorem HandleDeleteAPIToken_any_owner (db : DB) (user : User) (t : GoString) :
    (HandleDeleteAPIToken db user t).Status = 200 ∧
      (HandleDeleteAPIToken db user t).db.api_tokens =
        db.api_tokens.filter (fun r => decide (r.id ≠ t)) := by
  refine ⟨rfl, ?_⟩
  simp only [HandleDeleteAPIToken, DeleteAPIToken]
  congr 1
  funext r
  simp

/-- The sibling `HandleDeleteEndpointPool` leaves every pool of another user in the
store. -/
theorem HandleDeleteEndpointPool_scoped (db : DB) (user : User) (x : GoString) (r : PoolRow)
    (hr : r ∈ db.endpoint_pools) (hu : r.user_id ≠ user.ID) :
    r ∈ (HandleDeleteEndpointPool db user x).db.endpoint_pools := by
  unfold HandleDeleteEndpointPool
  cases GetEndpointPool db user.ID x with
  | error e => exact hr
  | ok p =>
    simp only [DeleteEndpointPool, List.mem_filter]
    refine ⟨hr, ?_⟩
    simp [PoolRow.hasKey, hu]

/-- C22: user `u1` calls `HandleDeleteAPIToken` with the id of a token that `u2`
owns; the answer is 200 and the token of `u2` is gone from the store, while the
sibling `HandleDeleteEndpointPool`, called by `u1` with the id of the pool of `u2`,
answers 404 and leaves the store as it is. -/
theorem HandleDeleteAPIToken_deletes_foreign_token :
    foreignTokenRow ∈ foreignTokenDB.api_tokens ∧
      foreignTokenRow.user_id ≠ sampleUser.ID ∧
      (HandleDeleteAPIToken foreignTokenDB sampleUser (gs "1700000000000000001")).Status = 200 ∧
      (HandleDeleteAPIToken foreignTokenDB sampleUser (gs "1700000000000000001")).db.api_tokens
        = [] ∧
      (HandleDeleteEndpointPool foreignTokenDB sampleUser (gs "q1")).Status = 404 ∧
      (HandleDeleteEndpointPool foreignTokenDB sampleUser (gs "q1")).db = foreignTokenDB :=
  ⟨by decide, by decide, by decide, by decide, by decide, by decide⟩

end AllyHub
